import Mathlib

/-!
# disk-filltest: the generate / write / verify engine

A shallow embedding of `disk-filltest.c` (version 0.8.0W).

* Machine integers are naturals; `unsigned int` arithmetic is reduced modulo `2^32`
  and `uint64_t` arithmetic modulo `2^64` where the source can wrap.
* The byte counters of the source are `double`s that only ever hold sums of byte
  counts; they are naturals here (a `double` is exact on integers below `2^53`).
* The operating system is an explicit environment: a directory of names, a store of
  file contents addressed by descriptor, and oracles giving the return value of every
  `open(O_CREAT)`, `write` and `read` call.
* Console output is recorded as a list of events, one per system call or message.
* A file name `random-%08u` is represented by the number that is formatted into it;
  the format is injective on 32-bit values and the 32-byte buffer is never exceeded.
* The file loops take no time stamps; the speed line they print is a function of the
  byte count and the two time stamps of a file, taken as exact rational numbers. The
  colour handling and the statistics `main` prints are left out.
-/

namespace DiskFilltest

/-! ## Constants and globals -/

/-- The constant `UINT_MAX` of a 32-bit `unsigned int`. -/
def UINT_MAX : Nat := 4294967295

/-- Number of items of `item_type block[1024*1024 / sizeof(item_type)]`. -/
def BLOCK_ITEMS : Nat := 1024 * 1024 / 8

/-- Block count of the small-block loops, `2048 + 2`. -/
def SMALL_BLOCKS : Nat := 2048 + 2

/-- The global variables of the program, with their initialisers (lines 49-101).
`g_filehandle_size` is the length of `g_filehandle`. -/
structure Globals where
  g_seed : Nat := 1434038592
  gopt_readonly : Nat := 0
  gopt_unlink_immediate : Nat := 0
  gopt_unlink_after : Nat := 0
  gopt_file_size : Nat := 1024
  gopt_file_limit : Nat := 4294967295
  gopt_sector_size_in512 : Nat := 8
  fulfill : Nat := 0
  multicolor : Nat := 0
  errors_found : Nat := 0
  gbyteread : Nat := 0
  gbytewrite : Nat := 0
  gbytereadn : Nat := 0
  gbytewriten : Nat := 0
  g_filehandle : List Nat := []
  g_filehandle_limit : Nat := 0

/-- Number of items of the variable-length array
`item_type block2[gopt_sector_size_in512 * 512 / sizeof(item_type)]`; the product is
computed in `unsigned int`. -/
def small_items (g : Globals) : Nat := (g.gopt_sector_size_in512 * 512 % 2 ^ 32) / 8

/-! ## Stream generator -/

/-- The function `lcg_random` (lines 89-93): given the value of `*xn`, the pair of the
returned value and the new value of `*xn`. The sum `0x27BB2EE687B0B0FD * *xn + 0xB504F32D`
is written with the constant first, which keeps the term inert when it is unfolded on a
symbolic argument; `lcg_random_val` gives it in the order of the source. -/
def lcg_random (xn : Nat) : Nat × Nat :=
  let x := (0xB504F32D + 0x27BB2EE687B0B0FD * xn) % 2 ^ 64
  (x, x)

/-- The fill loop `for (i = 0; i < n; ++i) block[i] = lcg_random(&rnd);`
(lines 411-412 and 521-522): the block and the final generator state. -/
def fill_block : Nat → Nat → List Nat × Nat
  | 0, rnd => ([], rnd)
  | n + 1, rnd =>
    let r := lcg_random rnd
    let rest := fill_block n r.2
    (r.1 :: rest.1, rest.2)

/-- The eight bytes of one item in memory, least significant byte first. -/
def item_bytes (v : Nat) : List Nat :=
  [v % 256, v / 256 % 256, v / 65536 % 256, v / 16777216 % 256,
   v / 4294967296 % 256, v / 1099511627776 % 256, v / 281474976710656 % 256,
   v / 72057594037927936 % 256]

/-- The item stored in eight bytes, least significant byte first. -/
def item_of_bytes (b0 b1 b2 b3 b4 b5 b6 b7 : Nat) : Nat :=
  b0 + 256 * (b1 + 256 * (b2 + 256 * (b3 + 256 * (b4 + 256 * (b5 + 256 * (b6 + 256 * b7))))))

/-- The bytes of a block of items, as `(char*)block` sees them. -/
def block_bytes : List Nat → List Nat
  | [] => []
  | v :: vs => item_bytes v ++ block_bytes vs

/-- The complete items `block[0 .. rb / sizeof(item_type) - 1]` held by the bytes a read
returned; an incomplete trailing item is not looked at. -/
def decode_items : List Nat → List Nat
  | b0 :: b1 :: b2 :: b3 :: b4 :: b5 :: b6 :: b7 :: rest =>
    item_of_bytes b0 b1 b2 b3 b4 b5 b6 b7 :: decode_items rest
  | _ => []

/-! ## Environment -/

/-- The directory and the file store. A descriptor is the key of the content it
refers to, so a file stays readable through its descriptor after its name is gone. -/
structure World where
  dir : Nat → Option Nat
  store : Nat → List Nat
  isopen : Nat → Bool
  next : Nat

/-- What the operating system answers: whether `open(O_CREAT)` of a name succeeds, and
the return value the k-th `write` and the k-th `read` call would like to give. -/
structure Env where
  creat : Nat → Bool
  wr : Nat → Int
  rd : Nat → Int

/-- Events of a run: system calls with their results, and the messages printed.
`nospace` records that a write loop entered its branch `wtotal == 0` for a file; the
message of that branch is printed by the source only when `multicolor == 1`, the
`unlink` that follows it in every case. -/
inductive Ev where
  | creat (name fd : Nat)
  | creatFail (name : Nat)
  | unlink (name : Nat) (ok : Bool)
  | wstart (name rnd : Nat)
  | write (name req : Nat) (wb : Int)
  | append (fd : Nat)
  | close (fd : Nat)
  | nospace (name : Nat)
  | wrote (name wtotal : Nat)
  | finished
  | handle (name idx fd : Nat)
  | seekFail (name : Nat)
  | openr (name fd : Nat)
  | openFail (name : Nat)
  | rstart (name rnd : Nat)
  | read (name blocknum req : Nat) (rb : Int)
  | fault (name blocknum offset : Nat)
  | readrep (name rtotal : Nat)
  deriving DecidableEq, Repr

/-- The call `open(filename, O_RDWR | O_CREAT | O_TRUNC | O_BINARY, 0600)`: on success
the name refers to an empty file and a descriptor for it is returned. -/
def sys_creat (env : Env) (w : World) (name : Nat) : Option (Nat × World) :=
  if env.creat name then
    some (w.next,
      { dir := fun n => if n = name then some w.next else w.dir n
        store := fun h => if h = w.next then [] else w.store h
        isopen := fun h => if h = w.next then true else w.isopen h
        next := w.next + 1 })
  else none

/-- The call `unlink(filename)`: removes the name when it exists. -/
def sys_unlink (w : World) (name : Nat) : Bool × World :=
  match w.dir name with
  | none => (false, w)
  | some _ => (true, { w with dir := fun n => if n = name then none else w.dir n })

/-- The call `close(fd)`. -/
def sys_close (w : World) (fd : Nat) : World :=
  { w with isopen := fun h => if h = fd then false else w.isopen h }

/-- The call `open(filename, O_RDONLY | O_BINARY)`. -/
def sys_open (w : World) (name : Nat) : Option (Nat × World) :=
  match w.dir name with
  | none => none
  | some fd => some (fd, { w with isopen := fun h => if h = fd then true else w.isopen h })

/-- Whether `lseek(fd, 0, SEEK_SET)` returns 0: it does on an open descriptor. -/
def sys_lseek0 (w : World) (fd : Nat) : Bool := w.isopen fd

/-- The return value of the k-th `write` call asked to write `req` bytes: zero or
negative when nothing is written, otherwise a count of at most `req`. -/
def sys_write (env : Env) (k req : Nat) : Int :=
  if env.wr k ≤ 0 then env.wr k else min (env.wr k) (req : Int)

/-- The return value of the k-th `read` call asked for `req` bytes when `avail` bytes
are left in the file. -/
def sys_read (env : Env) (k req avail : Nat) : Int :=
  if env.rd k ≤ 0 then env.rd k else min (env.rd k) (min (req : Int) (avail : Int))

/-- The program state outside the local variables: globals, file system, and the
number of write and read calls made so far. -/
structure State where
  g : Globals
  w : World
  nw : Nat
  nr : Nat

/-! ## Descriptor registry -/

/-- The function `filehandle_append` (lines 161-172). -/
def filehandle_append (g : Globals) (fd : Nat) : Globals :=
  let limit :=
    if g.g_filehandle.length ≥ g.g_filehandle_limit then
      let l := g.g_filehandle_limit * 2 % 2 ^ 32
      if l < 128 then 128 else l
    else g.g_filehandle_limit
  { g with g_filehandle_limit := limit, g_filehandle := g.g_filehandle ++ [fd] }

/-! ## Capacity writer -/

/-- Result of the retry loop. -/
structure RetryRes where
  wp : Nat
  done : Nat
  nw : Nat
  data : List Nat
  evs : List Ev

/-- The retry loop `while (wp != sizeof(block) && !done) { wb = write(...); ... }`
(lines 416-429 and 526-538). `block` holds the bytes of the buffer, `size` is
`sizeof(block)`, `data` the bytes the descriptor has received so far. Every positive
result advances `wp`, so `size - wp` rounds suffice; the first argument counts them. -/
def write_retry (env : Env) (name : Nat) (block : List Nat) (size : Nat) :
    Nat → Nat → Nat → Nat → List Nat → RetryRes
  | 0, wp, done, nw, data => ⟨wp, done, nw, data, []⟩
  | fuel + 1, wp, done, nw, data =>
    if wp ≠ size ∧ done = 0 then
      let wb := sys_write env nw (size - wp)
      if wb ≤ 0 then
        ⟨wp, 1, nw + 1, data, [Ev.write name (size - wp) wb]⟩
      else
        let r := write_retry env name block size fuel (wp + wb.toNat) done (nw + 1)
          (data ++ (block.drop wp).take wb.toNat)
        ⟨r.wp, r.done, r.nw, r.data, Ev.write name (size - wp) wb :: r.evs⟩
    else ⟨wp, done, nw, data, []⟩

/-- Result of the block loop of one file. -/
structure BlocksRes where
  blocknum : Nat
  wp : Nat
  rnd : Nat
  wtotal : Nat
  done : Nat
  nw : Nat
  data : List Nat
  evs : List Ev

/-- The block loop `for (blocknum = 0; blocknum < count; ++blocknum)` of the writer
(lines 409-434 and 519-543) for blocks of `nitems` items; the first argument is the
number of iterations still allowed by the loop condition. `wp` is the value the retry
loop left when the loop ends by `break`, and 0 when it ends by its condition. -/
def write_blocks (env : Env) (name nitems : Nat) :
    Nat → Nat → Nat → Nat → Nat → List Nat → BlocksRes
  | 0, blocknum, rnd, wtotal, nw, data => ⟨blocknum, 0, rnd, wtotal, 0, nw, data, []⟩
  | n + 1, blocknum, rnd, wtotal, nw, data =>
    let b := fill_block nitems rnd
    let r := write_retry env name (block_bytes b.1) (nitems * 8) (nitems * 8) 0 0 nw data
    if r.done ≠ 0 then
      ⟨blocknum, r.wp, b.2, wtotal + r.wp, r.done, r.nw, r.data, r.evs⟩
    else
      let s := write_blocks env name nitems n (blocknum + 1) b.2 (wtotal + r.wp) r.nw r.data
      ⟨s.blocknum, s.wp, s.rnd, s.wtotal, s.done, s.nw, s.data, r.evs ++ s.evs⟩

/-- Result of one iteration of a file loop of the writer. `brk` tells that the
iteration left the loop by `break` before the totals were updated. -/
structure FileRes where
  filenum : Nat
  done : Nat
  brk : Bool
  blocknum : Nat
  wp : Nat
  wtotal : Nat
  fd : Nat
  st : State
  evs : List Ev

/-- The body shared by the two file loops of `fill_randfiles` (lines 377-455 and
479-565) up to the update of the totals: create the file, unlink it at once in
immediate-unlink mode, seed the generator from the incremented file counter, write
`nblocks` blocks of `nitems` items, keep or close the descriptor, and delete the file
when nothing was written (the event `nospace` marks that branch, whether or not
`multicolor` lets its message be printed). -/
def fill_file (env : Env) (nitems nblocks : Nat) (filenum : Nat) (st : State) : FileRes :=
  match sys_creat env st.w filenum with
  | none => ⟨filenum, 0, true, 0, 0, 0, 0, st, [Ev.creatFail filenum]⟩
  | some (fd, w1) =>
    let u1 := if st.g.gopt_unlink_immediate ≠ 0 then sys_unlink w1 filenum else (true, w1)
    let e1 := if st.g.gopt_unlink_immediate ≠ 0 then [Ev.unlink filenum u1.1] else []
    let filenum1 := (filenum + 1) % 2 ^ 32
    let rnd := (st.g.g_seed + filenum1) % 2 ^ 32
    let r := write_blocks env filenum nitems nblocks 0 rnd 0 st.nw []
    let w2 : World := { u1.2 with store := fun h => if h = fd then r.data else u1.2.store h }
    let g3 := if st.g.gopt_unlink_immediate ≠ 0 then filehandle_append st.g fd else st.g
    let w3 := if st.g.gopt_unlink_immediate ≠ 0 then w2 else sys_close w2 fd
    let e3 := if st.g.gopt_unlink_immediate ≠ 0 then [Ev.append fd] else [Ev.close fd]
    let u4 := if r.wtotal = 0 then sys_unlink w3 filenum else (true, w3)
    let e4 :=
      if r.wtotal = 0 then [Ev.nospace filenum, Ev.unlink filenum u4.1]
      else [Ev.wrote filenum r.wtotal]
    ⟨filenum1, r.done, false, r.blocknum, r.wp, r.wtotal, fd,
      { g := g3, w := u4.2, nw := r.nw, nr := st.nr },
      Ev.creat filenum fd :: (e1 ++ Ev.wstart filenum rnd :: (r.evs ++ (e3 ++ e4)))⟩

/-- Result of a file loop. `finished` tells that the loop was left by its condition
or by `break`, not by the iteration bound of the embedding. -/
structure PhaseRes where
  filenum : Nat
  done : Nat
  st : State
  evs : List Ev
  finished : Bool

/-- The large-block loop `while (!done && filenum < gopt_file_limit)` (lines 375-459).
The first argument bounds the number of iterations. -/
def fill_large (env : Env) : Nat → Nat → Nat → State → PhaseRes
  | 0, filenum, done, st =>
    ⟨filenum, done, st, [], !(decide (done = 0 ∧ filenum < st.g.gopt_file_limit))⟩
  | fuel + 1, filenum, done, st =>
    if done = 0 ∧ filenum < st.g.gopt_file_limit then
      let r := fill_file env BLOCK_ITEMS st.g.gopt_file_size filenum st
      if r.brk then ⟨r.filenum, r.done, r.st, r.evs, true⟩
      else
        let gw := r.st.g.gbytewrite + r.wtotal
        let st1 : State :=
          { r.st with g := { r.st.g with gbytewrite := gw, gbytewriten := gw } }
        let s := fill_large env fuel r.filenum r.done st1
        ⟨s.filenum, s.done, s.st, r.evs ++ s.evs, s.finished⟩
    else ⟨filenum, done, st, [], true⟩

/-- The small-block loop `while (!done && fulfill == 1)` (lines 476-568). The first
argument bounds the number of iterations. -/
def fill_small (env : Env) : Nat → Nat → Nat → State → PhaseRes
  | 0, filenum, done, st =>
    ⟨filenum, done, st, [], !(decide (done = 0 ∧ st.g.fulfill = 1))⟩
  | fuel + 1, filenum, done, st =>
    if done = 0 ∧ st.g.fulfill = 1 then
      let r := fill_file env (small_items st.g) SMALL_BLOCKS filenum st
      if r.brk then ⟨r.filenum, r.done, r.st, r.evs, true⟩
      else
        let st1 : State :=
          { r.st with g := { r.st.g with gbytewrite := r.st.g.gbytewrite + r.wtotal } }
        let s := fill_small env fuel r.filenum r.done st1
        ⟨s.filenum, s.done, s.st, r.evs ++ s.evs, s.finished⟩
    else ⟨filenum, done, st, [], true⟩

/-- Result of `fill_randfiles` or `read_randfiles`: the final state and the events of
the large-block and of the small-block loop. -/
structure RunRes where
  st : State
  large : List Ev
  small : List Ev
  finished : Bool

/-- The function `fill_randfiles` (lines 351-571). The large-block loop runs at most
`gopt_file_limit` times because `filenum` starts at 0 and grows by one per iteration;
`fuel` bounds the small-block loop, which the source does not bound. -/
def fill_randfiles (env : Env) (fuel : Nat) (st : State) : RunRes :=
  let r1 := fill_large env st.g.gopt_file_limit 0 0 st
  let r2 := fill_small env fuel r1.filenum 0 r1.st
  ⟨r2.st, r1.evs, r2.evs, r1.finished && r2.finished⟩

/-! ## Verifier -/

/-- Result of the comparison loop of one block. -/
structure CheckRes where
  rnd : Nat
  g : Globals
  evs : List Ev

/-- The comparison loop `for (i = 0; i < rb / sizeof(item_type); ++i)` (lines 657-672
and 764-781) over the items a read returned, starting at index `i`: every item is
compared with the next generator value; a mismatch increments `errors_found`, prints
the file name, block number and byte offset `i * sizeof(item_type)`, and clears
`gopt_unlink_after`. There is no `break`. -/
def check_block (name blocknum : Nat) : List Nat → Nat → Nat → Globals → CheckRes
  | [], _, rnd, g => ⟨rnd, g, []⟩
  | x :: xs, i, rnd, g =>
    let r := lcg_random rnd
    if x ≠ r.1 then
      let c := check_block name blocknum xs (i + 1) r.2
        { g with errors_found := (g.errors_found + 1) % 2 ^ 32, gopt_unlink_after := 0 }
      ⟨c.rnd, c.g, Ev.fault name blocknum (i * 8) :: c.evs⟩
    else check_block name blocknum xs (i + 1) r.2 g

/-- Result of the block loop of the verifier for one file. -/
structure RBlocksRes where
  rnd : Nat
  rtotal : Nat
  done : Nat
  nr : Nat
  g : Globals
  evs : List Ev

/-- The block loop of the verifier (lines 644-676 and 753-785) reading `size` bytes
per call; `rest` is the part of the file after the read position and the first
argument the number of iterations the loop condition still allows. -/
def read_blocks (env : Env) (name size : Nat) :
    Nat → Nat → List Nat → Nat → Nat → Nat → Globals → RBlocksRes
  | 0, _, _, rnd, rtotal, nr, g => ⟨rnd, rtotal, 0, nr, g, []⟩
  | n + 1, blocknum, rest, rnd, rtotal, nr, g =>
    let rb := sys_read env nr size rest.length
    if rb ≤ 0 then
      ⟨rnd, rtotal, 1, nr + 1, g, [Ev.read name blocknum size rb]⟩
    else
      let c := check_block name blocknum (decode_items (rest.take rb.toNat)) 0 rnd g
      let s := read_blocks env name size n (blocknum + 1) (rest.drop rb.toNat) c.rnd
        (rtotal + rb.toNat) (nr + 1) c.g
      ⟨s.rnd, s.rtotal, s.done, s.nr, s.g, Ev.read name blocknum size rb :: (c.evs ++ s.evs)⟩

/-- Result of one iteration of a file loop of the verifier. -/
structure RFileRes where
  filenum : Nat
  done : Nat
  brk : Bool
  rtotal : Nat
  st : State
  evs : List Ev

/-- The part of a file loop body of `read_randfiles` that follows the opening of the
file (lines 641-689 and 750-797): read and compare `nblocks` blocks of `size` bytes
through descriptor `fd`, with the generator at `rnd`, then close the descriptor and
report the bytes read. `e0` are the events of the opening. -/
def verify_file (env : Env) (name size nblocks filenum1 rnd fd : Nat) (w1 : World)
    (e0 : List Ev) (st : State) : RFileRes :=
  let r := read_blocks env name size nblocks 0 (w1.store fd) rnd 0 st.nr st.g
  ⟨filenum1, r.done, false, r.rtotal,
    { g := r.g, w := sys_close w1 fd, nw := st.nw, nr := r.nr },
    e0 ++ Ev.rstart name rnd :: (r.evs ++ [Ev.close fd, Ev.readrep name r.rtotal])⟩

/-- The body of the large-block loop of `read_randfiles` (lines 599-693) up to the
update of the totals. The file counter is incremented and the generator seeded first;
in immediate-unlink mode the registry is then indexed with the incremented counter. -/
def read_file_large (env : Env) (filenum : Nat) (st : State) : RFileRes :=
  let filenum1 := (filenum + 1) % 2 ^ 32
  let rnd := (st.g.g_seed + filenum1) % 2 ^ 32
  if st.g.gopt_unlink_immediate ≠ 0 then
    if filenum1 ≥ st.g.g_filehandle.length then
      ⟨filenum1, 0, true, 0, st, [Ev.finished]⟩
    else
      let fd := st.g.g_filehandle.getD filenum1 0
      if sys_lseek0 st.w fd then
        verify_file env filenum (BLOCK_ITEMS * 8) st.g.gopt_file_size filenum1 rnd fd st.w
          [Ev.handle filenum filenum1 fd] st
      else ⟨filenum1, 0, true, 0, st, [Ev.handle filenum filenum1 fd, Ev.seekFail filenum]⟩
  else
    match sys_open st.w filenum with
    | none => ⟨filenum1, 0, true, 0, st, [Ev.openFail filenum]⟩
    | some (fd, w1) =>
      verify_file env filenum (BLOCK_ITEMS * 8) st.g.gopt_file_size filenum1 rnd fd w1
        [Ev.openr filenum fd] st

/-- The body of the small-block loop of `read_randfiles` (lines 706-799) up to the
update of the totals. The registry is indexed and the file opened first; the file
counter is incremented and the generator seeded afterwards. -/
def read_file_small (env : Env) (filenum : Nat) (st : State) : RFileRes :=
  let filenum1 := (filenum + 1) % 2 ^ 32
  let rnd := (st.g.g_seed + filenum1) % 2 ^ 32
  if st.g.gopt_unlink_immediate ≠ 0 then
    if filenum ≥ st.g.g_filehandle.length then
      ⟨filenum, 0, true, 0, st, [Ev.finished]⟩
    else
      let fd := st.g.g_filehandle.getD filenum 0
      if sys_lseek0 st.w fd then
        verify_file env filenum (small_items st.g * 8) SMALL_BLOCKS filenum1 rnd fd st.w
          [Ev.handle filenum filenum fd] st
      else ⟨filenum, 0, true, 0, st, [Ev.handle filenum filenum fd, Ev.seekFail filenum]⟩
  else
    match sys_open st.w filenum with
    | none => ⟨filenum, 0, true, 0, st, [Ev.openFail filenum]⟩
    | some (fd, w1) =>
      verify_file env filenum (small_items st.g * 8) SMALL_BLOCKS filenum1 rnd fd w1
        [Ev.openr filenum fd] st

/-- The large-block loop `while (!done)` of `read_randfiles` (lines 597-694). The first
argument bounds the number of iterations. -/
def read_large (env : Env) : Nat → Nat → Nat → State → PhaseRes
  | 0, filenum, done, st => ⟨filenum, done, st, [], !(decide (done = 0))⟩
  | fuel + 1, filenum, done, st =>
    if done = 0 then
      let r := read_file_large env filenum st
      if r.brk then ⟨r.filenum, r.done, r.st, r.evs, true⟩
      else
        let st1 : State :=
          { r.st with g := { r.st.g with gbyteread := r.st.g.gbyteread + r.rtotal } }
        let s := read_large env fuel r.filenum r.done st1
        ⟨s.filenum, s.done, s.st, r.evs ++ s.evs, s.finished⟩
    else ⟨filenum, done, st, [], true⟩

/-- The small-block loop
`while (!done && gopt_file_limit == UINT_MAX && fulfill == 1)` of `read_randfiles`
(lines 704-803). The first argument bounds the number of iterations. -/
def read_small (env : Env) : Nat → Nat → Nat → State → PhaseRes
  | 0, filenum, done, st =>
    ⟨filenum, done, st, [],
      !(decide (done = 0 ∧ st.g.gopt_file_limit = UINT_MAX ∧ st.g.fulfill = 1))⟩
  | fuel + 1, filenum, done, st =>
    if done = 0 ∧ st.g.gopt_file_limit = UINT_MAX ∧ st.g.fulfill = 1 then
      let r := read_file_small env filenum st
      if r.brk then ⟨r.filenum, r.done, r.st, r.evs, true⟩
      else
        let st1 : State :=
          { r.st with g := { r.st.g with gbyteread := r.st.g.gbyteread + r.rtotal } }
        let s := read_small env fuel r.filenum r.done st1
        ⟨s.filenum, s.done, s.st, r.evs ++ s.evs, s.finished⟩
    else ⟨filenum, done, st, [], true⟩

/-- The function `read_randfiles` (lines 574-804); `fuel` bounds each of its two file
loops. -/
def read_randfiles (env : Env) (fuel : Nat) (st : State) : RunRes :=
  let r1 := read_large env fuel 0 0 st
  let st1 : State := { r1.st with g := { r1.st.g with gbytereadn := r1.st.g.gbyteread } }
  let r2 := read_small env fuel r1.filenum 0 st1
  ⟨r2.st, r1.evs, r2.evs, r1.finished && r2.finished⟩

/-! ## Command line -/

/-- One option as `getopt` returns it; an option with an argument carries the value
`atoi(optarg)` (for `-g` the value of `time(NULL)`, for `-C` whether `chdir` worked).
`other` stands for `-h` and for anything `getopt` does not know. -/
inductive Opt where
  | s (a : Int)
  | g (t : Int)
  | S (a : Int)
  | z
  | d (a : Int)
  | m
  | f (a : Int)
  | v
  | u
  | U
  | C (ok : Bool)
  | other
  deriving DecidableEq, Repr

/-- Conversion of an `int` to `unsigned int`. -/
def to_uint (a : Int) : Nat := (a % 4294967296).toNat

/-- The option loop of `parse_commandline` (lines 262-304); `none` when `print_usage`
ends the program. -/
def parse_opts : List Opt → Globals → Option Globals
  | [], g => some g
  | Opt.s a :: os, g => parse_opts os { g with g_seed := to_uint a }
  | Opt.g t :: os, g => parse_opts os { g with g_seed := to_uint t }
  | Opt.S a :: os, g => parse_opts os { g with gopt_file_size := to_uint a }
  | Opt.z :: os, g => parse_opts os { g with fulfill := 1 }
  | Opt.d a :: os, g =>
    parse_opts os { g with gopt_sector_size_in512 := to_uint a, fulfill := 1 }
  | Opt.m :: os, g => parse_opts os { g with multicolor := 1 }
  | Opt.f a :: os, g => parse_opts os { g with gopt_file_limit := to_uint a }
  | Opt.v :: os, g => parse_opts os { g with gopt_readonly := 1 }
  | Opt.u :: os, g => parse_opts os { g with gopt_unlink_after := 1 }
  | Opt.U :: os, g => parse_opts os { g with gopt_unlink_immediate := 1 }
  | Opt.C _ :: os, g => parse_opts os g
  | Opt.other :: _, _ => none

/-- The function `parse_commandline` (lines 257-313) applied to the initial globals;
`extra` tells that words are left after the options (`optind < argc`). The width
`filenumbersize` used for formatting is left out. -/
def parse_commandline (opts : List Opt) (extra : Bool) : Option Globals :=
  match parse_opts opts {} with
  | none => none
  | some g =>
    let g1 := if g.gopt_file_limit ≠ UINT_MAX then { g with fulfill := 0 } else g
    if extra then none else some g1

/-! ## Removing old files and the main program -/

/-- Result of `unlink_randfiles`. `finished` tells that the loop was left by its
condition or by `break`, not by the iteration bound of the embedding. -/
structure UnlinkRes where
  filenum : Nat
  w : World
  evs : List Ev
  finished : Bool

/-- The loop `while (filenum < UINT_MAX)` of `unlink_randfiles` (lines 324-339): the
names are unlinked in order until an `unlink` call fails. The first argument bounds the
number of iterations. -/
def unlink_loop : Nat → Nat → World → UnlinkRes
  | 0, filenum, w => ⟨filenum, w, [], !(decide (filenum < UINT_MAX))⟩
  | fuel + 1, filenum, w =>
    if filenum < UINT_MAX then
      let u := sys_unlink w filenum
      if u.1 = false then ⟨filenum, u.2, [Ev.unlink filenum false], true⟩
      else
        let s := unlink_loop fuel ((filenum + 1) % 2 ^ 32) u.2
        ⟨s.filenum, s.w, Ev.unlink filenum true :: s.evs, s.finished⟩
    else ⟨filenum, w, [], true⟩

/-- The function `unlink_randfiles` (lines 316-348): the loop, then one more `unlink`
of the name at which the loop stopped. -/
def unlink_randfiles (fuel : Nat) (w : World) : UnlinkRes :=
  let r := unlink_loop fuel 0 w
  let u := sys_unlink r.w r.filenum
  ⟨if u.1 then (r.filenum + 1) % 2 ^ 32 else r.filenum, u.2,
    r.evs ++ [Ev.unlink r.filenum u.1], r.finished⟩

/-- What a run of the program did: the final state, the events of the removal of old
files, of the two write loops and of the two verification loops, and the events of the
`unlink_randfiles` call after verification (`none` when it is not called). -/
structure MainRes where
  st : State
  removed : List Ev
  wlarge : List Ev
  wsmall : List Ev
  rlarge : List Ev
  rsmall : List Ev
  cleanup : Option (List Ev)
  finished : Bool

/-- The function `main` after the call of `parse_commandline` (lines 821-935), for the
globals `g` the command line gave: unless `-v` was given the old files are removed and
`fill_randfiles` runs; then `read_randfiles` runs; then, when `gopt_readonly == 1` and
`gopt_unlink_after` is set, `unlink_randfiles` runs. The statistics printed are left
out. `fuel` bounds every loop the source does not bound. -/
def main_run (env : Env) (fuel : Nat) (g : Globals) (w : World) : MainRes :=
  let u : UnlinkRes := if g.gopt_readonly = 0 then unlink_randfiles fuel w else ⟨0, w, [], true⟩
  let f : RunRes :=
    if g.gopt_readonly = 0 then fill_randfiles env fuel { g := g, w := u.w, nw := 0, nr := 0 }
    else ⟨{ g := g, w := u.w, nw := 0, nr := 0 }, [], [], true⟩
  let r := read_randfiles env fuel f.st
  if r.st.g.gopt_readonly = 1 ∧ r.st.g.gopt_unlink_after ≠ 0 then
    let c := unlink_randfiles fuel r.st.w
    ⟨{ r.st with w := c.w }, u.evs, f.large, f.small, r.large, r.small, some c.evs,
      u.finished && f.finished && r.finished && c.finished⟩
  else
    ⟨r.st, u.evs, f.large, f.small, r.large, r.small, none,
      u.finished && f.finished && r.finished⟩

/-- The function `main` (lines 810-935) on a file system `w`; `none` when
`print_usage` ends the program. -/
def main (env : Env) (fuel : Nat) (opts : List Opt) (extra : Bool) (w : World) :
    Option MainRes :=
  match parse_commandline opts extra with
  | none => none
  | some g => some (main_run env fuel g w)

/-! ## Speed of a file -/

/-- What a file loop prints about the speed of a file: a number of MB/s, or the text
"(measured time too short)". -/
inductive Speed where
  | rate (mb_per_s : ℚ)
  | too_short

/-- The statement
`if (ts2-ts1 != 0) printf("... MB/s", total / 1000.0 / 1000.0 / (ts2-ts1)); else printf("(measured time too short)")`
of the four file loops (lines 450-452, 560-562, 684-687, 794-796); the `double`s are
taken as exact numbers. -/
def speed_report (total ts1 ts2 : ℚ) : Speed :=
  if ts2 - ts1 ≠ 0 then Speed.rate (total / 1000 / 1000 / (ts2 - ts1)) else Speed.too_short

/-- What a write loop prints about the speed of a file after the file (lines 442-453
and 552-563): nothing in the branch `wtotal == 0`, the speed report otherwise. -/
def write_report (wtotal ts1 ts2 : ℚ) : Option Speed :=
  if wtotal = 0 then none else some (speed_report wtotal ts1 ts2)

/-- What a verification loop prints about the speed of a file after the file (lines
682-687 and 788-794). -/
def read_report (rtotal ts1 ts2 : ℚ) : Speed := speed_report rtotal ts1 ts2

/-! ## Concrete environments and states used in examples -/

/-- A file system without any file. -/
def World.empty : World :=
  { dir := fun _ => none, store := fun _ => [], isopen := fun _ => false, next := 0 }

/-- A file system whose only file is `random-00000000`, eight zero bytes long. -/
def World.zeros : World :=
  { dir := fun n => if n = 0 then some 0 else none,
    store := fun h => if h = 0 then [0, 0, 0, 0, 0, 0, 0, 0] else [],
    isopen := fun _ => false, next := 1 }

/-- A file system with two files: `random-00000000` is empty and `random-00000001`
holds eight zero bytes. -/
def World.gap : World :=
  { dir := fun n => if n = 0 then some 0 else if n = 1 then some 1 else none,
    store := fun h => if h = 1 then [0, 0, 0, 0, 0, 0, 0, 0] else [],
    isopen := fun _ => false, next := 2 }

/-- A state at program start for given globals and file system. -/
def State.init (g : Globals) (w : World) : State := { g := g, w := w, nw := 0, nr := 0 }

/-- An environment in which every `open`, `write` and `read` call does all it is asked. -/
def env_ok : Env := { creat := fun _ => true, wr := fun _ => 1048576, rd := fun _ => 1048576 }

/-- An environment whose volume takes five more bytes: the first `write` call writes
five bytes, every later one returns 0. -/
def env_short : Env :=
  { creat := fun _ => true, wr := fun k => if k = 0 then 5 else 0, rd := fun _ => 1048576 }

/-- An environment whose volume is full: files can be created, every `write` returns 0. -/
def env_full : Env := { creat := fun _ => true, wr := fun _ => 0, rd := fun _ => 1048576 }

/-- A volume that takes half a MiB with each of the first two `write` calls and is
full afterwards; every `read` call does all it is asked. -/
def env_halves : Env :=
  { creat := fun _ => true, wr := fun k => if k < 2 then 524288 else 0, rd := fun _ => 1048576 }

/-- A volume on which a `write` call takes eight bytes and the next one fails, in
turns; every `read` call does all it is asked. -/
def env_drip : Env :=
  { creat := fun _ => true, wr := fun k => if k % 2 = 0 then 8 else 0, rd := fun _ => 1048576 }

/-! ## Vocabulary of the properties -/

/-- The generator update rule as a function on states. -/
def lcg_step (x : Nat) : Nat := (lcg_random x).2

/-- A `write` call that returned zero or a negative value. -/
def is_failed_write : Ev → Bool
  | Ev.write _ _ wb => decide (wb ≤ 0)
  | _ => false

/-- A `write` call, or the creation of a file. -/
def is_write_or_creat : Ev → Bool
  | Ev.write _ _ _ => true
  | Ev.creat _ _ => true
  | _ => false

/-- A `write` call. -/
def is_write : Ev → Bool
  | Ev.write _ _ _ => true
  | _ => false

/-- A `read` call or a reported mismatch. -/
def is_read_or_fault : Ev → Bool
  | Ev.read _ _ _ _ => true
  | Ev.fault _ _ _ => true
  | _ => false

/-- The creation of a file. -/
def is_creat : Ev → Bool
  | Ev.creat _ _ => true
  | _ => false

/-- The start of the verification of a file. -/
def is_rstart : Ev → Bool
  | Ev.rstart _ _ => true
  | _ => false

/-- A reported mismatch. -/
def is_fault : Ev → Bool
  | Ev.fault _ _ _ => true
  | _ => false

/-- After a failed `write` call the rest of the event list has neither a `write` call
nor a file creation. -/
def cut_off : List Ev → Prop
  | [] => True
  | e :: es => (is_failed_write e = true → ∀ x ∈ es, is_write_or_creat x = false) ∧ cut_off es

/-- No event of the list is a `write` call or a file creation. -/
def quiet (es : List Ev) : Prop := ∀ x ∈ es, is_write_or_creat x = false

/-- No event of the list is a failed `write` call. -/
def no_fail (es : List Ev) : Prop := ∀ x ∈ es, is_failed_write x = false

/-- The configuration part of the globals, which neither `fill_randfiles` nor
`read_randfiles` assigns to. -/
def config (g : Globals) : Nat × Nat × Nat × Nat × Nat × Nat × Nat × Nat :=
  (g.g_seed, g.gopt_readonly, g.gopt_unlink_immediate, g.gopt_file_size, g.gopt_file_limit,
    g.gopt_sector_size_in512, g.fulfill, g.multicolor)

/-- The globals `fill_randfiles` does not assign to. -/
def wkeep (g : Globals) : (Nat × Nat × Nat × Nat × Nat × Nat × Nat × Nat) × Nat × Nat × Nat × Nat :=
  (config g, g.errors_found, g.gopt_unlink_after, g.gbyteread, g.gbytereadn)

/-- The globals the file loops of `read_randfiles` do not assign to, the net byte total
of reading apart. -/
def rkeep (g : Globals) :
    (Nat × Nat × Nat × Nat × Nat × Nat × Nat × Nat) × Nat × Nat × List Nat × Nat :=
  (config g, g.gbytewrite, g.gbytewriten, g.g_filehandle, g.g_filehandle_limit)

/-- Number of bytes the `write` calls of an event list wrote. -/
def bytes_written : List Ev → Nat
  | [] => 0
  | Ev.write _ _ wb :: es => wb.toNat + bytes_written es
  | _ :: es => bytes_written es

/-- Number of bytes the `read` calls of an event list returned. -/
def bytes_read : List Ev → Nat
  | [] => 0
  | Ev.read _ _ _ rb :: es => rb.toNat + bytes_read es
  | _ :: es => bytes_read es

/-- The files reported as read, with the byte count of each report. -/
def files_read : List Ev → List (Nat × Nat)
  | [] => []
  | Ev.readrep name rtotal :: es => (name, rtotal) :: files_read es
  | _ :: es => files_read es

/-- The seed both the writer and the verifier derive for the file named with `n`. -/
def file_seed (g : Globals) (n : Nat) : Nat := (g.g_seed + (n + 1) % 2 ^ 32) % 2 ^ 32

/-- In the events of the writer for global seed `G`, every file starts with the
generator at `(G + n + 1) mod 2^32`, `n` being the number in its name, and every file
created is started. -/
def wseeds_ok (G : Nat) (es : List Ev) : Prop :=
  ∀ e ∈ es, (∀ n v, e = Ev.wstart n v → v = (G + n + 1) % 2 ^ 32) ∧
    (∀ n fd, e = Ev.creat n fd → Ev.wstart n ((G + n + 1) % 2 ^ 32) ∈ es)

/-- In the events of the verifier for global seed `G`, the check of every file starts
with the generator at `(G + n + 1) mod 2^32`, `n` being the number in its name, and every
file opened by name is checked. -/
def rseeds_ok (G : Nat) (es : List Ev) : Prop :=
  ∀ e ∈ es, (∀ n v, e = Ev.rstart n v → v = (G + n + 1) % 2 ^ 32) ∧
    (∀ n fd, e = Ev.openr n fd → Ev.rstart n ((G + n + 1) % 2 ^ 32) ∈ es)

/-- The bytes of the first `k` items of the generator stream started at `seed`. -/
def stream_bytes (seed k : Nat) : List Nat := block_bytes (fill_block k seed).1

/-- The mismatch reports of items compared with the generator stream from state `rnd`,
the first item being item `idx` of a file whose blocks have `nitems` items. -/
def mismatches (name nitems : Nat) : List Nat → Nat → Nat → List Ev
  | [], _, _ => []
  | x :: xs, idx, rnd =>
    (if x ≠ lcg_step rnd then [Ev.fault name (idx / nitems) (idx % nitems * 8)] else [])
      ++ mismatches name nitems xs (idx + 1) (lcg_step rnd)

/-- Whether top-off was requested on the command line (`-z` or `-d`). -/
def topoff_requested (opts : List Opt) : Prop := ∃ o ∈ opts, o = Opt.z ∨ ∃ a, o = Opt.d a

/-- Whether a file-count limit was given on the command line (`-f`). -/
def limit_given (opts : List Opt) : Prop := ∃ a, Opt.f a ∈ opts

/-- The value of `gopt_unlink_after` after the events `es` when it was `flag` before:
a reported mismatch clears it. -/
def flag_after (flag : Nat) (es : List Ev) : Nat := if es.any is_fault then 0 else flag

/-- The descriptors of the files created, in the order of creation. -/
def created : List Ev → List Nat
  | [] => []
  | Ev.creat _ fd :: es => fd :: created es
  | _ :: es => created es

/-- A `read` call that returned zero or a negative value. -/
def is_failed_read : Ev → Bool
  | Ev.read _ _ _ rb => decide (rb ≤ 0)
  | _ => false

/-- Anything a verification loop does for a file other than closing it and reporting
the bytes read: fetching or opening it, starting its check, a `read` call, a mismatch
report. -/
def is_open_or_read : Ev → Bool
  | Ev.close _ => false
  | Ev.readrep _ _ => false
  | _ => true

/-- After a failed `read` call the rest of the event list only closes the file and
reports the bytes read: no file is fetched or opened, no `read` call made and no
mismatch reported. -/
def read_cut_off : List Ev → Prop
  | [] => True
  | e :: es => (is_failed_read e = true → ∀ x ∈ es, is_open_or_read x = false) ∧ read_cut_off es

/-- No event of the list is a failed `read` call. -/
def no_read_fail (es : List Ev) : Prop := ∀ x ∈ es, is_failed_read x = false

/-- Every start of a file in the list (`start` is `Ev.wstart` for the writer and
`Ev.rstart` for the verifier), for the file named with `n`, that is the file with index
`n + 1`, has the generator at `(G + (n + 1)) mod 2^32`, a value below `2^32` that is the
integer `G + (n + 1)` when that sum is below `2^32`. -/
def starts_ok (start : Nat → Nat → Ev) (G : Nat) (es : List Ev) : Prop :=
  ∀ n v, start n v ∈ es →
    v = (G + (n + 1)) % 2 ^ 32 ∧ v < 2 ^ 32 ∧ (G + (n + 1) < 2 ^ 32 → v = G + (n + 1))

/-! ## Generator -/

theorem lcg_random_eq (x : Nat) : lcg_random x = (lcg_step x, lcg_step x) := rfl

theorem lcg_step_def (x : Nat) :
    lcg_step x = (0x27BB2EE687B0B0FD * x + 0xB504F32D) % 2 ^ 64 := by
  show (0xB504F32D + 0x27BB2EE687B0B0FD * x) % 2 ^ 64 = _
  rw [Nat.add_comm]

theorem lcg_random_val (x : Nat) :
    lcg_random x = ((0x27BB2EE687B0B0FD * x + 0xB504F32D) % 2 ^ 64,
      (0x27BB2EE687B0B0FD * x + 0xB504F32D) % 2 ^ 64) := by
  rw [lcg_random_eq, lcg_step_def]

theorem lcg_step_lt (x : Nat) : lcg_step x < 2 ^ 64 := by
  rw [lcg_step_def]
  exact Nat.mod_lt _ (by norm_num)

theorem fill_block_zero (rnd : Nat) : fill_block 0 rnd = ([], rnd) := rfl

theorem fill_block_succ (n rnd : Nat) :
    fill_block (n + 1) rnd =
      (lcg_step rnd :: (fill_block n (lcg_step rnd)).1, (fill_block n (lcg_step rnd)).2) := rfl

theorem lcg_iterate_eq :
    (fun s => (0x27BB2EE687B0B0FD * s + 0xB504F32D) % 2 ^ 64) = lcg_step :=
  funext fun s => (lcg_step_def s).symm

attribute [irreducible] lcg_step lcg_random

theorem fill_block_length (n rnd : Nat) : (fill_block n rnd).1.length = n := by
  induction n generalizing rnd with
  | zero => rfl
  | succ n ih =>
    rw [fill_block_succ]
    simp only [List.length_cons, ih]

theorem fill_block_state (n rnd : Nat) : (fill_block n rnd).2 = lcg_step^[n] rnd := by
  induction n generalizing rnd with
  | zero => rfl
  | succ n ih =>
    rw [fill_block_succ, Function.iterate_succ_apply]
    exact ih (lcg_step rnd)

theorem fill_block_get (n i rnd : Nat) (h : i < n) :
    (fill_block n rnd).1[i]? = some (lcg_step^[i + 1] rnd) := by
  induction n generalizing rnd i with
  | zero => omega
  | succ n ih =>
    cases i with
    | zero =>
      rw [fill_block_succ]
      simp only [List.getElem?_cons_zero, Function.iterate_succ_apply, Function.iterate_zero,
        id_eq, Nat.zero_add]
    | succ i =>
      rw [fill_block_succ]
      simp only [List.getElem?_cons_succ]
      rw [ih i (lcg_step rnd) (by omega), Function.iterate_succ_apply lcg_step (i + 1) rnd,
        Function.iterate_succ_apply lcg_step i (lcg_step rnd)]

/-- C3. `lcg_random` replaces the state by `(0x27BB2EE687B0B0FD * x + 0xB504F32D) mod 2^64`
and returns that new state; the i-th value a fill loop produces from a start state is
the update rule iterated `i + 1` times on the start state, so it depends on the start
state and on `i` only, and the state after `n` values is the rule iterated `n` times. -/
theorem lcg_random_update_rule (x : Nat) :
    (lcg_random x).1 = (0x27BB2EE687B0B0FD * x + 0xB504F32D) % 2 ^ 64 ∧
    (lcg_random x).2 = (0x27BB2EE687B0B0FD * x + 0xB504F32D) % 2 ^ 64 ∧
    (∀ n i, i < n →
      (fill_block n x).1[i]? =
        some ((fun s => (0x27BB2EE687B0B0FD * s + 0xB504F32D) % 2 ^ 64)^[i + 1] x)) ∧
    (∀ n, (fill_block n x).2 =
        (fun s => (0x27BB2EE687B0B0FD * s + 0xB504F32D) % 2 ^ 64)^[n] x) := by
  rw [lcg_random_val, lcg_iterate_eq]
  exact ⟨rfl, rfl, fun n i h => fill_block_get n i x h, fun n => fill_block_state n x⟩

/-! ## Volume-full cut-off -/

theorem cut_off_of_no_fail (a : List Ev) (h : no_fail a) : cut_off a := by
  induction a with
  | nil => trivial
  | cons e es ih =>
    refine ⟨fun he => ?_, ih fun x hx => h x (List.mem_cons_of_mem _ hx)⟩
    rw [h e (List.mem_cons_self _ _)] at he
    cases he

theorem cut_off_append_of_no_fail (a b : List Ev) (ha : no_fail a) (hb : cut_off b) :
    cut_off (a ++ b) := by
  induction a with
  | nil => exact hb
  | cons e es ih =>
    refine ⟨fun he => ?_, ih fun x hx => ha x (List.mem_cons_of_mem _ hx)⟩
    rw [ha e (List.mem_cons_self _ _)] at he
    cases he

theorem no_fail_of_quiet (b : List Ev) (hb : quiet b) : no_fail b := by
  intro x hx
  have h := hb x hx
  cases x <;> first | rfl | (simp [is_write_or_creat] at h)

theorem cut_off_append_quiet (a b : List Ev) (ha : cut_off a) (hb : quiet b) :
    cut_off (a ++ b) := by
  induction a with
  | nil => exact cut_off_of_no_fail b (no_fail_of_quiet b hb)
  | cons e es ih =>
    refine ⟨fun he x hx => ?_, ih ha.2⟩
    rcases List.mem_append.1 hx with h | h
    · exact ha.1 he x h
    · exact hb x h

theorem no_fail_append (a b : List Ev) (ha : no_fail a) (hb : no_fail b) : no_fail (a ++ b) :=
  fun x hx => (List.mem_append.1 hx).elim (ha x) (hb x)

theorem no_fail_nil : no_fail [] := fun x hx => by cases hx

theorem cut_off_single (e : Ev) : cut_off [e] :=
  And.intro (fun _ x hx => by cases hx) trivial

theorem write_retry_zero (env : Env) (name : Nat) (block : List Nat) (size : Nat)
    (wp done nw : Nat) (data : List Nat) :
    write_retry env name block size 0 wp done nw data = ⟨wp, done, nw, data, []⟩ := rfl

theorem write_retry_stop (env : Env) (name : Nat) (block : List Nat) (size : Nat)
    (fuel wp done nw : Nat) (data : List Nat) (h : ¬(wp ≠ size ∧ done = 0)) :
    write_retry env name block size (fuel + 1) wp done nw data = ⟨wp, done, nw, data, []⟩ := by
  rw [write_retry, if_neg h]

theorem write_retry_fail (env : Env) (name : Nat) (block : List Nat) (size : Nat)
    (fuel wp done nw : Nat) (data : List Nat) (h : wp ≠ size ∧ done = 0)
    (hwb : sys_write env nw (size - wp) ≤ 0) :
    write_retry env name block size (fuel + 1) wp done nw data =
      ⟨wp, 1, nw + 1, data, [Ev.write name (size - wp) (sys_write env nw (size - wp))]⟩ := by
  rw [write_retry, if_pos h]
  simp only [if_pos hwb]

theorem write_retry_step (env : Env) (name : Nat) (block : List Nat) (size : Nat)
    (fuel wp done nw : Nat) (data : List Nat) (h : wp ≠ size ∧ done = 0)
    (hwb : ¬ sys_write env nw (size - wp) ≤ 0) :
    write_retry env name block size (fuel + 1) wp done nw data =
      ⟨(write_retry env name block size fuel (wp + (sys_write env nw (size - wp)).toNat) done
          (nw + 1) (data ++ (block.drop wp).take (sys_write env nw (size - wp)).toNat)).wp,
        (write_retry env name block size fuel (wp + (sys_write env nw (size - wp)).toNat) done
          (nw + 1) (data ++ (block.drop wp).take (sys_write env nw (size - wp)).toNat)).done,
        (write_retry env name block size fuel (wp + (sys_write env nw (size - wp)).toNat) done
          (nw + 1) (data ++ (block.drop wp).take (sys_write env nw (size - wp)).toNat)).nw,
        (write_retry env name block size fuel (wp + (sys_write env nw (size - wp)).toNat) done
          (nw + 1) (data ++ (block.drop wp).take (sys_write env nw (size - wp)).toNat)).data,
        Ev.write name (size - wp) (sys_write env nw (size - wp)) ::
        (write_retry env name block size fuel (wp + (sys_write env nw (size - wp)).toNat) done
          (nw + 1) (data ++ (block.drop wp).take (sys_write env nw (size - wp)).toNat)).evs⟩ := by
  rw [write_retry, if_pos h]
  simp only [if_neg hwb]

theorem write_retry_cut (env : Env) (name : Nat) (block : List Nat) (size : Nat)
    (fuel wp done nw : Nat) (data : List Nat) :
    cut_off (write_retry env name block size fuel wp done nw data).evs ∧
    ((write_retry env name block size fuel wp done nw data).done = 0 →
      no_fail (write_retry env name block size fuel wp done nw data).evs) := by
  induction fuel generalizing wp nw data with
  | zero => exact ⟨trivial, fun _ => no_fail_nil⟩
  | succ fuel ih =>
    by_cases h : wp ≠ size ∧ done = 0
    · by_cases hwb : sys_write env nw (size - wp) ≤ 0
      · rw [write_retry_fail env name block size fuel wp done nw data h hwb]
        exact ⟨cut_off_single _, fun h1 => by simp at h1⟩
      · rw [write_retry_step env name block size fuel wp done nw data h hwb]
        have hi := ih (wp + (sys_write env nw (size - wp)).toNat) (nw + 1)
          (data ++ (block.drop wp).take (sys_write env nw (size - wp)).toNat)
        have hnf : is_failed_write (Ev.write name (size - wp) (sys_write env nw (size - wp)))
            = false := by simp [is_failed_write, hwb]
        refine ⟨⟨fun he => ?_, hi.1⟩, fun h1 x hx => ?_⟩
        · rw [hnf] at he
          cases he
        · rcases List.mem_cons.1 hx with rfl | hx
          · exact hnf
          · exact hi.2 h1 x hx
    · rw [write_retry_stop env name block size fuel wp done nw data h]
      exact ⟨trivial, fun _ => no_fail_nil⟩

theorem cut_off_cons (e : Ev) (es : List Ev) (he : is_failed_write e = false)
    (h : cut_off es) : cut_off (e :: es) :=
  And.intro (fun hf => by rw [he] at hf; cases hf) h

theorem no_fail_cons (e : Ev) (es : List Ev) (he : is_failed_write e = false)
    (h : no_fail es) : no_fail (e :: es) := by
  intro x hx
  rcases List.mem_cons.1 hx with rfl | hx
  · exact he
  · exact h x hx

theorem quiet_nil : quiet [] := fun x hx => by cases hx

theorem write_blocks_cut (env : Env) (name nitems : Nat) (n blocknum rnd wtotal nw : Nat)
    (data : List Nat) :
    cut_off (write_blocks env name nitems n blocknum rnd wtotal nw data).evs ∧
    ((write_blocks env name nitems n blocknum rnd wtotal nw data).done = 0 →
      no_fail (write_blocks env name nitems n blocknum rnd wtotal nw data).evs) := by
  induction n generalizing blocknum rnd wtotal nw data with
  | zero => exact ⟨trivial, fun _ => no_fail_nil⟩
  | succ n ih =>
    rw [write_blocks]
    dsimp only
    have hr := write_retry_cut env name (block_bytes (fill_block nitems rnd).1) (nitems * 8)
      (nitems * 8) 0 0 nw data
    split
    · rename_i hd
      exact ⟨hr.1, fun h => absurd h hd⟩
    · rename_i hd
      have hd0 := not_not.1 hd
      exact ⟨cut_off_append_of_no_fail _ _ (hr.2 hd0) (ih _ _ _ _ _).1,
        fun h => no_fail_append _ _ (hr.2 hd0) ((ih _ _ _ _ _).2 h)⟩

theorem fill_file_cut (env : Env) (nitems nblocks filenum : Nat) (st : State) :
    cut_off (fill_file env nitems nblocks filenum st).evs ∧
    ((fill_file env nitems nblocks filenum st).done = 0 →
      no_fail (fill_file env nitems nblocks filenum st).evs) := by
  rw [fill_file]
  split
  · exact ⟨cut_off_single _, fun _ => no_fail_cons _ _ rfl no_fail_nil⟩
  · rename_i fd w1 _
    dsimp only
    have hb := write_blocks_cut env filenum nitems nblocks 0
      ((st.g.g_seed + (filenum + 1) % 2 ^ 32) % 2 ^ 32) 0 st.nw []
    refine ⟨cut_off_cons _ _ rfl (cut_off_append_of_no_fail _ _ (no_fail_of_quiet _ ?_)
      (cut_off_cons _ _ rfl (cut_off_append_quiet _ _ hb.1 ?_))), fun h =>
      no_fail_cons _ _ rfl (no_fail_append _ _ (no_fail_of_quiet _ ?_)
      (no_fail_cons _ _ rfl (no_fail_append _ _ (hb.2 h) (no_fail_of_quiet _ ?_))))⟩
    · intro x hx
      split at hx
      · rw [List.mem_singleton.1 hx]; rfl
      · cases hx
    · intro x hx
      rcases List.mem_append.1 hx with hx | hx
      · split at hx <;> (rw [List.mem_singleton.1 hx]; rfl)
      · split at hx
        · rcases List.mem_cons.1 hx with rfl | hx
          · rfl
          · rw [List.mem_singleton.1 hx]; rfl
        · rw [List.mem_singleton.1 hx]; rfl
    · intro x hx
      split at hx
      · rw [List.mem_singleton.1 hx]; rfl
      · cases hx
    · intro x hx
      rcases List.mem_append.1 hx with hx | hx
      · split at hx <;> (rw [List.mem_singleton.1 hx]; rfl)
      · split at hx
        · rcases List.mem_cons.1 hx with rfl | hx
          · rfl
          · rw [List.mem_singleton.1 hx]; rfl
        · rw [List.mem_singleton.1 hx]; rfl

theorem fill_large_done (env : Env) (fuel filenum done : Nat) (st : State) (h : done ≠ 0) :
    (fill_large env fuel filenum done st).evs = [] := by
  cases fuel with
  | zero => rfl
  | succ fuel =>
    rw [fill_large, if_neg (fun hc => h hc.1)]

theorem fill_small_done (env : Env) (fuel filenum done : Nat) (st : State) (h : done ≠ 0) :
    (fill_small env fuel filenum done st).evs = [] := by
  cases fuel with
  | zero => rfl
  | succ fuel =>
    rw [fill_small, if_neg (fun hc => h hc.1)]

theorem fill_large_cut (env : Env) (fuel filenum done : Nat) (st : State) :
    cut_off (fill_large env fuel filenum done st).evs := by
  induction fuel generalizing filenum done st with
  | zero => trivial
  | succ fuel ih =>
    rw [fill_large]
    split
    · dsimp only
      have hf := fill_file_cut env BLOCK_ITEMS st.g.gopt_file_size filenum st
      split
      · exact hf.1
      · by_cases hd : (fill_file env BLOCK_ITEMS st.g.gopt_file_size filenum st).done = 0
        · exact cut_off_append_of_no_fail _ _ (hf.2 hd) (ih _ _ _)
        · show cut_off (_ ++ (fill_large env fuel _ _ _).evs)
          rw [fill_large_done env fuel _ _ _ hd]
          exact cut_off_append_quiet _ _ hf.1 quiet_nil
    · trivial

theorem fill_small_cut (env : Env) (fuel filenum done : Nat) (st : State) :
    cut_off (fill_small env fuel filenum done st).evs := by
  induction fuel generalizing filenum done st with
  | zero => trivial
  | succ fuel ih =>
    rw [fill_small]
    split
    · dsimp only
      have hf := fill_file_cut env (small_items st.g) SMALL_BLOCKS filenum st
      split
      · exact hf.1
      · by_cases hd : (fill_file env (small_items st.g) SMALL_BLOCKS filenum st).done = 0
        · exact cut_off_append_of_no_fail _ _ (hf.2 hd) (ih _ _ _)
        · show cut_off (_ ++ (fill_small env fuel _ _ _).evs)
          rw [fill_small_done env fuel _ _ _ hd]
          exact cut_off_append_quiet _ _ hf.1 quiet_nil
    · trivial

/-- C7. In each write phase of `fill_randfiles`, the large-block loop and the small-block
loop, once a `write` call has returned zero or a negative value the phase issues no
further `write` call and creates no further file. This holds for every environment, every
start state and every number of iterations of the small-block loop. -/
theorem volume_full_cut_off (env : Env) (fuel : Nat) (st : State) :
    cut_off (fill_randfiles env fuel st).large ∧ cut_off (fill_randfiles env fuel st).small :=
  ⟨fill_large_cut env _ _ _ _, fill_small_cut env _ _ _ _⟩

/-! ## Byte totals -/

theorem bytes_written_append (a b : List Ev) :
    bytes_written (a ++ b) = bytes_written a + bytes_written b := by
  induction a with
  | nil => simp [bytes_written]
  | cons e es ih =>
    cases e <;> simp [bytes_written, ih, Nat.add_assoc]

theorem bytes_written_quiet (a : List Ev) (h : quiet a) : bytes_written a = 0 := by
  induction a with
  | nil => rfl
  | cons e es ih =>
    have he := h e (List.mem_cons_self _ _)
    have hes := ih fun x hx => h x (List.mem_cons_of_mem _ hx)
    cases e <;> first | exact hes | (simp [is_write_or_creat] at he)

theorem write_retry_bytes (env : Env) (name : Nat) (block : List Nat) (size : Nat)
    (fuel wp done nw : Nat) (data : List Nat) :
    (write_retry env name block size fuel wp done nw data).wp =
      wp + bytes_written (write_retry env name block size fuel wp done nw data).evs := by
  induction fuel generalizing wp nw data with
  | zero => rfl
  | succ fuel ih =>
    by_cases h : wp ≠ size ∧ done = 0
    · by_cases hwb : sys_write env nw (size - wp) ≤ 0
      · rw [write_retry_fail env name block size fuel wp done nw data h hwb]
        simp [bytes_written, Int.toNat_eq_zero.2 hwb]
      · rw [write_retry_step env name block size fuel wp done nw data h hwb]
        simp only [bytes_written]
        rw [ih]
        omega
    · rw [write_retry_stop env name block size fuel wp done nw data h]
      rfl

theorem write_blocks_bytes (env : Env) (name nitems : Nat) (n blocknum rnd wtotal nw : Nat)
    (data : List Nat) :
    (write_blocks env name nitems n blocknum rnd wtotal nw data).wtotal =
      wtotal + bytes_written (write_blocks env name nitems n blocknum rnd wtotal nw data).evs := by
  induction n generalizing blocknum rnd wtotal nw data with
  | zero => rfl
  | succ n ih =>
    rw [write_blocks]
    dsimp only
    have hr := write_retry_bytes env name (block_bytes (fill_block nitems rnd).1) (nitems * 8)
      (nitems * 8) 0 0 nw data
    split
    · dsimp only
      rw [hr]
      omega
    · dsimp only
      rw [ih, bytes_written_append, hr]
      omega

theorem fill_file_bytes (env : Env) (nitems nblocks filenum : Nat) (st : State) :
    (fill_file env nitems nblocks filenum st).wtotal =
      bytes_written (fill_file env nitems nblocks filenum st).evs := by
  rw [fill_file]
  split
  · rfl
  · dsimp only
    have hb := write_blocks_bytes env filenum nitems nblocks 0
      ((st.g.g_seed + (filenum + 1) % 2 ^ 32) % 2 ^ 32) 0 st.nw []
    generalize write_blocks env filenum nitems nblocks 0
      ((st.g.g_seed + (filenum + 1) % 2 ^ 32) % 2 ^ 32) 0 st.nw [] = r at hb ⊢
    simp only [bytes_written, bytes_written_append]
    split_ifs <;> simp only [bytes_written] <;> omega

theorem filehandle_append_wkeep (g : Globals) (fd : Nat) :
    wkeep (filehandle_append g fd) = wkeep g := rfl

theorem fill_file_wkeep (env : Env) (nitems nblocks filenum : Nat) (st : State) :
    wkeep (fill_file env nitems nblocks filenum st).st.g = wkeep st.g ∧
    (fill_file env nitems nblocks filenum st).st.g.gbytewrite = st.g.gbytewrite ∧
    (fill_file env nitems nblocks filenum st).st.g.gbytewriten = st.g.gbytewriten := by
  rw [fill_file]
  split
  · exact ⟨rfl, rfl, rfl⟩
  · dsimp only
    split <;> exact ⟨rfl, rfl, rfl⟩

theorem fill_file_brk (env : Env) (nitems nblocks filenum : Nat) (st : State)
    (h : (fill_file env nitems nblocks filenum st).brk = true) :
    (fill_file env nitems nblocks filenum st).wtotal = 0 ∧
    (fill_file env nitems nblocks filenum st).done = 0 ∧
    (fill_file env nitems nblocks filenum st).st = st ∧
    (fill_file env nitems nblocks filenum st).filenum = filenum ∧
    (fill_file env nitems nblocks filenum st).evs = [Ev.creatFail filenum] := by
  rw [fill_file] at h ⊢
  split
  · exact ⟨rfl, rfl, rfl, rfl, rfl⟩
  · rename_i heq
    rw [heq] at h
    cases h

theorem fill_large_wkeep (env : Env) (fuel filenum done : Nat) (st : State) :
    wkeep (fill_large env fuel filenum done st).st.g = wkeep st.g := by
  induction fuel generalizing filenum done st with
  | zero => rfl
  | succ fuel ih =>
    rw [fill_large]
    split
    · dsimp only
      have hk := fill_file_wkeep env BLOCK_ITEMS st.g.gopt_file_size filenum st
      generalize fill_file env BLOCK_ITEMS st.g.gopt_file_size filenum st = r at hk ⊢
      split
      · exact hk.1
      · exact (ih _ _ _).trans hk.1
    · rfl

theorem fill_large_totals (env : Env) (fuel filenum done : Nat) (st : State)
    (h : st.g.gbytewriten = st.g.gbytewrite) :
    (fill_large env fuel filenum done st).st.g.gbytewrite =
      st.g.gbytewrite + bytes_written (fill_large env fuel filenum done st).evs ∧
    (fill_large env fuel filenum done st).st.g.gbytewriten =
      (fill_large env fuel filenum done st).st.g.gbytewrite ∧
    wkeep (fill_large env fuel filenum done st).st.g = wkeep st.g := by
  induction fuel generalizing filenum done st with
  | zero => exact ⟨rfl, h, rfl⟩
  | succ fuel ih =>
    rw [fill_large]
    split
    · dsimp only
      have hk := fill_file_wkeep env BLOCK_ITEMS st.g.gopt_file_size filenum st
      have hb := fill_file_bytes env BLOCK_ITEMS st.g.gopt_file_size filenum st
      have hbrk := fill_file_brk env BLOCK_ITEMS st.g.gopt_file_size filenum st
      generalize fill_file env BLOCK_ITEMS st.g.gopt_file_size filenum st = r at hk hb hbrk ⊢
      split
      · rename_i hc
        refine ⟨?_, ?_, hk.1⟩
        · show r.st.g.gbytewrite = st.g.gbytewrite + bytes_written r.evs
          rw [hk.2.1, ← hb, (hbrk hc).1]
          rfl
        · show r.st.g.gbytewriten = r.st.g.gbytewrite
          rw [hk.2.1, hk.2.2, h]
      · refine ⟨?_, (ih _ _ _ rfl).2.1, (ih _ _ _ rfl).2.2.trans hk.1⟩
        rw [(ih _ _ _ rfl).1, bytes_written_append]
        generalize bytes_written (fill_large env fuel _ _ _).evs = x
        show r.st.g.gbytewrite + r.wtotal + x = _
        rw [hk.2.1, hb]
        omega
    · exact ⟨rfl, h, rfl⟩

theorem fill_small_totals (env : Env) (fuel filenum done : Nat) (st : State) :
    (fill_small env fuel filenum done st).st.g.gbytewrite =
      st.g.gbytewrite + bytes_written (fill_small env fuel filenum done st).evs ∧
    (fill_small env fuel filenum done st).st.g.gbytewriten = st.g.gbytewriten ∧
    wkeep (fill_small env fuel filenum done st).st.g = wkeep st.g := by
  induction fuel generalizing filenum done st with
  | zero => exact ⟨rfl, rfl, rfl⟩
  | succ fuel ih =>
    rw [fill_small]
    split
    · dsimp only
      have hk := fill_file_wkeep env (small_items st.g) SMALL_BLOCKS filenum st
      have hb := fill_file_bytes env (small_items st.g) SMALL_BLOCKS filenum st
      have hbrk := fill_file_brk env (small_items st.g) SMALL_BLOCKS filenum st
      generalize fill_file env (small_items st.g) SMALL_BLOCKS filenum st = r at hk hb hbrk ⊢
      split
      · rename_i hc
        refine ⟨?_, hk.2.2, hk.1⟩
        show r.st.g.gbytewrite = st.g.gbytewrite + bytes_written r.evs
        rw [hk.2.1, ← hb, (hbrk hc).1]
        rfl
      · refine ⟨?_, (ih _ _ _).2.1.trans hk.2.2, (ih _ _ _).2.2.trans hk.1⟩
        rw [(ih _ _ _).1, bytes_written_append]
        generalize bytes_written (fill_small env fuel _ _ _).evs = x
        show r.st.g.gbytewrite + r.wtotal + x = _
        rw [hk.2.1, hb]
        omega
    · exact ⟨rfl, rfl, rfl⟩

theorem bytes_read_append (a b : List Ev) :
    bytes_read (a ++ b) = bytes_read a + bytes_read b := by
  induction a with
  | nil => simp [bytes_read]
  | cons e es ih =>
    cases e <;> simp [bytes_read, ih, Nat.add_assoc]

theorem check_block_keep (name blocknum : Nat) (xs : List Nat) (i rnd : Nat) (g : Globals) :
    bytes_read (check_block name blocknum xs i rnd g).evs = 0 ∧
    rkeep (check_block name blocknum xs i rnd g).g = rkeep g ∧
    (check_block name blocknum xs i rnd g).g.gbyteread = g.gbyteread ∧
    (check_block name blocknum xs i rnd g).g.gbytereadn = g.gbytereadn := by
  induction xs generalizing i rnd g with
  | nil => exact ⟨rfl, rfl, rfl, rfl⟩
  | cons x xs ih =>
    rw [check_block]
    dsimp only
    split
    · have hi := ih (i + 1) (lcg_random rnd).2
        { g with errors_found := (g.errors_found + 1) % 2 ^ 32, gopt_unlink_after := 0 }
      exact ⟨hi.1, hi.2.1, hi.2.2.1, hi.2.2.2⟩
    · exact ih _ _ _

theorem read_blocks_keep (env : Env) (name size : Nat) (n blocknum : Nat) (rest : List Nat)
    (rnd rtotal nr : Nat) (g : Globals) :
    (read_blocks env name size n blocknum rest rnd rtotal nr g).rtotal =
      rtotal + bytes_read (read_blocks env name size n blocknum rest rnd rtotal nr g).evs ∧
    rkeep (read_blocks env name size n blocknum rest rnd rtotal nr g).g = rkeep g ∧
    (read_blocks env name size n blocknum rest rnd rtotal nr g).g.gbyteread = g.gbyteread ∧
    (read_blocks env name size n blocknum rest rnd rtotal nr g).g.gbytereadn = g.gbytereadn := by
  induction n generalizing blocknum rest rnd rtotal nr g with
  | zero => exact ⟨rfl, rfl, rfl, rfl⟩
  | succ n ih =>
    rw [read_blocks]
    dsimp only
    split
    · rename_i hrb
      refine ⟨?_, rfl, rfl, rfl⟩
      simp [bytes_read, Int.toNat_eq_zero.2 hrb]
    · have hc := check_block_keep name blocknum
        (decode_items (rest.take (sys_read env nr size rest.length).toNat)) 0 rnd g
      generalize check_block name blocknum
        (decode_items (rest.take (sys_read env nr size rest.length).toNat)) 0 rnd g = c at hc ⊢
      have hi := ih (blocknum + 1) (rest.drop (sys_read env nr size rest.length).toNat) c.rnd
        (rtotal + (sys_read env nr size rest.length).toNat) (nr + 1) c.g
      refine ⟨?_, hi.2.1.trans hc.2.1, hi.2.2.1.trans hc.2.2.1, hi.2.2.2.trans hc.2.2.2⟩
      dsimp only
      rw [hi.1]
      simp only [bytes_read, bytes_read_append, hc.1]
      omega

theorem verify_file_keep (env : Env) (name size nblocks filenum1 rnd fd : Nat) (w1 : World)
    (e0 : List Ev) (st : State) (h0 : bytes_read e0 = 0) :
    (verify_file env name size nblocks filenum1 rnd fd w1 e0 st).rtotal =
      bytes_read (verify_file env name size nblocks filenum1 rnd fd w1 e0 st).evs ∧
    rkeep (verify_file env name size nblocks filenum1 rnd fd w1 e0 st).st.g = rkeep st.g ∧
    (verify_file env name size nblocks filenum1 rnd fd w1 e0 st).st.g.gbyteread
      = st.g.gbyteread ∧
    (verify_file env name size nblocks filenum1 rnd fd w1 e0 st).st.g.gbytereadn
      = st.g.gbytereadn := by
  rw [verify_file]
  dsimp only
  have hb := read_blocks_keep env name size nblocks 0 (w1.store fd) rnd 0 st.nr st.g
  generalize read_blocks env name size nblocks 0 (w1.store fd) rnd 0 st.nr st.g = r at hb ⊢
  refine ⟨?_, hb.2.1, hb.2.2.1, hb.2.2.2⟩
  simp only [bytes_read, bytes_read_append, h0]
  omega

theorem read_file_large_keep (env : Env) (filenum : Nat) (st : State) :
    (read_file_large env filenum st).rtotal = bytes_read (read_file_large env filenum st).evs ∧
    rkeep (read_file_large env filenum st).st.g = rkeep st.g ∧
    (read_file_large env filenum st).st.g.gbyteread = st.g.gbyteread ∧
    (read_file_large env filenum st).st.g.gbytereadn = st.g.gbytereadn := by
  rw [read_file_large]
  dsimp only
  split
  · split
    · exact ⟨rfl, rfl, rfl, rfl⟩
    · split
      · exact verify_file_keep _ _ _ _ _ _ _ _ _ _ rfl
      · exact ⟨rfl, rfl, rfl, rfl⟩
  · split
    · exact ⟨rfl, rfl, rfl, rfl⟩
    · exact verify_file_keep _ _ _ _ _ _ _ _ _ _ rfl

theorem read_file_small_keep (env : Env) (filenum : Nat) (st : State) :
    (read_file_small env filenum st).rtotal = bytes_read (read_file_small env filenum st).evs ∧
    rkeep (read_file_small env filenum st).st.g = rkeep st.g ∧
    (read_file_small env filenum st).st.g.gbyteread = st.g.gbyteread ∧
    (read_file_small env filenum st).st.g.gbytereadn = st.g.gbytereadn := by
  rw [read_file_small]
  dsimp only
  split
  · split
    · exact ⟨rfl, rfl, rfl, rfl⟩
    · split
      · exact verify_file_keep _ _ _ _ _ _ _ _ _ _ rfl
      · exact ⟨rfl, rfl, rfl, rfl⟩
  · split
    · exact ⟨rfl, rfl, rfl, rfl⟩
    · exact verify_file_keep _ _ _ _ _ _ _ _ _ _ rfl

theorem read_file_large_brk (env : Env) (filenum : Nat) (st : State)
    (h : (read_file_large env filenum st).brk = true) :
    (read_file_large env filenum st).rtotal = 0 ∧
    (read_file_large env filenum st).st = st := by
  rw [read_file_large] at h ⊢
  dsimp only at h ⊢
  split
  · split
    · exact ⟨rfl, rfl⟩
    · split
      · rename_i h1 h2 h3
        rw [if_pos h1, if_neg h2, if_pos h3] at h
        cases h
      · exact ⟨rfl, rfl⟩
  · split
    · exact ⟨rfl, rfl⟩
    · rename_i h1 _ _ _ heq
      rw [if_neg h1, heq] at h
      cases h

theorem read_file_small_brk (env : Env) (filenum : Nat) (st : State)
    (h : (read_file_small env filenum st).brk = true) :
    (read_file_small env filenum st).rtotal = 0 ∧
    (read_file_small env filenum st).st = st := by
  rw [read_file_small] at h ⊢
  dsimp only at h ⊢
  split
  · split
    · exact ⟨rfl, rfl⟩
    · split
      · rename_i h1 h2 h3
        rw [if_pos h1, if_neg h2, if_pos h3] at h
        cases h
      · exact ⟨rfl, rfl⟩
  · split
    · exact ⟨rfl, rfl⟩
    · rename_i h1 _ _ _ heq
      rw [if_neg h1, heq] at h
      cases h

theorem read_large_totals (env : Env) (fuel filenum done : Nat) (st : State) :
    (read_large env fuel filenum done st).st.g.gbyteread =
      st.g.gbyteread + bytes_read (read_large env fuel filenum done st).evs ∧
    (read_large env fuel filenum done st).st.g.gbytereadn = st.g.gbytereadn ∧
    rkeep (read_large env fuel filenum done st).st.g = rkeep st.g := by
  induction fuel generalizing filenum done st with
  | zero => exact ⟨rfl, rfl, rfl⟩
  | succ fuel ih =>
    rw [read_large]
    split
    · dsimp only
      have hk := read_file_large_keep env filenum st
      have hbrk := read_file_large_brk env filenum st
      generalize read_file_large env filenum st = r at hk hbrk ⊢
      split
      · rename_i hc
        refine ⟨?_, hk.2.2.2, hk.2.1⟩
        show r.st.g.gbyteread = st.g.gbyteread + bytes_read r.evs
        rw [hk.2.2.1, ← hk.1, (hbrk hc).1]
        rfl
      · refine ⟨?_, (ih _ _ _).2.1.trans hk.2.2.2, (ih _ _ _).2.2.trans hk.2.1⟩
        rw [(ih _ _ _).1, bytes_read_append]
        generalize bytes_read (read_large env fuel _ _ _).evs = x
        show r.st.g.gbyteread + r.rtotal + x = _
        rw [hk.2.2.1, hk.1]
        omega
    · exact ⟨rfl, rfl, rfl⟩

theorem read_small_totals (env : Env) (fuel filenum done : Nat) (st : State) :
    (read_small env fuel filenum done st).st.g.gbyteread =
      st.g.gbyteread + bytes_read (read_small env fuel filenum done st).evs ∧
    (read_small env fuel filenum done st).st.g.gbytereadn = st.g.gbytereadn ∧
    rkeep (read_small env fuel filenum done st).st.g = rkeep st.g := by
  induction fuel generalizing filenum done st with
  | zero => exact ⟨rfl, rfl, rfl⟩
  | succ fuel ih =>
    rw [read_small]
    split
    · dsimp only
      have hk := read_file_small_keep env filenum st
      have hbrk := read_file_small_brk env filenum st
      generalize read_file_small env filenum st = r at hk hbrk ⊢
      split
      · rename_i hc
        refine ⟨?_, hk.2.2.2, hk.2.1⟩
        show r.st.g.gbyteread = st.g.gbyteread + bytes_read r.evs
        rw [hk.2.2.1, ← hk.1, (hbrk hc).1]
        rfl
      · refine ⟨?_, (ih _ _ _).2.1.trans hk.2.2.2, (ih _ _ _).2.2.trans hk.2.1⟩
        rw [(ih _ _ _).1, bytes_read_append]
        generalize bytes_read (read_small env fuel _ _ _).evs = x
        show r.st.g.gbyteread + r.rtotal + x = _
        rw [hk.2.2.1, hk.1]
        omega
    · exact ⟨rfl, rfl, rfl⟩

/-- C10. Starting from the initial totals (zero), after `fill_randfiles` the net total
`gbytewriten` is the number of bytes written by the large-block loop and the gross total
`gbytewrite` is that number plus the bytes written by the small-block loop; after
`read_randfiles` `gbytereadn` is the number of bytes read by the large-block loop and
`gbyteread` that number plus the bytes read by the small-block loop. The bytes of the
small-block loops enter no net total. -/
theorem gross_and_net_totals (env : Env) (fuel : Nat) (sw sr : State)
    (hw : sw.g.gbytewrite = 0) (hwn : sw.g.gbytewriten = 0) (hr : sr.g.gbyteread = 0) :
    (fill_randfiles env fuel sw).st.g.gbytewriten =
      bytes_written (fill_randfiles env fuel sw).large ∧
    (fill_randfiles env fuel sw).st.g.gbytewrite =
      bytes_written (fill_randfiles env fuel sw).large
        + bytes_written (fill_randfiles env fuel sw).small ∧
    (read_randfiles env fuel sr).st.g.gbytereadn =
      bytes_read (read_randfiles env fuel sr).large ∧
    (read_randfiles env fuel sr).st.g.gbyteread =
      bytes_read (read_randfiles env fuel sr).large
        + bytes_read (read_randfiles env fuel sr).small := by
  have h1 := fill_large_totals env sw.g.gopt_file_limit 0 0 sw (hwn.trans hw.symm)
  have h2 := fill_small_totals env fuel (fill_large env sw.g.gopt_file_limit 0 0 sw).filenum 0
    (fill_large env sw.g.gopt_file_limit 0 0 sw).st
  have h3 := read_large_totals env fuel 0 0 sr
  have h4 := read_small_totals env fuel (read_large env fuel 0 0 sr).filenum 0
    { (read_large env fuel 0 0 sr).st with
      g := { (read_large env fuel 0 0 sr).st.g with
        gbytereadn := (read_large env fuel 0 0 sr).st.g.gbyteread } }
  refine ⟨?_, ?_, ?_, ?_⟩
  · show (fill_small env fuel _ 0 _).st.g.gbytewriten = bytes_written (fill_large env _ 0 0 sw).evs
    rw [h2.2.1, h1.2.1, h1.1, hw, Nat.zero_add]
  · show (fill_small env fuel _ 0 _).st.g.gbytewrite = bytes_written (fill_large env _ 0 0 sw).evs
      + bytes_written (fill_small env fuel _ 0 _).evs
    rw [h2.1, h1.1, hw, Nat.zero_add]
  · show (read_small env fuel _ 0 _).st.g.gbytereadn = bytes_read (read_large env fuel 0 0 sr).evs
    rw [h4.2.1]
    show (read_large env fuel 0 0 sr).st.g.gbyteread = _
    rw [h3.1, hr, Nat.zero_add]
  · show (read_small env fuel _ 0 _).st.g.gbyteread = bytes_read (read_large env fuel 0 0 sr).evs
      + bytes_read (read_small env fuel _ 0 _).evs
    rw [h4.1]
    show (read_large env fuel 0 0 sr).st.g.gbyteread + _ = _
    rw [h3.1, hr, Nat.zero_add]

/-! ## Seeds of writer and verifier -/

theorem seed_mod (G n : Nat) : (G + (n + 1) % 2 ^ 32) % 2 ^ 32 = (G + n + 1) % 2 ^ 32 := by
  omega

theorem wseeds_ok_append (G : Nat) (a b : List Ev) (ha : wseeds_ok G a) (hb : wseeds_ok G b) :
    wseeds_ok G (a ++ b) := by
  intro e he
  rcases List.mem_append.1 he with h | h
  · exact ⟨(ha e h).1, fun n fd hc => List.mem_append_left _ ((ha e h).2 n fd hc)⟩
  · exact ⟨(hb e h).1, fun n fd hc => List.mem_append_right _ ((hb e h).2 n fd hc)⟩

theorem rseeds_ok_append (G : Nat) (a b : List Ev) (ha : rseeds_ok G a) (hb : rseeds_ok G b) :
    rseeds_ok G (a ++ b) := by
  intro e he
  rcases List.mem_append.1 he with h | h
  · exact ⟨(ha e h).1, fun n fd hc => List.mem_append_left _ ((ha e h).2 n fd hc)⟩
  · exact ⟨(hb e h).1, fun n fd hc => List.mem_append_right _ ((hb e h).2 n fd hc)⟩

theorem wseeds_ok_nil (G : Nat) : wseeds_ok G [] := fun e he => by cases he

theorem rseeds_ok_nil (G : Nat) : rseeds_ok G [] := fun e he => by cases he

theorem write_retry_writes (env : Env) (name : Nat) (block : List Nat) (size : Nat)
    (fuel wp done nw : Nat) (data : List Nat) :
    ∀ e ∈ (write_retry env name block size fuel wp done nw data).evs, is_write e = true := by
  induction fuel generalizing wp nw data with
  | zero => intro e he; cases he
  | succ fuel ih =>
    by_cases h : wp ≠ size ∧ done = 0
    · by_cases hwb : sys_write env nw (size - wp) ≤ 0
      · rw [write_retry_fail env name block size fuel wp done nw data h hwb]
        intro e he
        rw [List.mem_singleton.1 he]
        rfl
      · rw [write_retry_step env name block size fuel wp done nw data h hwb]
        intro e he
        rcases List.mem_cons.1 he with rfl | he
        · rfl
        · exact ih _ _ _ e he
    · rw [write_retry_stop env name block size fuel wp done nw data h]
      intro e he
      cases he

theorem write_blocks_writes (env : Env) (name nitems : Nat) (n blocknum rnd wtotal nw : Nat)
    (data : List Nat) :
    ∀ e ∈ (write_blocks env name nitems n blocknum rnd wtotal nw data).evs,
      is_write e = true := by
  induction n generalizing blocknum rnd wtotal nw data with
  | zero => intro e he; cases he
  | succ n ih =>
    rw [write_blocks]
    dsimp only
    split
    · exact write_retry_writes _ _ _ _ _ _ _ _ _
    · intro e he
      rcases List.mem_append.1 he with h | h
      · exact write_retry_writes _ _ _ _ _ _ _ _ _ e h
      · exact ih _ _ _ _ _ e h

theorem fill_file_seeds (env : Env) (nitems nblocks filenum : Nat) (st : State) :
    wseeds_ok st.g.g_seed (fill_file env nitems nblocks filenum st).evs := by
  rw [fill_file]
  split
  · intro e he
    rw [List.mem_singleton.1 he]
    exact ⟨fun n v hc => (by cases hc), fun n fd hc => (by cases hc)⟩
  · dsimp only
    have hw := write_blocks_writes env filenum nitems nblocks 0
      ((st.g.g_seed + (filenum + 1) % 2 ^ 32) % 2 ^ 32) 0 st.nw []
    generalize write_blocks env filenum nitems nblocks 0
      ((st.g.g_seed + (filenum + 1) % 2 ^ 32) % 2 ^ 32) 0 st.nw [] = r at hw ⊢
    rw [seed_mod]
    intro e he
    refine ⟨fun n v hc => ?_, fun n fd hc => ?_⟩
    · subst hc
      simp only [List.mem_cons, List.mem_append] at he
      rcases he with he | he | he | he | he | he
      · cases he
      · split_ifs at he <;> simp at he
      · cases he
        rfl
      · have := hw _ he
        cases this
      · split_ifs at he <;> simp at he
      · split_ifs at he <;> simp at he
    · subst hc
      simp only [List.mem_cons, List.mem_append] at he
      rcases he with he | he | he | he | he | he
      · cases he
        simp
      · split_ifs at he <;> simp at he
      · cases he
      · have := hw _ he
        cases this
      · split_ifs at he <;> simp at he
      · split_ifs at he <;> simp at he

theorem wkeep_seed (g g1 : Globals) (h : wkeep g1 = wkeep g) : g1.g_seed = g.g_seed :=
  congrArg (fun t => t.1.1) h

theorem rkeep_seed (g g1 : Globals) (h : rkeep g1 = rkeep g) : g1.g_seed = g.g_seed :=
  congrArg (fun t => t.1.1) h

theorem fill_large_seeds (env : Env) (fuel filenum done : Nat) (st : State) :
    wseeds_ok st.g.g_seed (fill_large env fuel filenum done st).evs := by
  induction fuel generalizing filenum done st with
  | zero => exact wseeds_ok_nil _
  | succ fuel ih =>
    rw [fill_large]
    split
    · dsimp only
      have hk := wkeep_seed _ _ (fill_file_wkeep env BLOCK_ITEMS st.g.gopt_file_size filenum st).1
      have hs := fill_file_seeds env BLOCK_ITEMS st.g.gopt_file_size filenum st
      generalize fill_file env BLOCK_ITEMS st.g.gopt_file_size filenum st = r at hk hs ⊢
      split
      · exact hs
      · refine wseeds_ok_append _ _ _ hs ?_
        have hi := ih r.filenum r.done
          { r.st with g := { r.st.g with gbytewrite := r.st.g.gbytewrite + r.wtotal,
                                         gbytewriten := r.st.g.gbytewrite + r.wtotal } }
        rw [← hk]
        exact hi
    · exact wseeds_ok_nil _

theorem fill_small_seeds (env : Env) (fuel filenum done : Nat) (st : State) :
    wseeds_ok st.g.g_seed (fill_small env fuel filenum done st).evs := by
  induction fuel generalizing filenum done st with
  | zero => exact wseeds_ok_nil _
  | succ fuel ih =>
    rw [fill_small]
    split
    · dsimp only
      have hk := wkeep_seed _ _ (fill_file_wkeep env (small_items st.g) SMALL_BLOCKS filenum st).1
      have hs := fill_file_seeds env (small_items st.g) SMALL_BLOCKS filenum st
      generalize fill_file env (small_items st.g) SMALL_BLOCKS filenum st = r at hk hs ⊢
      split
      · exact hs
      · refine wseeds_ok_append _ _ _ hs ?_
        have hi := ih r.filenum r.done
          { r.st with g := { r.st.g with gbytewrite := r.st.g.gbytewrite + r.wtotal } }
        rw [← hk]
        exact hi
    · exact wseeds_ok_nil _

theorem check_block_faults (name blocknum : Nat) (xs : List Nat) (i rnd : Nat) (g : Globals) :
    ∀ e ∈ (check_block name blocknum xs i rnd g).evs, is_fault e = true := by
  induction xs generalizing i rnd g with
  | nil => intro e he; cases he
  | cons x xs ih =>
    rw [check_block]
    dsimp only
    split
    · intro e he
      rcases List.mem_cons.1 he with rfl | he
      · rfl
      · exact ih _ _ _ e he
    · exact ih _ _ _

theorem read_blocks_reads (env : Env) (name size : Nat) (n blocknum : Nat) (rest : List Nat)
    (rnd rtotal nr : Nat) (g : Globals) :
    ∀ e ∈ (read_blocks env name size n blocknum rest rnd rtotal nr g).evs,
      is_read_or_fault e = true := by
  induction n generalizing blocknum rest rnd rtotal nr g with
  | zero => intro e he; cases he
  | succ n ih =>
    rw [read_blocks]
    dsimp only
    split
    · intro e he
      rw [List.mem_singleton.1 he]
      rfl
    · intro e he
      rcases List.mem_cons.1 he with rfl | he
      · rfl
      · rcases List.mem_append.1 he with h | h
        · have := check_block_faults _ _ _ _ _ _ e h
          cases e <;> first | rfl | cases this
        · exact ih _ _ _ _ _ _ e h

theorem verify_file_seeds (env : Env) (G name size nblocks filenum1 rnd fd : Nat) (w1 : World)
    (e0 : List Ev) (st : State) (hrnd : rnd = (G + name + 1) % 2 ^ 32)
    (h0 : ∀ e ∈ e0, (∀ n v, e ≠ Ev.rstart n v) ∧ (∀ n h, e = Ev.openr n h → n = name)) :
    rseeds_ok G (verify_file env name size nblocks filenum1 rnd fd w1 e0 st).evs := by
  rw [verify_file]
  dsimp only
  have hr := read_blocks_reads env name size nblocks 0 (w1.store fd) rnd 0 st.nr st.g
  generalize read_blocks env name size nblocks 0 (w1.store fd) rnd 0 st.nr st.g = r at hr ⊢
  subst hrnd
  intro e he
  refine ⟨fun n v hc => ?_, fun n h hc => ?_⟩
  · subst hc
    simp only [List.mem_cons, List.mem_append] at he
    rcases he with he | he | he | he
    · exact absurd rfl ((h0 _ he).1 n v)
    · cases he
      rfl
    · have := hr _ he
      cases this
    · simp at he
  · subst hc
    simp only [List.mem_cons, List.mem_append] at he
    rcases he with he | he | he | he
    · have := (h0 _ he).2 n h rfl
      subst this
      simp
    · cases he
    · have := hr _ he
      cases this
    · simp at he

theorem read_file_large_seeds (env : Env) (filenum : Nat) (st : State) :
    rseeds_ok st.g.g_seed (read_file_large env filenum st).evs := by
  rw [read_file_large]
  dsimp only
  rw [seed_mod]
  split
  · split
    · intro e he
      rw [List.mem_singleton.1 he]
      exact ⟨fun n v hc => (by cases hc), fun n fd hc => (by cases hc)⟩
    · split
      · refine verify_file_seeds _ _ _ _ _ _ _ _ _ _ _ rfl ?_
        intro e he
        rw [List.mem_singleton.1 he]
        exact ⟨fun n v hc => (by cases hc), fun n fd hc => (by cases hc)⟩
      · intro e he
        simp only [List.mem_cons, List.mem_singleton, List.not_mem_nil, or_false] at he
        rcases he with rfl | rfl <;>
          exact ⟨fun n v hc => (by cases hc), fun n fd hc => (by cases hc)⟩
  · split
    · intro e he
      rw [List.mem_singleton.1 he]
      exact ⟨fun n v hc => (by cases hc), fun n fd hc => (by cases hc)⟩
    · refine verify_file_seeds _ _ _ _ _ _ _ _ _ _ _ rfl ?_
      intro e he
      rw [List.mem_singleton.1 he]
      exact ⟨fun n v hc => (by cases hc), fun n fd hc => (by cases hc; rfl)⟩

theorem read_file_small_seeds (env : Env) (filenum : Nat) (st : State) :
    rseeds_ok st.g.g_seed (read_file_small env filenum st).evs := by
  rw [read_file_small]
  dsimp only
  rw [seed_mod]
  split
  · split
    · intro e he
      rw [List.mem_singleton.1 he]
      exact ⟨fun n v hc => (by cases hc), fun n fd hc => (by cases hc)⟩
    · split
      · refine verify_file_seeds _ _ _ _ _ _ _ _ _ _ _ rfl ?_
        intro e he
        rw [List.mem_singleton.1 he]
        exact ⟨fun n v hc => (by cases hc), fun n fd hc => (by cases hc)⟩
      · intro e he
        simp only [List.mem_cons, List.mem_singleton, List.not_mem_nil, or_false] at he
        rcases he with rfl | rfl <;>
          exact ⟨fun n v hc => (by cases hc), fun n fd hc => (by cases hc)⟩
  · split
    · intro e he
      rw [List.mem_singleton.1 he]
      exact ⟨fun n v hc => (by cases hc), fun n fd hc => (by cases hc)⟩
    · refine verify_file_seeds _ _ _ _ _ _ _ _ _ _ _ rfl ?_
      intro e he
      rw [List.mem_singleton.1 he]
      exact ⟨fun n v hc => (by cases hc), fun n fd hc => (by cases hc; rfl)⟩

theorem read_large_seeds (env : Env) (fuel filenum done : Nat) (st : State) :
    rseeds_ok st.g.g_seed (read_large env fuel filenum done st).evs := by
  induction fuel generalizing filenum done st with
  | zero => exact rseeds_ok_nil _
  | succ fuel ih =>
    rw [read_large]
    split
    · dsimp only
      have hk := rkeep_seed _ _ (read_file_large_keep env filenum st).2.1
      have hs := read_file_large_seeds env filenum st
      generalize read_file_large env filenum st = r at hk hs ⊢
      split
      · exact hs
      · refine rseeds_ok_append _ _ _ hs ?_
        have hi := ih r.filenum r.done
          { r.st with g := { r.st.g with gbyteread := r.st.g.gbyteread + r.rtotal } }
        rw [← hk]
        exact hi
    · exact rseeds_ok_nil _

theorem read_small_seeds (env : Env) (fuel filenum done : Nat) (st : State) :
    rseeds_ok st.g.g_seed (read_small env fuel filenum done st).evs := by
  induction fuel generalizing filenum done st with
  | zero => exact rseeds_ok_nil _
  | succ fuel ih =>
    rw [read_small]
    split
    · dsimp only
      have hk := rkeep_seed _ _ (read_file_small_keep env filenum st).2.1
      have hs := read_file_small_seeds env filenum st
      generalize read_file_small env filenum st = r at hk hs ⊢
      split
      · exact hs
      · refine rseeds_ok_append _ _ _ hs ?_
        have hi := ih r.filenum r.done
          { r.st with g := { r.st.g with gbyteread := r.st.g.gbyteread + r.rtotal } }
        rw [← hk]
        exact hi
    · exact rseeds_ok_nil _

/-- Witness of C10: a writer run on a volume that takes five bytes, with top-off
requested, and a verifier run. -/
theorem gross_and_net_totals_witness :
    (fill_randfiles env_short 1 (State.init { fulfill := 1 } World.empty)).st.g.gbytewriten =
      bytes_written (fill_randfiles env_short 1 (State.init { fulfill := 1 } World.empty)).large ∧
    (fill_randfiles env_short 1 (State.init { fulfill := 1 } World.empty)).st.g.gbytewrite =
      bytes_written (fill_randfiles env_short 1 (State.init { fulfill := 1 } World.empty)).large
        + bytes_written
            (fill_randfiles env_short 1 (State.init { fulfill := 1 } World.empty)).small ∧
    (read_randfiles env_short 1 (State.init {} World.empty)).st.g.gbytereadn =
      bytes_read (read_randfiles env_short 1 (State.init {} World.empty)).large ∧
    (read_randfiles env_short 1 (State.init {} World.empty)).st.g.gbyteread =
      bytes_read (read_randfiles env_short 1 (State.init {} World.empty)).large
        + bytes_read (read_randfiles env_short 1 (State.init {} World.empty)).small :=
  gross_and_net_totals env_short 1 (State.init { fulfill := 1 } World.empty)
    (State.init {} World.empty) rfl rfl rfl

/-! ## Files that received no byte -/

theorem write_blocks_zero_items (env : Env) (name n blocknum rnd wtotal nw : Nat)
    (data : List Nat) :
    write_blocks env name 0 n blocknum rnd wtotal nw data =
      ⟨blocknum + n, 0, rnd, wtotal, 0, nw, data, []⟩ := by
  induction n generalizing blocknum wtotal with
  | zero => rfl
  | succ n ih =>
    rw [write_blocks]
    dsimp only
    rw [show fill_block 0 rnd = ([], rnd) from rfl]
    rw [show (0 : Nat) * 8 = 0 from rfl, write_retry_zero]
    dsimp only
    rw [if_neg (by simp), ih]
    dsimp only
    simp only [List.nil_append, BlocksRes.mk.injEq, and_true, Nat.add_zero, true_and]
    omega

theorem fill_file_zero_items (env : Env) (hc : ∀ n, env.creat n = true)
    (nblocks filenum : Nat) (st : State) :
    (fill_file env 0 nblocks filenum st).brk = false ∧
    (fill_file env 0 nblocks filenum st).done = 0 ∧
    ((fill_file env 0 nblocks filenum st).evs.filter is_creat).length = 1 := by
  rw [fill_file]
  simp only [sys_creat, hc, if_true]
  rw [write_blocks_zero_items]
  refine ⟨trivial, rfl, ?_⟩
  dsimp only
  split_ifs <;> simp [List.filter, is_creat]

theorem wkeep_config (g g1 : Globals) (h : wkeep g1 = wkeep g) : config g1 = config g :=
  congrArg (fun t => t.1) h

theorem rkeep_config (g g1 : Globals) (h : rkeep g1 = rkeep g) : config g1 = config g :=
  congrArg (fun t => t.1) h

theorem config_fulfill (g g1 : Globals) (h : config g1 = config g) : g1.fulfill = g.fulfill :=
  congrArg (fun t => t.2.2.2.2.2.2.1) h

theorem config_limit (g g1 : Globals) (h : config g1 = config g) :
    g1.gopt_file_limit = g.gopt_file_limit :=
  congrArg (fun t => t.2.2.2.2.1) h

theorem config_size (g g1 : Globals) (h : config g1 = config g) :
    g1.gopt_file_size = g.gopt_file_size :=
  congrArg (fun t => t.2.2.2.1) h

theorem config_immediate (g g1 : Globals) (h : config g1 = config g) :
    g1.gopt_unlink_immediate = g.gopt_unlink_immediate :=
  congrArg (fun t => t.2.2.1) h

theorem config_seed (g g1 : Globals) (h : config g1 = config g) : g1.g_seed = g.g_seed :=
  congrArg (fun t => t.1) h

theorem config_small_items (g g1 : Globals) (h : config g1 = config g) :
    small_items g1 = small_items g := by
  have h1 : g1.gopt_sector_size_in512 = g.gopt_sector_size_in512 :=
    congrArg (fun t => t.2.2.2.2.2.1) h
  rw [small_items, small_items, h1]

theorem fill_small_zero_items (env : Env) (hc : ∀ n, env.creat n = true) (n filenum : Nat)
    (st : State) (h1 : st.g.fulfill = 1) (h2 : small_items st.g = 0) :
    (fill_small env n filenum 0 st).finished = false ∧
    ((fill_small env n filenum 0 st).evs.filter is_creat).length = n := by
  induction n generalizing filenum st with
  | zero =>
    rw [fill_small]
    simp [h1]
  | succ n ih =>
    rw [fill_small, if_pos ⟨rfl, h1⟩]
    dsimp only
    rw [h2]
    have hz := fill_file_zero_items env hc SMALL_BLOCKS filenum st
    have hk := wkeep_config _ _ (fill_file_wkeep env 0 SMALL_BLOCKS filenum st).1
    generalize fill_file env 0 SMALL_BLOCKS filenum st = r at hz hk ⊢
    rw [if_neg (by simp [hz.1]), hz.2.1]
    have hi := ih r.filenum
      { r.st with g := { r.st.g with gbytewrite := r.st.g.gbytewrite + r.wtotal } }
      ((config_fulfill _ _ hk).trans h1) ((config_small_items _ _ hk).trans h2)
    refine ⟨hi.1, ?_⟩
    dsimp only
    rw [List.filter_append, List.length_append, hz.2.2, hi.2]
    omega

/-- C8, evaluated where it fails. With file size 0 (`-S 0 -f 2`) the large-block loop
writes nothing to `random-00000000`, deletes it, and then creates `random-00000001` all
the same. With a top-off block of 0 bytes (`-z -d 0`) the small-block loop, started at
any file number on any file system, has created `n` files after `n` iterations and has
not ended, for every `n`. In both cases no `write` call is made, so `done` stays 0. -/
theorem empty_file_does_not_end_phase :
    (fill_randfiles env_ok 0
        (State.init { gopt_file_size := 0, gopt_file_limit := 2 } World.empty)).large =
      [Ev.creat 0 0, Ev.wstart 0 1434038593, Ev.close 0, Ev.nospace 0, Ev.unlink 0 true,
       Ev.creat 1 1, Ev.wstart 1 1434038594, Ev.close 1, Ev.nospace 1, Ev.unlink 1 true] ∧
    ∀ n filenum w,
      (fill_small env_ok n filenum 0
        (State.init { gopt_sector_size_in512 := 0, fulfill := 1 } w)).finished = false ∧
      ((fill_small env_ok n filenum 0
        (State.init { gopt_sector_size_in512 := 0, fulfill := 1 } w)).evs.filter
          is_creat).length = n :=
  ⟨rfl, fun n filenum w => fill_small_zero_items env_ok (fun _ => rfl) n filenum _ rfl
    (by simp [small_items, State.init])⟩

/-! ## Top-off and the file-count limit -/

theorem parse_opts_limit (opts : List Opt) (g g1 : Globals) (h : parse_opts opts g = some g1)
    (hn : ∀ a, Opt.f a ∉ opts) : g1.gopt_file_limit = g.gopt_file_limit := by
  induction opts generalizing g with
  | nil =>
    simp only [parse_opts, Option.some.injEq] at h
    rw [h]
  | cons o os ih =>
    have hn1 : ∀ a, Opt.f a ∉ os := fun a ha => hn a (List.mem_cons_of_mem _ ha)
    cases o <;> simp only [parse_opts] at h
    case f a => exact absurd (List.mem_cons_self _ _) (hn a)
    all_goals first
      | cases h
      | (have h2 := ih _ h hn1; exact h2)

theorem parse_opts_fulfill (opts : List Opt) (g g1 : Globals) (h : parse_opts opts g = some g1)
    (hn : ¬ topoff_requested opts) : g1.fulfill = g.fulfill := by
  induction opts generalizing g with
  | nil =>
    simp only [parse_opts, Option.some.injEq] at h
    rw [h]
  | cons o os ih =>
    have hn1 : ¬ topoff_requested os :=
      fun ⟨x, hx, hz⟩ => hn ⟨x, List.mem_cons_of_mem _ hx, hz⟩
    cases o <;> simp only [parse_opts] at h
    case z => exact absurd ⟨_, List.mem_cons_self _ _, Or.inl rfl⟩ hn
    case d a => exact absurd ⟨_, List.mem_cons_self _ _, Or.inr ⟨a, rfl⟩⟩ hn
    all_goals first
      | cases h
      | (have h2 := ih _ h hn1; exact h2)

theorem parse_opts_limit_given (opts : List Opt) (g g1 : Globals)
    (h : parse_opts opts g = some g1) (hl : limit_given opts) :
    ∃ a, Opt.f a ∈ opts ∧ g1.gopt_file_limit = to_uint a := by
  induction opts generalizing g with
  | nil =>
    obtain ⟨a, ha⟩ := hl
    cases ha
  | cons o os ih =>
    by_cases hos : limit_given os
    · have key : ∀ g2, parse_opts os g2 = some g1 →
          ∃ a, Opt.f a ∈ o :: os ∧ g1.gopt_file_limit = to_uint a := fun g2 h2 =>
        let ⟨a, ha, h3⟩ := ih g2 h2 hos
        ⟨a, List.mem_cons_of_mem _ ha, h3⟩
      cases o <;> simp only [parse_opts] at h
      all_goals first
        | cases h
        | exact key _ h
    · have hn : ∀ a, Opt.f a ∉ os := fun a ha => hos ⟨a, ha⟩
      obtain ⟨a, ha⟩ := hl
      rcases List.mem_cons.1 ha with h1 | h1
      · subst h1
        simp only [parse_opts] at h
        exact ⟨a, List.mem_cons_self _ _, parse_opts_limit os _ g1 h hn⟩
      · exact absurd h1 (hn a)

theorem parse_commandline_facts (opts : List Opt) (extra : Bool) (g : Globals)
    (h : parse_commandline opts extra = some g) :
    (g.fulfill = 1 → topoff_requested opts ∧ g.gopt_file_limit = UINT_MAX) ∧
    (limit_given opts → ∃ a, Opt.f a ∈ opts ∧ g.gopt_file_limit = to_uint a) := by
  rw [parse_commandline] at h
  split at h
  · cases h
  · rename_i g0 h0
    dsimp only at h
    split at h
    · cases h
    · simp only [Option.some.injEq] at h
      subst h
      constructor
      · intro hf
        split at hf
        · cases hf
        · rename_i hlim
          refine ⟨?_, ?_⟩
          · by_contra hn
            have := parse_opts_fulfill opts _ g0 h0 hn
            rw [hf] at this
            cases this
          · rw [if_neg hlim]
            exact not_not.1 hlim
      · intro hl
        obtain ⟨a, ha, h1⟩ := parse_opts_limit_given opts _ g0 h0 hl
        refine ⟨a, ha, ?_⟩
        split
        · exact h1
        · exact h1

theorem fill_small_off (env : Env) (fuel filenum done : Nat) (st : State)
    (h : st.g.fulfill ≠ 1) : (fill_small env fuel filenum done st).evs = [] := by
  cases fuel with
  | zero => rfl
  | succ fuel => rw [fill_small, if_neg (fun hc => h hc.2)]

theorem read_small_off (env : Env) (fuel filenum done : Nat) (st : State)
    (h : ¬(st.g.gopt_file_limit = UINT_MAX ∧ st.g.fulfill = 1)) :
    (read_small env fuel filenum done st).evs = [] := by
  cases fuel with
  | zero => rfl
  | succ fuel => rw [read_small, if_neg (fun hc => h hc.2)]

theorem fill_randfiles_small_off (env : Env) (fuel : Nat) (st : State)
    (h : st.g.fulfill ≠ 1) : (fill_randfiles env fuel st).small = [] := by
  refine fill_small_off env fuel _ 0 _ ?_
  rw [config_fulfill _ _ (wkeep_config _ _ (fill_large_wkeep env _ 0 0 st))]
  exact h

theorem read_randfiles_small_off (env : Env) (fuel : Nat) (st : State)
    (h : ¬(st.g.gopt_file_limit = UINT_MAX ∧ st.g.fulfill = 1)) :
    (read_randfiles env fuel st).small = [] := by
  refine read_small_off env fuel _ 0 _ ?_
  have hc := rkeep_config _ _ (read_large_totals env fuel 0 0 st).2.2
  intro hx
  exact h ⟨(config_limit _ _ hc).symm.trans hx.1, (config_fulfill _ _ hc).symm.trans hx.2⟩

/-- C9 as stated fails: with the options `-f -1 -z` a file-count limit is given, yet
`atoi("-1")` stored in the `unsigned int` limit is `UINT_MAX`, the value that stands for
"no limit"; `fulfill` stays 1 and on a full volume the small-block loop of
`fill_randfiles` creates `random-00000001`. -/
theorem topoff_runs_with_limit_given :
    limit_given [Opt.f (-1), Opt.z] ∧
    parse_commandline [Opt.f (-1), Opt.z] false = some { fulfill := 1 } ∧
    (fill_randfiles env_full 1 (State.init { fulfill := 1 } World.empty)).small =
      [Ev.creat 1 1, Ev.wstart 1 1434038594, Ev.write 1 4096 0, Ev.close 1, Ev.nospace 1,
        Ev.unlink 1 true] :=
  ⟨⟨-1, List.mem_cons_self _ _⟩, rfl, rfl⟩

/-- C9, amended. For every list of options that `parse_commandline` accepts and every
run whose configuration is the result of parsing: if the small-block loop of
`fill_randfiles` creates a file, or the small-block loop of `read_randfiles` starts to
verify one, then top-off was requested (`-z` or `-d`) and the file-count limit in effect
is `UINT_MAX`; so when `-f` was given, one of its values converts to `UINT_MAX`. When `-f`
is given and none of its values converts to `UINT_MAX`, both small-block loops do
nothing at all. -/
theorem topoff_only_without_effective_limit (opts : List Opt) (extra : Bool) (g : Globals)
    (hp : parse_commandline opts extra = some g) (env : Env) (fuel : Nat) (sw sr : State)
    (hw : config sw.g = config g) (hr : config sr.g = config g) :
    (((∃ e ∈ (fill_randfiles env fuel sw).small, is_creat e = true) ∨
        (∃ e ∈ (read_randfiles env fuel sr).small, is_rstart e = true)) →
      topoff_requested opts ∧ g.gopt_file_limit = UINT_MAX ∧
      (limit_given opts → ∃ a, Opt.f a ∈ opts ∧ to_uint a = UINT_MAX)) ∧
    (limit_given opts → (∀ a, Opt.f a ∈ opts → to_uint a ≠ UINT_MAX) →
      (fill_randfiles env fuel sw).small = [] ∧ (read_randfiles env fuel sr).small = []) := by
  have hf := parse_commandline_facts opts extra g hp
  have key : g.fulfill = 1 → topoff_requested opts ∧ g.gopt_file_limit = UINT_MAX ∧
      (limit_given opts → ∃ a, Opt.f a ∈ opts ∧ to_uint a = UINT_MAX) := fun h1 =>
    ⟨(hf.1 h1).1, (hf.1 h1).2, fun hl =>
      let ⟨a, ha, h2⟩ := hf.2 hl
      ⟨a, ha, h2.symm.trans (hf.1 h1).2⟩⟩
  have hoff : g.fulfill ≠ 1 →
      (fill_randfiles env fuel sw).small = [] ∧ (read_randfiles env fuel sr).small = [] :=
    fun h1 => ⟨fill_randfiles_small_off env fuel sw (by rw [config_fulfill _ _ hw]; exact h1),
      read_randfiles_small_off env fuel sr
        (fun hx => h1 ((config_fulfill _ _ hr).symm.trans hx.2))⟩
  constructor
  · intro hex
    by_cases h1 : g.fulfill = 1
    · exact key h1
    · rcases hex with ⟨e, he, _⟩ | ⟨e, he, _⟩
      · rw [(hoff h1).1] at he
        cases he
      · rw [(hoff h1).2] at he
        cases he
  · intro hl hne
    refine hoff fun h1 => ?_
    obtain ⟨a, ha, h2⟩ := (key h1).2.2 hl
    exact hne a ha h2

/-- Witness of the amended C9: the options `-z` alone, on a full volume. -/
theorem topoff_only_without_effective_limit_witness :
    (((∃ e ∈ (fill_randfiles env_full 1 (State.init { fulfill := 1 } World.empty)).small,
          is_creat e = true) ∨
        (∃ e ∈ (read_randfiles env_full 1 (State.init { fulfill := 1 } World.empty)).small,
          is_rstart e = true)) →
      topoff_requested [Opt.z] ∧ ({ fulfill := 1 } : Globals).gopt_file_limit = UINT_MAX ∧
      (limit_given [Opt.z] → ∃ a, Opt.f a ∈ [Opt.z] ∧ to_uint a = UINT_MAX)) ∧
    (limit_given [Opt.z] → (∀ a, Opt.f a ∈ [Opt.z] → to_uint a ≠ UINT_MAX) →
      (fill_randfiles env_full 1 (State.init { fulfill := 1 } World.empty)).small = [] ∧
      (read_randfiles env_full 1 (State.init { fulfill := 1 } World.empty)).small = []) :=
  topoff_only_without_effective_limit [Opt.z] false { fulfill := 1 } rfl env_full 1
    (State.init { fulfill := 1 } World.empty) (State.init { fulfill := 1 } World.empty) rfl rfl

/-! ## File system and byte lemmas -/

theorem sys_unlink_store (w : World) (n : Nat) : (sys_unlink w n).2.store = w.store := by
  rw [sys_unlink]
  split <;> rfl

theorem sys_unlink_next (w : World) (n : Nat) : (sys_unlink w n).2.next = w.next := by
  rw [sys_unlink]
  split <;> rfl

theorem sys_unlink_isopen (w : World) (n : Nat) : (sys_unlink w n).2.isopen = w.isopen := by
  rw [sys_unlink]
  split <;> rfl

theorem sys_unlink_dir_self (w : World) (n : Nat) : (sys_unlink w n).2.dir n = none := by
  rw [sys_unlink]
  split
  · rename_i h
    exact h
  · simp

theorem sys_unlink_dir_other (w : World) (n m : Nat) (h : m ≠ n) :
    (sys_unlink w n).2.dir m = w.dir m := by
  rw [sys_unlink]
  split
  · rfl
  · simp [h]

theorem sys_write_pos (env : Env) (k req : Nat) (h : ¬ sys_write env k req ≤ 0) :
    1 ≤ (sys_write env k req).toNat ∧ (sys_write env k req).toNat ≤ req := by
  rw [sys_write] at h ⊢
  split_ifs at h ⊢ <;> omega

theorem item_bytes_length (v : Nat) : (item_bytes v).length = 8 := rfl

theorem block_bytes_length (xs : List Nat) : (block_bytes xs).length = xs.length * 8 := by
  induction xs with
  | nil => rfl
  | cons x xs ih =>
    rw [block_bytes, List.length_append, ih, item_bytes_length, List.length_cons]
    omega

theorem block_bytes_append (xs ys : List Nat) :
    block_bytes (xs ++ ys) = block_bytes xs ++ block_bytes ys := by
  induction xs with
  | nil => rfl
  | cons x xs ih =>
    rw [List.cons_append, block_bytes, block_bytes, ih, List.append_assoc]

theorem fill_block_add (a b rnd : Nat) :
    fill_block (a + b) rnd =
      ((fill_block a rnd).1 ++ (fill_block b (fill_block a rnd).2).1,
        (fill_block b (fill_block a rnd).2).2) := by
  induction a generalizing rnd with
  | zero =>
    rw [Nat.zero_add, fill_block_zero]
    rfl
  | succ a ih =>
    rw [show a + 1 + b = (a + b) + 1 by omega, fill_block_succ, fill_block_succ, ih]
    rfl

/-! ## Short writes -/

theorem write_retry_data (env : Env) (name : Nat) (block : List Nat) (size : Nat)
    (fuel wp nw : Nat) (data : List Nat) (hwp : wp ≤ size) :
    wp ≤ (write_retry env name block size fuel wp 0 nw data).wp ∧
    (write_retry env name block size fuel wp 0 nw data).wp ≤ size ∧
    (write_retry env name block size fuel wp 0 nw data).data =
      data ++ (block.drop wp).take ((write_retry env name block size fuel wp 0 nw data).wp - wp) ∧
    (size - wp ≤ fuel → (write_retry env name block size fuel wp 0 nw data).done = 0 →
      (write_retry env name block size fuel wp 0 nw data).wp = size) := by
  induction fuel generalizing wp nw data with
  | zero =>
    rw [write_retry_zero]
    refine ⟨le_refl _, hwp, ?_, fun h _ => ?_⟩
    · simp
    · dsimp only
      omega
  | succ fuel ih =>
    by_cases h : wp ≠ size ∧ 0 = 0
    · by_cases hwb : sys_write env nw (size - wp) ≤ 0
      · rw [write_retry_fail env name block size fuel wp 0 nw data h hwb]
        refine ⟨le_refl _, hwp, ?_, fun _ hd => ?_⟩
        · simp
        · cases hd
      · rw [write_retry_step env name block size fuel wp 0 nw data h hwb]
        have hp := sys_write_pos env nw (size - wp) hwb
        generalize (sys_write env nw (size - wp)).toNat = n at hp ⊢
        have hi := ih (wp + n) (nw + 1) (data ++ (block.drop wp).take n) (by omega)
        generalize write_retry env name block size fuel (wp + n) 0 (nw + 1)
          (data ++ (block.drop wp).take n) = r at hi ⊢
        dsimp only
        refine ⟨by omega, hi.2.1, ?_, fun hf hd => hi.2.2.2 (by omega) hd⟩
        rw [hi.2.2.1, List.append_assoc]
        congr 1
        rw [show r.wp - wp = n + (r.wp - (wp + n)) by omega, List.take_add, List.drop_drop]
    · rw [write_retry_stop env name block size fuel wp 0 nw data h]
      refine ⟨le_refl _, hwp, ?_, fun _ _ => ?_⟩
      · simp
      · dsimp only
        by_contra hne
        exact h ⟨hne, rfl⟩

theorem write_blocks_data (env : Env) (name nitems : Nat) (n blocknum rnd wtotal nw : Nat)
    (data : List Nat)
    (hd : (write_blocks env name nitems n blocknum rnd wtotal nw data).done ≠ 0)
    (hwp : (write_blocks env name nitems n blocknum rnd wtotal nw data).wp = 0) :
    blocknum ≤ (write_blocks env name nitems n blocknum rnd wtotal nw data).blocknum ∧
    (write_blocks env name nitems n blocknum rnd wtotal nw data).blocknum < blocknum + n ∧
    (write_blocks env name nitems n blocknum rnd wtotal nw data).data =
      data ++ stream_bytes rnd
        (((write_blocks env name nitems n blocknum rnd wtotal nw data).blocknum - blocknum)
          * nitems) ∧
    (write_blocks env name nitems n blocknum rnd wtotal nw data).wtotal =
      wtotal + ((write_blocks env name nitems n blocknum rnd wtotal nw data).blocknum - blocknum)
        * (nitems * 8) := by
  induction n generalizing blocknum rnd wtotal nw data with
  | zero =>
    rw [write_blocks] at hd
    exact absurd rfl hd
  | succ n ih =>
    rw [write_blocks] at hd hwp ⊢
    dsimp only at hd hwp ⊢
    have hr := write_retry_data env name (block_bytes (fill_block nitems rnd).1) (nitems * 8)
      (nitems * 8) 0 nw data (Nat.zero_le _)
    generalize write_retry env name (block_bytes (fill_block nitems rnd).1) (nitems * 8)
      (nitems * 8) 0 0 nw data = r at hr hd hwp ⊢
    by_cases hrd : r.done ≠ 0
    · rw [if_pos hrd] at hd hwp ⊢
      dsimp only at hwp ⊢
      refine ⟨le_refl _, by omega, ?_, ?_⟩
      · rw [hr.2.2.1, hwp]
        simp [stream_bytes, fill_block_zero, block_bytes]
      · rw [hwp]
        simp
    · rw [if_neg hrd] at hd hwp ⊢
      dsimp only at hd hwp ⊢
      have hfull := hr.2.2.2 (by omega) (not_not.1 hrd)
      have hi := ih (blocknum + 1) (fill_block nitems rnd).2 (wtotal + r.wp) r.nw r.data hd hwp
      generalize write_blocks env name nitems n (blocknum + 1) (fill_block nitems rnd).2
        (wtotal + r.wp) r.nw r.data = s at hi ⊢
      refine ⟨by omega, by omega, ?_, ?_⟩
      · rw [hi.2.2.1, hr.2.2.1, hfull, Nat.sub_zero, List.drop_zero,
          List.take_of_length_le (by rw [block_bytes_length, fill_block_length]),
          List.append_assoc]
        congr 1
        rw [show (s.blocknum - blocknum) * nitems =
          nitems + (s.blocknum - (blocknum + 1)) * nitems by
            rw [show s.blocknum - blocknum = (s.blocknum - (blocknum + 1)) + 1 by omega,
              Nat.add_mul, Nat.one_mul, Nat.add_comm]]
        rw [stream_bytes, stream_bytes, fill_block_add, block_bytes_append]
      · rw [hi.2.2.2, hfull,
          show s.blocknum - blocknum = (s.blocknum - (blocknum + 1)) + 1 by omega,
          Nat.add_mul, Nat.one_mul]
        omega

theorem sys_creat_some (env : Env) (w : World) (name fd : Nat) (w1 : World)
    (h : sys_creat env w name = some (fd, w1)) :
    env.creat name = true ∧ fd = w.next ∧ w1.dir name = some fd ∧ w1.next = w.next + 1 ∧
    w1.store fd = [] ∧ (∀ m, m ≠ name → w1.dir m = w.dir m) ∧
    (∀ k, k ≠ fd → w1.store k = w.store k) := by
  rw [sys_creat] at h
  split at h
  · rename_i hc
    simp only [Option.some.injEq, Prod.mk.injEq] at h
    obtain ⟨h1, h2⟩ := h
    subst h1
    subst h2
    refine ⟨hc, rfl, ?_, rfl, ?_, fun m hm => ?_, fun k hk => ?_⟩
    · simp
    · simp
    · simp [hm]
    · simp [hk]
  · cases h

theorem fill_file_whole_blocks (env : Env) (filenum K : Nat) (st : State)
    (hb : (fill_file env BLOCK_ITEMS st.g.gopt_file_size filenum st).brk = false)
    (hd : (fill_file env BLOCK_ITEMS st.g.gopt_file_size filenum st).done = 1)
    (hK : (fill_file env BLOCK_ITEMS st.g.gopt_file_size filenum st).blocknum = K)
    (hwp : (fill_file env BLOCK_ITEMS st.g.gopt_file_size filenum st).wp = 0) :
    K < st.g.gopt_file_size ∧
    (fill_file env BLOCK_ITEMS st.g.gopt_file_size filenum st).st.w.store
        (fill_file env BLOCK_ITEMS st.g.gopt_file_size filenum st).fd =
      stream_bytes (file_seed st.g filenum) (K * BLOCK_ITEMS) ∧
    ((fill_file env BLOCK_ITEMS st.g.gopt_file_size filenum st).st.w.store
        (fill_file env BLOCK_ITEMS st.g.gopt_file_size filenum st).fd).length = K * 1048576 ∧
    (K = 0 → (fill_file env BLOCK_ITEMS st.g.gopt_file_size filenum st).st.w.dir filenum = none) ∧
    (K ≠ 0 → st.g.gopt_unlink_immediate = 0 →
      (fill_file env BLOCK_ITEMS st.g.gopt_file_size filenum st).st.w.dir filenum =
        some (fill_file env BLOCK_ITEMS st.g.gopt_file_size filenum st).fd) := by
  rw [fill_file] at hb hd hK hwp ⊢
  split at hb
  · cases hb
  · rename_i fd w1 heq
    rw [heq] at hd hK hwp
    dsimp only at hd hK hwp ⊢
    have hc := sys_creat_some env st.w filenum fd w1 heq
    have hdat := write_blocks_data env filenum BLOCK_ITEMS st.g.gopt_file_size 0
      ((st.g.g_seed + (filenum + 1) % 2 ^ 32) % 2 ^ 32) 0 st.nw [] (by rw [hd]; decide) hwp
    generalize write_blocks env filenum BLOCK_ITEMS st.g.gopt_file_size 0
      ((st.g.g_seed + (filenum + 1) % 2 ^ 32) % 2 ^ 32) 0 st.nw [] = r at hd hK hwp hdat ⊢
    rw [hK, Nat.sub_zero, Nat.zero_add, Nat.zero_add, List.nil_append] at hdat
    have hstore : (if r.wtotal = 0 then
        sys_unlink (if st.g.gopt_unlink_immediate ≠ 0 then
          ({ (if st.g.gopt_unlink_immediate ≠ 0 then sys_unlink w1 filenum else (true, w1)).2 with
            store := fun h => if h = fd then r.data else
              (if st.g.gopt_unlink_immediate ≠ 0 then sys_unlink w1 filenum
                else (true, w1)).2.store h } : World)
          else sys_close { (if st.g.gopt_unlink_immediate ≠ 0 then sys_unlink w1 filenum
            else (true, w1)).2 with
            store := fun h => if h = fd then r.data else
              (if st.g.gopt_unlink_immediate ≠ 0 then sys_unlink w1 filenum
                else (true, w1)).2.store h } fd) filenum
        else (true, if st.g.gopt_unlink_immediate ≠ 0 then
          ({ (if st.g.gopt_unlink_immediate ≠ 0 then sys_unlink w1 filenum else (true, w1)).2 with
            store := fun h => if h = fd then r.data else
              (if st.g.gopt_unlink_immediate ≠ 0 then sys_unlink w1 filenum
                else (true, w1)).2.store h } : World)
          else sys_close { (if st.g.gopt_unlink_immediate ≠ 0 then sys_unlink w1 filenum
            else (true, w1)).2 with
            store := fun h => if h = fd then r.data else
              (if st.g.gopt_unlink_immediate ≠ 0 then sys_unlink w1 filenum
                else (true, w1)).2.store h } fd)).2.store fd = r.data := by
      split_ifs <;> simp [sys_unlink_store, sys_close]
    refine ⟨hdat.2.1, ?_, ?_, fun hK0 => ?_, fun hK0 himm => ?_⟩
    · rw [hstore, hdat.2.2.1]
      rfl
    · rw [hstore, hdat.2.2.1, stream_bytes, block_bytes_length, fill_block_length]
      rw [BLOCK_ITEMS]
      omega
    · have hw0 : r.wtotal = 0 := by rw [hdat.2.2.2, hK0, Nat.zero_mul]
      rw [if_pos hw0]
      exact sys_unlink_dir_self _ _
    · have hw0 : r.wtotal ≠ 0 := by
        rw [hdat.2.2.2, BLOCK_ITEMS]
        intro h0
        rcases Nat.mul_eq_zero.1 h0 with h1 | h1
        · exact hK0 h1
        · omega
      rw [if_neg hw0, if_neg (not_not.2 himm)]
      dsimp only
      rw [if_neg (not_not.2 himm)]
      exact hc.2.2.1

/-! ## Decoding what was written -/

theorem item_of_item_bytes (v : Nat) (h : v < 2 ^ 64) :
    item_of_bytes (v % 256) (v / 256 % 256) (v / 65536 % 256) (v / 16777216 % 256)
      (v / 4294967296 % 256) (v / 1099511627776 % 256) (v / 281474976710656 % 256)
      (v / 72057594037927936 % 256) = v := by
  rw [item_of_bytes]
  norm_num at h
  omega

theorem decode_items_block_bytes (xs : List Nat) (h : ∀ x ∈ xs, x < 2 ^ 64) :
    decode_items (block_bytes xs) = xs := by
  induction xs with
  | nil => rfl
  | cons x xs ih =>
    rw [block_bytes, item_bytes]
    simp only [List.cons_append, List.nil_append, decode_items]
    rw [item_of_item_bytes x (h x (List.mem_cons_self _ _))]
    exact congrArg _ (ih fun y hy => h y (List.mem_cons_of_mem _ hy))

theorem take_block_bytes (xs : List Nat) (k : Nat) (hk : k ≤ xs.length) :
    (block_bytes xs).take (k * 8) = block_bytes (xs.take k) := by
  conv_lhs => rw [← List.take_append_drop k xs, block_bytes_append]
  exact List.take_left' (by rw [block_bytes_length, List.length_take, Nat.min_eq_left hk])

theorem drop_block_bytes (xs : List Nat) (k : Nat) (hk : k ≤ xs.length) :
    (block_bytes xs).drop (k * 8) = block_bytes (xs.drop k) := by
  conv_lhs => rw [← List.take_append_drop k xs, block_bytes_append]
  exact List.drop_left' (by rw [block_bytes_length, List.length_take, Nat.min_eq_left hk])

theorem fill_block_lt (n rnd : Nat) : ∀ x ∈ (fill_block n rnd).1, x < 2 ^ 64 := by
  induction n generalizing rnd with
  | zero => intro x hx; cases hx
  | succ n ih =>
    rw [fill_block_succ]
    intro x hx
    rcases List.mem_cons.1 hx with rfl | hx
    · exact lcg_step_lt rnd
    · exact ih _ x hx

/-! ## Mismatch reports -/

theorem mismatches_nil (name nitems idx rnd : Nat) : mismatches name nitems [] idx rnd = [] := rfl

theorem mismatches_cons (name nitems x : Nat) (xs : List Nat) (idx rnd : Nat) :
    mismatches name nitems (x :: xs) idx rnd =
      (if x ≠ lcg_step rnd then [Ev.fault name (idx / nitems) (idx % nitems * 8)] else [])
        ++ mismatches name nitems xs (idx + 1) (lcg_step rnd) := rfl

theorem mismatches_append (name nitems : Nat) (a b : List Nat) (idx rnd : Nat) :
    mismatches name nitems (a ++ b) idx rnd =
      mismatches name nitems a idx rnd ++
        mismatches name nitems b (idx + a.length) (fill_block a.length rnd).2 := by
  induction a generalizing idx rnd with
  | nil => rfl
  | cons x xs ih =>
    rw [List.cons_append, mismatches_cons, mismatches_cons, ih, List.length_cons,
      fill_block_succ, List.append_assoc]
    rw [show idx + 1 + xs.length = idx + (xs.length + 1) by omega]

theorem block_index (blocknum nitems i : Nat) (h : i < nitems) :
    (blocknum * nitems + i) / nitems = blocknum ∧ (blocknum * nitems + i) % nitems = i := by
  have hpos : 0 < nitems := by omega
  constructor
  · rw [Nat.add_comm, Nat.mul_comm, Nat.add_mul_div_left _ _ hpos, Nat.div_eq_of_lt h,
      Nat.zero_add]
  · rw [Nat.add_comm, Nat.mul_comm, Nat.add_mul_mod_self_left, Nat.mod_eq_of_lt h]

theorem check_block_evs (name blocknum nitems : Nat) (xs : List Nat) (i rnd : Nat)
    (g : Globals) (h : i + xs.length ≤ nitems) :
    (check_block name blocknum xs i rnd g).evs =
      mismatches name nitems xs (blocknum * nitems + i) rnd ∧
    (check_block name blocknum xs i rnd g).rnd = (fill_block xs.length rnd).2 := by
  induction xs generalizing i rnd g with
  | nil => exact ⟨rfl, rfl⟩
  | cons x xs ih =>
    rw [List.length_cons] at h
    rw [check_block, mismatches_cons, List.length_cons, fill_block_succ, lcg_random_eq]
    dsimp only
    have hb := block_index blocknum nitems i (by omega)
    split
    · rename_i hx
      have hi := ih (i + 1) (lcg_step rnd)
        { g with errors_found := (g.errors_found + 1) % 2 ^ 32, gopt_unlink_after := 0 }
        (by omega)
      rw [← Nat.add_assoc] at hi
      rw [hb.1, hb.2]
      dsimp only
      rw [hi.1, hi.2]
      exact ⟨rfl, rfl⟩
    · rename_i hx
      have hi := ih (i + 1) (lcg_step rnd) g (by omega)
      rw [← Nat.add_assoc] at hi
      rw [hi.1, hi.2]
      exact ⟨rfl, rfl⟩

theorem check_block_errors (name blocknum : Nat) (xs : List Nat) (i rnd : Nat)
    (g : Globals) (h : g.errors_found < 2 ^ 32) :
    (check_block name blocknum xs i rnd g).g.errors_found =
      (g.errors_found + (check_block name blocknum xs i rnd g).evs.length) % 2 ^ 32 ∧
    (check_block name blocknum xs i rnd g).g.errors_found < 2 ^ 32 := by
  induction xs generalizing i rnd g with
  | nil =>
    rw [check_block]
    exact ⟨(Nat.mod_eq_of_lt h).symm, h⟩
  | cons x xs ih =>
    rw [check_block]
    dsimp only
    split
    · have hi := ih (i + 1) (lcg_random rnd).2
        { g with errors_found := (g.errors_found + 1) % 2 ^ 32, gopt_unlink_after := 0 }
        (Nat.mod_lt _ (by norm_num))
      refine ⟨?_, hi.2⟩
      rw [hi.1, List.length_cons]
      dsimp only
      omega
    · exact ih _ _ _ h

theorem sys_read_full (env : Env) (k size avail : Nat) (h0 : 0 < size)
    (hrd : (size : Int) ≤ env.rd k) (ha : size ≤ avail) :
    sys_read env k size avail = (size : Int) := by
  rw [sys_read]
  split_ifs <;> omega

theorem read_blocks_full (env : Env) (name nitems : Nat) (hn : 1 ≤ nitems)
    (hrd : ∀ k, ((nitems * 8 : Nat) : Int) ≤ env.rd k) (n blocknum : Nat) (items : List Nat)
    (rnd rtotal nr : Nat) (g : Globals) (hlen : items.length = n * nitems)
    (hlt : ∀ x ∈ items, x < 2 ^ 64) :
    (read_blocks env name (nitems * 8) n blocknum (block_bytes items) rnd rtotal nr g).done = 0 ∧
    (read_blocks env name (nitems * 8) n blocknum (block_bytes items) rnd rtotal nr g).rtotal =
      rtotal + n * (nitems * 8) ∧
    (read_blocks env name (nitems * 8) n blocknum (block_bytes items) rnd rtotal nr g).evs.filter
      is_fault = mismatches name nitems items (blocknum * nitems) rnd := by
  induction n generalizing blocknum items rnd rtotal nr g with
  | zero =>
    rw [Nat.zero_mul] at hlen
    rw [List.length_eq_zero.1 hlen, read_blocks]
    exact ⟨rfl, by rw [Nat.zero_mul]; rfl, rfl⟩
  | succ n ih =>
    have hk : nitems ≤ items.length := by
      rw [hlen, Nat.add_mul]
      omega
    rw [read_blocks]
    dsimp only
    rw [sys_read_full env nr (nitems * 8) _ (by omega) (hrd nr)
      (by rw [block_bytes_length]; omega)]
    rw [if_neg (by omega), Int.toNat_ofNat, take_block_bytes items nitems hk,
      drop_block_bytes items nitems hk,
      decode_items_block_bytes _ (fun x hx => hlt x (List.mem_of_mem_take hx))]
    have hc := check_block_evs name blocknum nitems (items.take nitems) 0 rnd g
      (by rw [List.length_take]; omega)
    have hcf := check_block_faults name blocknum (items.take nitems) 0 rnd g
    generalize check_block name blocknum (items.take nitems) 0 rnd g = c at hc hcf ⊢
    have hi := ih (blocknum + 1) (items.drop nitems) c.rnd (rtotal + nitems * 8) (nr + 1) c.g
      (by rw [List.length_drop, hlen, Nat.add_mul]; omega)
      (fun x hx => hlt x (List.mem_of_mem_drop hx))
    generalize read_blocks env name (nitems * 8) n (blocknum + 1)
      (block_bytes (items.drop nitems)) c.rnd (rtotal + nitems * 8) (nr + 1) c.g = s at hi ⊢
    refine ⟨hi.1, ?_, ?_⟩
    · dsimp only
      rw [hi.2.1, Nat.add_mul]
      omega
    · dsimp only
      rw [List.filter_cons_of_neg (by simp [is_fault]), List.filter_append,
        List.filter_eq_self.2 hcf, hi.2.2, hc.1, hc.2]
      conv_rhs => rw [← List.take_append_drop nitems items, mismatches_append]
      rw [List.length_take, Nat.min_eq_left hk, Nat.add_zero, Nat.add_mul, Nat.one_mul]

/-! ## The fault counter counts the reports -/

theorem add_mod_faults (e a b : Nat) :
    ((e + a) % 2 ^ 32 + b) % 2 ^ 32 = (e + (a + b)) % 2 ^ 32 := by
  omega

theorem read_blocks_errors (env : Env) (name size : Nat) (n blocknum : Nat) (rest : List Nat)
    (rnd rtotal nr : Nat) (g : Globals) (h : g.errors_found < 2 ^ 32) :
    (read_blocks env name size n blocknum rest rnd rtotal nr g).g.errors_found =
      (g.errors_found +
        ((read_blocks env name size n blocknum rest rnd rtotal nr g).evs.filter is_fault).length)
        % 2 ^ 32 ∧
    (read_blocks env name size n blocknum rest rnd rtotal nr g).g.errors_found < 2 ^ 32 := by
  induction n generalizing blocknum rest rnd rtotal nr g with
  | zero =>
    rw [read_blocks]
    exact ⟨(Nat.mod_eq_of_lt h).symm, h⟩
  | succ n ih =>
    rw [read_blocks]
    dsimp only
    split
    · exact ⟨(Nat.mod_eq_of_lt h).symm, h⟩
    · have hc := check_block_errors name blocknum
        (decode_items (rest.take (sys_read env nr size rest.length).toNat)) 0 rnd g h
      have hcf := check_block_faults name blocknum
        (decode_items (rest.take (sys_read env nr size rest.length).toNat)) 0 rnd g
      generalize check_block name blocknum
        (decode_items (rest.take (sys_read env nr size rest.length).toNat)) 0 rnd g = c
        at hc hcf ⊢
      have hi := ih (blocknum + 1) (rest.drop (sys_read env nr size rest.length).toNat) c.rnd
        (rtotal + (sys_read env nr size rest.length).toNat) (nr + 1) c.g hc.2
      refine ⟨?_, hi.2⟩
      dsimp only
      rw [hi.1, hc.1, List.filter_cons_of_neg (by simp [is_fault]), List.filter_append,
        List.filter_eq_self.2 hcf, List.length_append, add_mod_faults]

theorem verify_file_errors (env : Env) (name size nblocks filenum1 rnd fd : Nat) (w1 : World)
    (e0 : List Ev) (st : State) (h0 : e0.filter is_fault = [])
    (h : st.g.errors_found < 2 ^ 32) :
    (verify_file env name size nblocks filenum1 rnd fd w1 e0 st).st.g.errors_found =
      (st.g.errors_found +
        ((verify_file env name size nblocks filenum1 rnd fd w1 e0 st).evs.filter is_fault).length)
        % 2 ^ 32 ∧
    (verify_file env name size nblocks filenum1 rnd fd w1 e0 st).st.g.errors_found < 2 ^ 32 := by
  rw [verify_file]
  dsimp only
  have hb := read_blocks_errors env name size nblocks 0 (w1.store fd) rnd 0 st.nr st.g h
  generalize read_blocks env name size nblocks 0 (w1.store fd) rnd 0 st.nr st.g = r at hb ⊢
  refine ⟨?_, hb.2⟩
  rw [hb.1, List.filter_append, h0, List.nil_append,
    List.filter_cons_of_neg (by simp [is_fault]), List.filter_append]
  simp [List.filter, is_fault]

theorem read_file_large_errors (env : Env) (filenum : Nat) (st : State)
    (h : st.g.errors_found < 2 ^ 32) :
    (read_file_large env filenum st).st.g.errors_found =
      (st.g.errors_found + ((read_file_large env filenum st).evs.filter is_fault).length)
        % 2 ^ 32 ∧
    (read_file_large env filenum st).st.g.errors_found < 2 ^ 32 := by
  rw [read_file_large]
  dsimp only
  split
  · split
    · exact ⟨(Nat.mod_eq_of_lt h).symm, h⟩
    · split
      · exact verify_file_errors _ _ _ _ _ _ _ _ _ _ rfl h
      · exact ⟨(Nat.mod_eq_of_lt h).symm, h⟩
  · split
    · exact ⟨(Nat.mod_eq_of_lt h).symm, h⟩
    · exact verify_file_errors _ _ _ _ _ _ _ _ _ _ rfl h

theorem read_file_small_errors (env : Env) (filenum : Nat) (st : State)
    (h : st.g.errors_found < 2 ^ 32) :
    (read_file_small env filenum st).st.g.errors_found =
      (st.g.errors_found + ((read_file_small env filenum st).evs.filter is_fault).length)
        % 2 ^ 32 ∧
    (read_file_small env filenum st).st.g.errors_found < 2 ^ 32 := by
  rw [read_file_small]
  dsimp only
  split
  · split
    · exact ⟨(Nat.mod_eq_of_lt h).symm, h⟩
    · split
      · exact verify_file_errors _ _ _ _ _ _ _ _ _ _ rfl h
      · exact ⟨(Nat.mod_eq_of_lt h).symm, h⟩
  · split
    · exact ⟨(Nat.mod_eq_of_lt h).symm, h⟩
    · exact verify_file_errors _ _ _ _ _ _ _ _ _ _ rfl h

theorem read_large_errors (env : Env) (fuel filenum done : Nat) (st : State)
    (h : st.g.errors_found < 2 ^ 32) :
    (read_large env fuel filenum done st).st.g.errors_found =
      (st.g.errors_found + ((read_large env fuel filenum done st).evs.filter is_fault).length)
        % 2 ^ 32 ∧
    (read_large env fuel filenum done st).st.g.errors_found < 2 ^ 32 := by
  induction fuel generalizing filenum done st with
  | zero => exact ⟨(Nat.mod_eq_of_lt h).symm, h⟩
  | succ fuel ih =>
    rw [read_large]
    split
    · dsimp only
      have hf := read_file_large_errors env filenum st h
      generalize read_file_large env filenum st = r at hf ⊢
      split
      · exact hf
      · have hi := ih r.filenum r.done
          { r.st with g := { r.st.g with gbyteread := r.st.g.gbyteread + r.rtotal } } hf.2
        dsimp only at hi ⊢
        refine ⟨?_, hi.2⟩
        rw [hi.1, List.filter_append, List.length_append]
        generalize (List.filter is_fault (read_large env fuel _ _ _).evs).length = x
        rw [hf.1, add_mod_faults]
    · exact ⟨(Nat.mod_eq_of_lt h).symm, h⟩

theorem read_small_errors (env : Env) (fuel filenum done : Nat) (st : State)
    (h : st.g.errors_found < 2 ^ 32) :
    (read_small env fuel filenum done st).st.g.errors_found =
      (st.g.errors_found + ((read_small env fuel filenum done st).evs.filter is_fault).length)
        % 2 ^ 32 ∧
    (read_small env fuel filenum done st).st.g.errors_found < 2 ^ 32 := by
  induction fuel generalizing filenum done st with
  | zero => exact ⟨(Nat.mod_eq_of_lt h).symm, h⟩
  | succ fuel ih =>
    rw [read_small]
    split
    · dsimp only
      have hf := read_file_small_errors env filenum st h
      generalize read_file_small env filenum st = r at hf ⊢
      split
      · exact hf
      · have hi := ih r.filenum r.done
          { r.st with g := { r.st.g with gbyteread := r.st.g.gbyteread + r.rtotal } } hf.2
        dsimp only at hi ⊢
        refine ⟨?_, hi.2⟩
        rw [hi.1, List.filter_append, List.length_append]
        generalize (List.filter is_fault (read_small env fuel _ _ _).evs).length = x
        rw [hf.1, add_mod_faults]
    · exact ⟨(Nat.mod_eq_of_lt h).symm, h⟩

theorem read_randfiles_errors (env : Env) (fuel : Nat) (st : State)
    (h : st.g.errors_found < 2 ^ 32) :
    (read_randfiles env fuel st).st.g.errors_found =
      (st.g.errors_found +
        (((read_randfiles env fuel st).large ++ (read_randfiles env fuel st).small).filter
          is_fault).length) % 2 ^ 32 := by
  have h1 := read_large_errors env fuel 0 0 st h
  have h2 := read_small_errors env fuel (read_large env fuel 0 0 st).filenum 0
    { (read_large env fuel 0 0 st).st with
      g := { (read_large env fuel 0 0 st).st.g with
        gbytereadn := (read_large env fuel 0 0 st).st.g.gbyteread } } h1.2
  show (read_small env fuel _ 0 _).st.g.errors_found =
    (st.g.errors_found + (((read_large env fuel 0 0 st).evs ++
      (read_small env fuel _ 0 _).evs).filter is_fault).length) % 2 ^ 32
  rw [h2.1, List.filter_append, List.length_append]
  generalize (List.filter is_fault (read_small env fuel _ _ _).evs).length = x
  show ((read_large env fuel 0 0 st).st.g.errors_found + x) % 2 ^ 32 = _
  rw [h1.1, add_mod_faults]

/-! ## Verifying files that are complete -/

theorem files_read_append (a b : List Ev) : files_read (a ++ b) = files_read a ++ files_read b := by
  induction a with
  | nil => rfl
  | cons e es ih =>
    cases e <;> simp [files_read, ih]

theorem files_read_of_reads (a : List Ev) (h : ∀ e ∈ a, is_read_or_fault e = true) :
    files_read a = [] := by
  induction a with
  | nil => rfl
  | cons e es ih =>
    have he := h e (List.mem_cons_self _ _)
    have hes := ih fun x hx => h x (List.mem_cons_of_mem _ hx)
    cases e <;> first | exact hes | (simp [is_read_or_fault] at he)

theorem verify_file_full (env : Env) (name nitems : Nat) (hn : 1 ≤ nitems)
    (hrd : ∀ k, ((nitems * 8 : Nat) : Int) ≤ env.rd k) (nblocks filenum1 rnd fd : Nat)
    (w1 : World) (e0 : List Ev) (st : State) (items : List Nat)
    (hstore : w1.store fd = block_bytes items) (hlen : items.length = nblocks * nitems)
    (hlt : ∀ x ∈ items, x < 2 ^ 64) (h0 : e0.filter is_fault = []) (h1 : files_read e0 = []) :
    (verify_file env name (nitems * 8) nblocks filenum1 rnd fd w1 e0 st).done = 0 ∧
    (verify_file env name (nitems * 8) nblocks filenum1 rnd fd w1 e0 st).brk = false ∧
    (verify_file env name (nitems * 8) nblocks filenum1 rnd fd w1 e0 st).filenum = filenum1 ∧
    (verify_file env name (nitems * 8) nblocks filenum1 rnd fd w1 e0 st).evs.filter is_fault =
      mismatches name nitems items 0 rnd ∧
    files_read (verify_file env name (nitems * 8) nblocks filenum1 rnd fd w1 e0 st).evs =
      [(name, nblocks * (nitems * 8))] ∧
    (verify_file env name (nitems * 8) nblocks filenum1 rnd fd w1 e0 st).st.w.dir = w1.dir ∧
    (verify_file env name (nitems * 8) nblocks filenum1 rnd fd w1 e0 st).st.w.store
      = w1.store := by
  rw [verify_file, hstore]
  dsimp only
  have hb := read_blocks_full env name nitems hn hrd nblocks 0 items rnd 0 st.nr st.g hlen hlt
  have hr := read_blocks_reads env name (nitems * 8) nblocks 0 (block_bytes items) rnd 0
    st.nr st.g
  generalize read_blocks env name (nitems * 8) nblocks 0 (block_bytes items) rnd 0
    st.nr st.g = r at hb hr ⊢
  refine ⟨hb.1, rfl, rfl, ?_, ?_, rfl, rfl⟩
  · rw [List.filter_append, h0, List.nil_append,
      List.filter_cons_of_neg (by simp [is_fault]), List.filter_append, hb.2.2, Nat.zero_mul]
    simp [List.filter, is_fault]
  · rw [files_read_append, h1, List.nil_append]
    simp only [files_read, files_read_append, files_read_of_reads _ hr, List.nil_append]
    rw [hb.2.1, Nat.zero_add]

theorem write_retry_at_size (env : Env) (name : Nat) (block : List Nat) (size : Nat)
    (fuel done nw : Nat) (data : List Nat) :
    write_retry env name block size fuel size done nw data = ⟨size, done, nw, data, []⟩ := by
  cases fuel with
  | zero => rfl
  | succ fuel =>
    exact write_retry_stop env name block size fuel size done nw data (fun h => h.1 rfl)

theorem sys_write_full (env : Env) (k size : Nat) (h0 : 0 < size)
    (hw : (size : Int) ≤ env.wr k) : sys_write env k size = (size : Int) := by
  rw [sys_write]
  split_ifs <;> omega

theorem write_retry_once (env : Env) (name : Nat) (block : List Nat) (size : Nat)
    (fuel nw : Nat) (data : List Nat) (hsz : 1 ≤ size) (hw : (size : Int) ≤ env.wr nw)
    (hlen : block.length = size) :
    write_retry env name block size (fuel + 1) 0 0 nw data =
      ⟨size, 0, nw + 1, data ++ block, [Ev.write name size (size : Int)]⟩ := by
  have hsw : sys_write env nw (size - 0) = (size : Int) := by
    rw [Nat.sub_zero]
    exact sys_write_full env nw size (by omega) hw
  rw [write_retry_step env name block size fuel 0 0 nw data ⟨by omega, rfl⟩
    (by rw [hsw]; omega), hsw, Int.toNat_ofNat, Nat.zero_add, write_retry_at_size,
    List.drop_zero, List.take_of_length_le (by omega), Nat.sub_zero]

theorem write_retry_ok (env : Env) (name : Nat) (block : List Nat) (size : Nat)
    (nw : Nat) (data : List Nat) (hsz : 1 ≤ size) (hw : (size : Int) ≤ env.wr nw)
    (hlen : block.length = size) :
    write_retry env name block size size 0 0 nw data =
      ⟨size, 0, nw + 1, data ++ block, [Ev.write name size (size : Int)]⟩ := by
  have h := write_retry_once env name block size (size - 1) nw data hsz hw hlen
  rw [show size - 1 + 1 = size by omega] at h
  exact h

theorem write_blocks_ok (env : Env) (name nitems : Nat) (hn : 1 ≤ nitems)
    (hw : ∀ k, ((nitems * 8 : Nat) : Int) ≤ env.wr k) (n blocknum rnd wtotal nw : Nat)
    (data : List Nat) :
    (write_blocks env name nitems n blocknum rnd wtotal nw data).done = 0 ∧
    (write_blocks env name nitems n blocknum rnd wtotal nw data).data =
      data ++ stream_bytes rnd (n * nitems) ∧
    (write_blocks env name nitems n blocknum rnd wtotal nw data).wtotal =
      wtotal + n * (nitems * 8) := by
  induction n generalizing blocknum rnd wtotal nw data with
  | zero =>
    rw [write_blocks]
    refine ⟨rfl, ?_, ?_⟩
    · simp [stream_bytes, fill_block_zero, block_bytes]
    · simp
  | succ n ih =>
    rw [write_blocks]
    dsimp only
    rw [write_retry_ok env name _ (nitems * 8) nw data (by omega) (hw nw)
      (by rw [block_bytes_length, fill_block_length])]
    dsimp only
    rw [if_neg (by simp)]
    have hi := ih (blocknum + 1) (fill_block nitems rnd).2 (wtotal + nitems * 8) (nw + 1)
      (data ++ block_bytes (fill_block nitems rnd).1)
    generalize write_blocks env name nitems n (blocknum + 1) (fill_block nitems rnd).2
      (wtotal + nitems * 8) (nw + 1) (data ++ block_bytes (fill_block nitems rnd).1) = s
      at hi ⊢
    refine ⟨hi.1, ?_, ?_⟩
    · dsimp only
      rw [hi.2.1, List.append_assoc]
      congr 1
      rw [show (n + 1) * nitems = nitems + n * nitems by rw [Nat.add_mul, Nat.one_mul, Nat.add_comm]]
      rw [stream_bytes, stream_bytes, fill_block_add, block_bytes_append]
    · dsimp only
      rw [hi.2.2, Nat.add_mul]
      omega

theorem fill_file_ok (env : Env) (nitems nblocks : Nat) (hn : 1 ≤ nitems) (hb : 1 ≤ nblocks)
    (hw : ∀ k, ((nitems * 8 : Nat) : Int) ≤ env.wr k) (filenum : Nat)
    (hc : env.creat filenum = true) (st : State) :
    (fill_file env nitems nblocks filenum st).brk = false ∧
    (fill_file env nitems nblocks filenum st).done = 0 ∧
    (fill_file env nitems nblocks filenum st).filenum = (filenum + 1) % 2 ^ 32 ∧
    (fill_file env nitems nblocks filenum st).st.w.next = st.w.next + 1 ∧
    (fill_file env nitems nblocks filenum st).st.w.store st.w.next =
      stream_bytes ((st.g.g_seed + filenum + 1) % 2 ^ 32) (nblocks * nitems) ∧
    (∀ k, k ≠ st.w.next →
      (fill_file env nitems nblocks filenum st).st.w.store k = st.w.store k) ∧
    (∀ m, m ≠ filenum → (fill_file env nitems nblocks filenum st).st.w.dir m = st.w.dir m) ∧
    (st.g.gopt_unlink_immediate = 0 →
      (fill_file env nitems nblocks filenum st).st.w.dir filenum = some st.w.next) ∧
    (st.g.gopt_unlink_immediate ≠ 0 →
      (fill_file env nitems nblocks filenum st).st.g.g_filehandle =
        st.g.g_filehandle ++ [st.w.next] ∧
      (fill_file env nitems nblocks filenum st).st.w.isopen st.w.next = true ∧
      ∀ k, k ≠ st.w.next →
        (fill_file env nitems nblocks filenum st).st.w.isopen k = st.w.isopen k) := by
  rw [fill_file]
  simp only [sys_creat, hc, if_true]
  rw [seed_mod]
  have hwb := write_blocks_ok env filenum nitems hn hw nblocks 0
    ((st.g.g_seed + filenum + 1) % 2 ^ 32) 0 st.nw []
  generalize write_blocks env filenum nitems nblocks 0
    ((st.g.g_seed + filenum + 1) % 2 ^ 32) 0 st.nw [] = r at hwb ⊢
  have hwt : r.wtotal ≠ 0 := by
    rw [hwb.2.2, Nat.zero_add]
    exact Nat.mul_ne_zero (by omega) (by omega)
  simp only [if_neg hwt]
  rw [List.nil_append] at hwb
  refine ⟨trivial, hwb.1, trivial, ?_, ?_, fun k hk => ?_, fun m hm => ?_, fun himm => ?_,
    fun himm => ⟨?_, ?_, fun k hk => ?_⟩⟩
  · split_ifs <;> simp [sys_unlink_next, sys_close]
  · split_ifs <;> simp [sys_unlink_store, sys_close, hwb.2.1]
  · split_ifs <;> simp [sys_unlink_store, sys_close, hk]
  · split_ifs <;> simp [sys_unlink_dir_other _ _ _ hm, sys_close, hm]
  · simp [himm, sys_close]
  · simp [himm, filehandle_append]
  · simp [himm, sys_unlink_isopen]
  · simp [himm, sys_unlink_isopen, hk]

theorem fill_small_off_all (env : Env) (fuel filenum : Nat) (st : State)
    (h : st.g.fulfill ≠ 1) :
    (fill_small env fuel filenum 0 st).st = st ∧
    (fill_small env fuel filenum 0 st).finished = true := by
  have hc : ¬(0 = 0 ∧ st.g.fulfill = 1) := fun hc => h hc.2
  cases fuel with
  | zero =>
    rw [fill_small]
    refine ⟨rfl, ?_⟩
    show (!decide (0 = 0 ∧ st.g.fulfill = 1)) = true
    rw [decide_eq_false hc]
    rfl
  | succ fuel =>
    rw [fill_small, if_neg hc]
    exact ⟨rfl, rfl⟩

theorem read_small_off_all (env : Env) (fuel filenum : Nat) (st : State)
    (h : ¬(st.g.gopt_file_limit = UINT_MAX ∧ st.g.fulfill = 1)) :
    (read_small env fuel filenum 0 st).st = st ∧
    (read_small env fuel filenum 0 st).finished = true ∧
    (read_small env fuel filenum 0 st).evs = [] := by
  have hc : ¬(0 = 0 ∧ st.g.gopt_file_limit = UINT_MAX ∧ st.g.fulfill = 1) := fun hc => h hc.2
  cases fuel with
  | zero =>
    rw [read_small]
    refine ⟨rfl, ?_, rfl⟩
    show (!decide (0 = 0 ∧ st.g.gopt_file_limit = UINT_MAX ∧ st.g.fulfill = 1)) = true
    rw [decide_eq_false hc]
    rfl
  | succ fuel =>
    rw [read_small, if_neg hc]
    exact ⟨rfl, rfl, rfl⟩

theorem lcg_step_injective (x y : Nat) (hx : x < 2 ^ 64) (hy : y < 2 ^ 64)
    (h : lcg_step x = lcg_step y) : x = y := by
  rw [lcg_step_def, lcg_step_def] at h
  have h1 : Nat.ModEq (2 ^ 64) (0x27BB2EE687B0B0FD * x + 0xB504F32D)
      (0x27BB2EE687B0B0FD * y + 0xB504F32D) := h
  have h2 := Nat.ModEq.add_right_cancel' _ h1
  have h3 : Nat.ModEq (2 ^ 64) x y :=
    Nat.ModEq.cancel_left_of_coprime (by norm_num) h2
  have h4 : x % 2 ^ 64 = y % 2 ^ 64 := h3
  rw [Nat.mod_eq_of_lt hx, Nat.mod_eq_of_lt hy] at h4
  exact h4

theorem mismatches_all (name nitems n idx r1 r2 : Nat) (h1 : r1 < 2 ^ 64) (h2 : r2 < 2 ^ 64)
    (hne : r1 ≠ r2) : (mismatches name nitems (fill_block n r2).1 idx r1).length = n := by
  induction n generalizing idx r1 r2 with
  | zero => rfl
  | succ n ih =>
    rw [fill_block_succ]
    dsimp only
    have hs : lcg_step r2 ≠ lcg_step r1 := fun h => hne (lcg_step_injective r1 r2 h1 h2 h.symm)
    rw [mismatches_cons, if_pos hs, List.length_append,
      ih (idx + 1) (lcg_step r1) (lcg_step r2) (lcg_step_lt r1) (lcg_step_lt r2)
        (fun h => hs h.symm)]
    simp only [List.length_singleton]
    omega

theorem stream_mismatch_count (name G n k : Nat) :
    (mismatches name BLOCK_ITEMS (fill_block k ((G + (n + 1) + 1) % 2 ^ 32)).1 0
      ((G + n + 1) % 2 ^ 32)).length = k := by
  apply mismatches_all
  · have := Nat.mod_lt (G + n + 1) (show 0 < 2 ^ 32 by norm_num)
    omega
  · have := Nat.mod_lt (G + (n + 1) + 1) (show 0 < 2 ^ 32 by norm_num)
    omega
  · omega

theorem fill_large_immediate (env : Env) (hcreat : ∀ n, env.creat n = true)
    (hw : ∀ k, (1048576 : Int) ≤ env.wr k) (G S F : Nat) (hS : 1 ≤ S) (hF : F ≤ UINT_MAX)
    (count filenum fuel : Nat) (hcount : filenum + count = F) (hfuel : count ≤ fuel)
    (st : State) (himm : st.g.gopt_unlink_immediate ≠ 0) (hSz : st.g.gopt_file_size = S)
    (hG : st.g.g_seed = G) (hlim : st.g.gopt_file_limit = F) :
    (fill_large env fuel filenum 0 st).finished = true ∧
    (fill_large env fuel filenum 0 st).st.g.g_filehandle =
      st.g.g_filehandle ++ List.range' st.w.next count ∧
    (∀ j, j < count →
      (fill_large env fuel filenum 0 st).st.w.store (st.w.next + j) =
        stream_bytes ((G + (filenum + j) + 1) % 2 ^ 32) (S * BLOCK_ITEMS) ∧
      (fill_large env fuel filenum 0 st).st.w.isopen (st.w.next + j) = true) ∧
    (∀ k, k < st.w.next →
      (fill_large env fuel filenum 0 st).st.w.store k = st.w.store k ∧
      (fill_large env fuel filenum 0 st).st.w.isopen k = st.w.isopen k) := by
  induction count generalizing filenum fuel st with
  | zero =>
    have hfn : ¬(0 = 0 ∧ filenum < st.g.gopt_file_limit) := by
      rw [hlim]
      omega
    cases fuel with
    | zero =>
      rw [fill_large]
      refine ⟨?_, (List.append_nil _).symm, fun j hj => by omega, fun k _ => ⟨rfl, rfl⟩⟩
      show (!decide (0 = 0 ∧ filenum < st.g.gopt_file_limit)) = true
      rw [decide_eq_false hfn]
      rfl
    | succ fuel =>
      rw [fill_large, if_neg hfn]
      exact ⟨rfl, (List.append_nil _).symm, fun j hj => by omega, fun k _ => ⟨rfl, rfl⟩⟩
  | succ count ih =>
    obtain ⟨fuel, rfl⟩ : ∃ f, fuel = f + 1 := ⟨fuel - 1, by omega⟩
    have hf := fill_file_ok env BLOCK_ITEMS st.g.gopt_file_size (by decide) (by omega) hw filenum
      (hcreat filenum) st
    have hk := wkeep_config _ _ (fill_file_wkeep env BLOCK_ITEMS st.g.gopt_file_size filenum st).1
    rw [fill_large, if_pos ⟨rfl, by rw [hlim]; omega⟩]
    dsimp only
    generalize fill_file env BLOCK_ITEMS st.g.gopt_file_size filenum st = r at hf hk ⊢
    rw [if_neg (by rw [hf.1]; simp)]
    have hnext : r.filenum = filenum + 1 := by
      rw [hf.2.2.1]
      apply Nat.mod_eq_of_lt
      rw [UINT_MAX] at hF
      omega
    have himm1 : r.st.g.gopt_unlink_immediate ≠ 0 := by
      rw [config_immediate _ _ hk]
      exact himm
    have hi := ih (filenum + 1) fuel (by omega) (by omega)
      { r.st with g := { r.st.g with gbytewrite := r.st.g.gbytewrite + r.wtotal,
                                     gbytewriten := r.st.g.gbytewrite + r.wtotal } }
      himm1 ((config_size _ _ hk).trans hSz)
      ((config_seed _ _ hk).trans hG) ((config_limit _ _ hk).trans hlim)
    have hreg := hf.2.2.2.2.2.2.2.2 himm
    rw [hf.2.1, hnext]
    dsimp only at hi ⊢
    refine ⟨hi.1, ?_, fun j hj => ?_, fun k hk1 => ?_⟩
    · rw [hi.2.1, hreg.1, hf.2.2.2.1, List.append_assoc]
      rfl
    · by_cases hj0 : j = 0
      · subst hj0
        have h3 := hi.2.2.2 st.w.next (by rw [hf.2.2.2.1]; omega)
        simp only [Nat.add_zero]
        rw [h3.1, h3.2, hf.2.2.2.2.1, hG, hSz]
        exact ⟨rfl, hreg.2.1⟩
      · have h3 := hi.2.2.1 (j - 1) (by omega)
        rw [hf.2.2.2.1, show st.w.next + 1 + (j - 1) = st.w.next + j by omega,
          show filenum + 1 + (j - 1) = filenum + j by omega] at h3
        exact h3
    · have h3 := hi.2.2.2 k (by rw [hf.2.2.2.1]; omega)
      rw [h3.1, h3.2]
      exact ⟨hf.2.2.2.2.2.1 k (by omega), hreg.2.2 k (by omega)⟩

theorem fill_randfiles_immediate (env : Env) (G F S fuel : Nat) (st : State)
    (hF : F ≤ UINT_MAX) (hS : 1 ≤ S) (hG : st.g.g_seed = G)
    (hlim : st.g.gopt_file_limit = F) (hsz : st.g.gopt_file_size = S)
    (himm : st.g.gopt_unlink_immediate ≠ 0) (hful : st.g.fulfill = 0)
    (hcreat : ∀ n, env.creat n = true) (hwr : ∀ k, (1048576 : Int) ≤ env.wr k) :
    (fill_randfiles env fuel st).finished = true ∧
    (fill_randfiles env fuel st).st.g.g_filehandle =
      st.g.g_filehandle ++ List.range' st.w.next F ∧
    (∀ n, n < F →
      (fill_randfiles env fuel st).st.w.store (st.w.next + n) =
        stream_bytes ((G + n + 1) % 2 ^ 32) (S * BLOCK_ITEMS) ∧
      (fill_randfiles env fuel st).st.w.isopen (st.w.next + n) = true) ∧
    wkeep (fill_randfiles env fuel st).st.g = wkeep st.g := by
  have h1 := fill_large_immediate env hcreat hwr G S F hS hF F 0 F (Nat.zero_add F) (le_refl F)
    st himm hsz hG hlim
  have hk := fill_large_wkeep env F 0 0 st
  have h2 := fill_small_off_all env fuel (fill_large env F 0 0 st).filenum
    (fill_large env F 0 0 st).st
    (by rw [config_fulfill _ _ (wkeep_config _ _ hk), hful]; decide)
  have hst : (fill_randfiles env fuel st).st = (fill_large env F 0 0 st).st := by
    rw [fill_randfiles, hlim]
    exact h2.1
  have hfin : (fill_randfiles env fuel st).finished = true := by
    rw [fill_randfiles, hlim]
    dsimp only
    rw [h1.1, h2.2]
    rfl
  rw [hst]
  refine ⟨hfin, h1.2.1, fun n hn => ?_, hk⟩
  have := h1.2.2.1 n hn
  rw [Nat.zero_add] at this
  exact this

theorem read_file_large_handle (env : Env) (hrd : ∀ k, (1048576 : Int) ≤ env.rd k)
    (filenum : Nat) (st : State) (himm : st.g.gopt_unlink_immediate ≠ 0)
    (hwrap : filenum + 1 < 2 ^ 32) (hreg : filenum + 1 < st.g.g_filehandle.length)
    (items : List Nat)
    (hopen : st.w.isopen (st.g.g_filehandle.getD (filenum + 1) 0) = true)
    (hstore : st.w.store (st.g.g_filehandle.getD (filenum + 1) 0) = block_bytes items)
    (hlen : items.length = st.g.gopt_file_size * BLOCK_ITEMS) (hlt : ∀ x ∈ items, x < 2 ^ 64) :
    (read_file_large env filenum st).done = 0 ∧
    (read_file_large env filenum st).brk = false ∧
    (read_file_large env filenum st).filenum = filenum + 1 ∧
    (read_file_large env filenum st).evs.filter is_fault =
      mismatches filenum BLOCK_ITEMS items 0 ((st.g.g_seed + filenum + 1) % 2 ^ 32) ∧
    files_read (read_file_large env filenum st).evs =
      [(filenum, st.g.gopt_file_size * 1048576)] ∧
    (read_file_large env filenum st).st.w =
      sys_close st.w (st.g.g_filehandle.getD (filenum + 1) 0) := by
  rw [read_file_large]
  dsimp only
  rw [if_pos himm, Nat.mod_eq_of_lt hwrap, if_neg (by omega), sys_lseek0, hopen, if_pos rfl,
    ← Nat.add_assoc]
  have h := verify_file_full env filenum BLOCK_ITEMS (by decide) hrd st.g.gopt_file_size
    (filenum + 1) ((st.g.g_seed + filenum + 1) % 2 ^ 32)
    (st.g.g_filehandle.getD (filenum + 1) 0) st.w
    [Ev.handle filenum (filenum + 1) (st.g.g_filehandle.getD (filenum + 1) 0)] st items
    hstore hlen hlt rfl rfl
  exact ⟨h.1, h.2.1, h.2.2.1, h.2.2.2.1, h.2.2.2.2.1, rfl⟩

theorem read_file_large_exhausted (env : Env) (filenum : Nat) (st : State)
    (himm : st.g.gopt_unlink_immediate ≠ 0) (hwrap : filenum + 1 < 2 ^ 32)
    (hreg : st.g.g_filehandle.length ≤ filenum + 1) :
    (read_file_large env filenum st).brk = true ∧
    (read_file_large env filenum st).evs = [Ev.finished] := by
  rw [read_file_large]
  dsimp only
  rw [if_pos himm, Nat.mod_eq_of_lt hwrap, if_pos hreg]
  exact ⟨rfl, rfl⟩

theorem rkeep_registry (g g1 : Globals) (h : rkeep g1 = rkeep g) :
    g1.g_filehandle = g.g_filehandle :=
  congrArg (fun t => t.2.2.2.1) h

theorem read_large_immediate (env : Env) (hrd : ∀ k, (1048576 : Int) ≤ env.rd k)
    (G S L : Nat) (hL : L ≤ UINT_MAX) (reg : List Nat) (hlen : reg.length = L)
    (hinj : ∀ i j, i < L → j < L → reg.getD i 0 = reg.getD j 0 → i = j)
    (count filenum fuel : Nat) (hcount : filenum + 1 + count = L) (hfuel : count < fuel)
    (st : State) (himm : st.g.gopt_unlink_immediate ≠ 0) (hS : st.g.gopt_file_size = S)
    (hG : st.g.g_seed = G) (hreg : st.g.g_filehandle = reg)
    (hfiles : ∀ i, filenum < i → i < L →
      st.w.isopen (reg.getD i 0) = true ∧
      st.w.store (reg.getD i 0) = stream_bytes ((G + i + 1) % 2 ^ 32) (S * BLOCK_ITEMS)) :
    (read_large env fuel filenum 0 st).finished = true ∧
    ((read_large env fuel filenum 0 st).evs.filter is_fault).length =
      count * (S * BLOCK_ITEMS) ∧
    files_read (read_large env fuel filenum 0 st).evs =
      (List.range' filenum count).map (fun n => (n, S * 1048576)) := by
  have hU : L < 2 ^ 32 := by
    rw [UINT_MAX] at hL
    omega
  induction count generalizing filenum fuel st with
  | zero =>
    obtain ⟨fuel, rfl⟩ : ∃ f, fuel = f + 1 := ⟨fuel - 1, by omega⟩
    have ha := read_file_large_exhausted env filenum st himm (by omega)
      (by rw [hreg, hlen]; omega)
    rw [read_large, if_pos rfl]
    dsimp only
    rw [if_pos ha.1]
    dsimp only
    rw [ha.2]
    exact ⟨rfl, (Nat.zero_mul _).symm, rfl⟩
  | succ count ih =>
    obtain ⟨fuel, rfl⟩ : ∃ f, fuel = f + 1 := ⟨fuel - 1, by omega⟩
    have h0 := hfiles (filenum + 1) (by omega) (by omega)
    have hf := read_file_large_handle env hrd filenum st himm (by omega)
      (by rw [hreg, hlen]; omega)
      (fill_block (S * BLOCK_ITEMS) ((G + (filenum + 1) + 1) % 2 ^ 32)).1
      (by rw [hreg]; exact h0.1) (by rw [hreg]; exact h0.2)
      (by rw [hS]; exact fill_block_length _ _) (fill_block_lt _ _)
    have hk := read_file_large_keep env filenum st
    rw [read_large, if_pos rfl]
    dsimp only
    generalize read_file_large env filenum st = r at hf hk ⊢
    rw [if_neg (by rw [hf.2.1]; simp)]
    have hc := rkeep_config _ _ hk.2.1
    have himm1 : r.st.g.gopt_unlink_immediate ≠ 0 := by
      rw [config_immediate _ _ hc]
      exact himm
    have hfiles1 : ∀ i, filenum + 1 < i → i < L →
        r.st.w.isopen (reg.getD i 0) = true ∧
        r.st.w.store (reg.getD i 0) =
          stream_bytes ((G + i + 1) % 2 ^ 32) (S * BLOCK_ITEMS) := by
      intro i hi1 hi2
      have hne : reg.getD i 0 ≠ reg.getD (filenum + 1) 0 := fun h => by
        have := hinj i (filenum + 1) hi2 (by omega) h
        omega
      rw [hf.2.2.2.2.2, hreg]
      have h1 := hfiles i (by omega) hi2
      exact ⟨by simp only [sys_close, if_neg hne]; exact h1.1, h1.2⟩
    have hi := ih (filenum + 1) fuel (by omega) (by omega)
      { r.st with g := { r.st.g with gbyteread := r.st.g.gbyteread + r.rtotal } }
      himm1 ((config_size _ _ hc).trans hS)
      ((config_seed _ _ hc).trans hG) ((rkeep_registry _ _ hk.2.1).trans hreg) hfiles1
    rw [hf.1, hf.2.2.1]
    dsimp only at hi ⊢
    refine ⟨hi.1, ?_, ?_⟩
    · rw [List.filter_append, List.length_append, hi.2.1, hf.2.2.2.1, hG,
        stream_mismatch_count]
      ring
    · rw [files_read_append, hi.2.2, hf.2.2.2.2.1, hS]
      rfl

theorem range_getD (s n i : Nat) (h : i < n) : (List.range' s n).getD i 0 = s + i := by
  simp [List.getD_eq_getElem?_getD, List.getElem?_range', h]

/-- C4 (divergence of the code). For every seed `G`, file count `F >= 1` and file size
`S >= 1` MiB: when `fill_randfiles` runs with immediate-unlink on, file-count limit `F`,
no top-off and an empty registry, and every `open` and `write` call succeeds in full, it
ends with the registry holding the `F` descriptors in creation order, entry `n` open and
holding the first `S` MiB of the stream of file `n`. When `read_randfiles` then runs
with every `read` call returning a full block, its large-block loop indexes the registry
with the file counter it has already incremented: it reports only the `F - 1` names
`0 .. F-2` as read, compares entry `n + 1` with the stream of file `n`, and reports a
mismatch for every 8-byte unit it reads, so `errors_found` ends at
`(F - 1) * S * 131072 mod 2^32`, not at 0, and entry 0 is never verified. -/
theorem immediate_unlink_reads_next_descriptor (env : Env) (G F S fuelw fuelr : Nat)
    (st : State) (hF1 : 1 ≤ F) (hF : F ≤ UINT_MAX) (hS : 1 ≤ S) (hG : st.g.g_seed = G)
    (hlim : st.g.gopt_file_limit = F) (hsz : st.g.gopt_file_size = S)
    (himm : st.g.gopt_unlink_immediate ≠ 0) (hful : st.g.fulfill = 0)
    (herr : st.g.errors_found = 0) (hreg : st.g.g_filehandle = [])
    (hcreat : ∀ n, env.creat n = true) (hwr : ∀ k, (1048576 : Int) ≤ env.wr k)
    (hrd : ∀ k, (1048576 : Int) ≤ env.rd k) (hfuel : F ≤ fuelr) :
    (fill_randfiles env fuelw st).finished = true ∧
    (fill_randfiles env fuelw st).st.g.g_filehandle = List.range' st.w.next F ∧
    (∀ n, n < F →
      (fill_randfiles env fuelw st).st.w.store (st.w.next + n) =
        stream_bytes ((G + n + 1) % 2 ^ 32) (S * BLOCK_ITEMS) ∧
      (fill_randfiles env fuelw st).st.w.isopen (st.w.next + n) = true) ∧
    (read_randfiles env fuelr (fill_randfiles env fuelw st).st).finished = true ∧
    files_read ((read_randfiles env fuelr (fill_randfiles env fuelw st).st).large ++
      (read_randfiles env fuelr (fill_randfiles env fuelw st).st).small) =
        (List.range (F - 1)).map (fun n => (n, S * 1048576)) ∧
    (((read_randfiles env fuelr (fill_randfiles env fuelw st).st).large ++
      (read_randfiles env fuelr (fill_randfiles env fuelw st).st).small).filter
        is_fault).length = (F - 1) * (S * BLOCK_ITEMS) ∧
    (read_randfiles env fuelr (fill_randfiles env fuelw st).st).st.g.errors_found =
      (F - 1) * (S * BLOCK_ITEMS) % 2 ^ 32 := by
  have hw := fill_randfiles_immediate env G F S fuelw st hF hS hG hlim hsz himm hful hcreat hwr
  have hc := wkeep_config _ _ hw.2.2.2
  have herr1 : (fill_randfiles env fuelw st).st.g.errors_found = 0 :=
    (congrArg (fun t => t.2.1) hw.2.2.2).trans herr
  have hregW : (fill_randfiles env fuelw st).st.g.g_filehandle = List.range' st.w.next F := by
    rw [hw.2.1, hreg]
    rfl
  have himm1 : (fill_randfiles env fuelw st).st.g.gopt_unlink_immediate ≠ 0 := by
    rw [config_immediate _ _ hc]
    exact himm
  have hful1 : (fill_randfiles env fuelw st).st.g.fulfill = 0 :=
    (config_fulfill _ _ hc).trans hful
  refine ⟨hw.1, hregW, hw.2.2.1, ?_⟩
  generalize (fill_randfiles env fuelw st).st = W at hw hc herr1 hregW himm1 hful1 ⊢
  have h1 := read_large_immediate env hrd G S F hF (List.range' st.w.next F)
    (List.length_range' _ _ _) (fun i j hi hj h => by
      rw [range_getD _ _ _ hi, range_getD _ _ _ hj] at h
      omega)
    (F - 1) 0 fuelr (by omega) (by omega) W himm1 ((config_size _ _ hc).trans hsz)
    ((config_seed _ _ hc).trans hG) hregW (fun i _ hi => by
      rw [range_getD _ _ _ hi]
      exact ⟨(hw.2.2.1 i hi).2, (hw.2.2.1 i hi).1⟩)
  have hcr := rkeep_config _ _ (read_large_totals env fuelr 0 0 W).2.2
  have h2 := read_small_off_all env fuelr (read_large env fuelr 0 0 W).filenum
    { (read_large env fuelr 0 0 W).st with
      g := { (read_large env fuelr 0 0 W).st.g with
        gbytereadn := (read_large env fuelr 0 0 W).st.g.gbyteread } }
    (fun hx => by
      have := (config_fulfill _ _ hcr).symm.trans hx.2
      rw [hful1] at this
      cases this)
  have he := read_randfiles_errors env fuelr W (by rw [herr1]; norm_num)
  have hsmall : (read_randfiles env fuelr W).small = [] := h2.2.2
  have hlarge : (read_randfiles env fuelr W).large = (read_large env fuelr 0 0 W).evs := rfl
  have hfin : (read_randfiles env fuelr W).finished = true := by
    show ((read_large env fuelr 0 0 W).finished && (read_small env fuelr _ 0 _).finished) = true
    rw [h1.1, h2.2.1]
    rfl
  rw [hsmall, List.append_nil, hlarge] at he ⊢
  rw [h1.2.1] at he
  refine ⟨hfin, ?_, h1.2.1, ?_⟩
  · rw [h1.2.2, List.range_eq_range']
  · rw [he, herr1, Nat.zero_add]

/-- Witness of C4: two files of 1 MiB written with the default seed in immediate-unlink
mode; the verifier reports one file as read and 131072 mismatches. -/
theorem immediate_unlink_reads_next_descriptor_witness :
    files_read
      ((read_randfiles env_ok 2 (fill_randfiles env_ok 0
          (State.init { gopt_unlink_immediate := 1, gopt_file_limit := 2, gopt_file_size := 1 }
            World.empty)).st).large ++
        (read_randfiles env_ok 2 (fill_randfiles env_ok 0
          (State.init { gopt_unlink_immediate := 1, gopt_file_limit := 2, gopt_file_size := 1 }
            World.empty)).st).small) = [(0, 1048576)] ∧
    (read_randfiles env_ok 2 (fill_randfiles env_ok 0
      (State.init { gopt_unlink_immediate := 1, gopt_file_limit := 2, gopt_file_size := 1 }
        World.empty)).st).st.g.errors_found = 131072 :=
  ⟨(immediate_unlink_reads_next_descriptor env_ok 1434038592 2 1 0 2
      (State.init { gopt_unlink_immediate := 1, gopt_file_limit := 2, gopt_file_size := 1 }
        World.empty)
      (by decide) (by decide) (le_refl 1) rfl rfl rfl (by decide) rfl rfl rfl (fun _ => rfl)
      (fun _ => le_refl _) (fun _ => le_refl _) (le_refl 2)).2.2.2.2.1,
    (immediate_unlink_reads_next_descriptor env_ok 1434038592 2 1 0 2
      (State.init { gopt_unlink_immediate := 1, gopt_file_limit := 2, gopt_file_size := 1 }
        World.empty)
      (by decide) (by decide) (le_refl 1) rfl rfl rfl (by decide) rfl rfl rfl (fun _ => rfl)
      (fun _ => le_refl _) (fun _ => le_refl _) (le_refl 2)).2.2.2.2.2.2⟩

/-! ## A mismatch clears the delete-after-success flag -/

theorem flag_after_nil (flag : Nat) : flag_after flag [] = flag := rfl

theorem flag_after_append (flag : Nat) (a b : List Ev) :
    flag_after (flag_after flag a) b = flag_after flag (a ++ b) := by
  simp only [flag_after, List.any_append]
  cases a.any is_fault <;> cases b.any is_fault <;> rfl

theorem flag_after_cons (flag : Nat) (e : Ev) (es : List Ev) (h : is_fault e = false) :
    flag_after flag (e :: es) = flag_after flag es := by
  simp only [flag_after, List.any_cons, h, Bool.false_or]

theorem flag_after_fault (flag name blocknum offset : Nat) (es : List Ev) :
    flag_after flag (Ev.fault name blocknum offset :: es) = 0 := by
  simp [flag_after, is_fault]

theorem flag_after_zero (es : List Ev) : flag_after 0 es = 0 := by
  simp [flag_after]

theorem check_block_flag (name blocknum : Nat) (xs : List Nat) (i rnd : Nat) (g : Globals) :
    (check_block name blocknum xs i rnd g).g.gopt_unlink_after =
      flag_after g.gopt_unlink_after (check_block name blocknum xs i rnd g).evs := by
  induction xs generalizing i rnd g with
  | nil => rfl
  | cons x xs ih =>
    rw [check_block]
    dsimp only
    split
    · rw [flag_after_fault, ih, flag_after_zero]
    · exact ih _ _ _

theorem read_blocks_flag (env : Env) (name size : Nat) (n blocknum : Nat) (rest : List Nat)
    (rnd rtotal nr : Nat) (g : Globals) :
    (read_blocks env name size n blocknum rest rnd rtotal nr g).g.gopt_unlink_after =
      flag_after g.gopt_unlink_after
        (read_blocks env name size n blocknum rest rnd rtotal nr g).evs := by
  induction n generalizing blocknum rest rnd rtotal nr g with
  | zero => rfl
  | succ n ih =>
    rw [read_blocks]
    dsimp only
    split
    · rfl
    · rw [flag_after_cons _ (Ev.read _ _ _ _) _ rfl, ← flag_after_append, ← check_block_flag]
      exact ih _ _ _ _ _ _

theorem verify_file_flag (env : Env) (name size nblocks filenum1 rnd fd : Nat) (w1 : World)
    (e0 : List Ev) (st : State) (h0 : e0.any is_fault = false) :
    (verify_file env name size nblocks filenum1 rnd fd w1 e0 st).st.g.gopt_unlink_after =
      flag_after st.g.gopt_unlink_after
        (verify_file env name size nblocks filenum1 rnd fd w1 e0 st).evs := by
  rw [verify_file]
  dsimp only
  have hb := read_blocks_flag env name size nblocks 0 (w1.store fd) rnd 0 st.nr st.g
  generalize read_blocks env name size nblocks 0 (w1.store fd) rnd 0 st.nr st.g = r at hb ⊢
  rw [hb]
  simp [flag_after, List.any_append, h0, is_fault]

theorem read_file_large_flag (env : Env) (filenum : Nat) (st : State) :
    (read_file_large env filenum st).st.g.gopt_unlink_after =
      flag_after st.g.gopt_unlink_after (read_file_large env filenum st).evs := by
  rw [read_file_large]
  dsimp only
  split
  · split
    · rfl
    · split
      · exact verify_file_flag _ _ _ _ _ _ _ _ _ _ rfl
      · rfl
  · split
    · rfl
    · exact verify_file_flag _ _ _ _ _ _ _ _ _ _ rfl

theorem read_file_small_flag (env : Env) (filenum : Nat) (st : State) :
    (read_file_small env filenum st).st.g.gopt_unlink_after =
      flag_after st.g.gopt_unlink_after (read_file_small env filenum st).evs := by
  rw [read_file_small]
  dsimp only
  split
  · split
    · rfl
    · split
      · exact verify_file_flag _ _ _ _ _ _ _ _ _ _ rfl
      · rfl
  · split
    · rfl
    · exact verify_file_flag _ _ _ _ _ _ _ _ _ _ rfl

theorem read_large_flag (env : Env) (fuel filenum done : Nat) (st : State) :
    (read_large env fuel filenum done st).st.g.gopt_unlink_after =
      flag_after st.g.gopt_unlink_after (read_large env fuel filenum done st).evs := by
  induction fuel generalizing filenum done st with
  | zero => rfl
  | succ fuel ih =>
    rw [read_large]
    split
    · dsimp only
      have hf := read_file_large_flag env filenum st
      generalize read_file_large env filenum st = r at hf ⊢
      split
      · exact hf
      · have hi := ih r.filenum r.done
          { r.st with g := { r.st.g with gbyteread := r.st.g.gbyteread + r.rtotal } }
        dsimp only at hi ⊢
        rw [hi, hf, flag_after_append]
    · rfl

theorem read_small_flag (env : Env) (fuel filenum done : Nat) (st : State) :
    (read_small env fuel filenum done st).st.g.gopt_unlink_after =
      flag_after st.g.gopt_unlink_after (read_small env fuel filenum done st).evs := by
  induction fuel generalizing filenum done st with
  | zero => rfl
  | succ fuel ih =>
    rw [read_small]
    split
    · dsimp only
      have hf := read_file_small_flag env filenum st
      generalize read_file_small env filenum st = r at hf ⊢
      split
      · exact hf
      · have hi := ih r.filenum r.done
          { r.st with g := { r.st.g with gbyteread := r.st.g.gbyteread + r.rtotal } }
        dsimp only at hi ⊢
        rw [hi, hf, flag_after_append]
    · rfl

theorem read_randfiles_flag (env : Env) (fuel : Nat) (st : State) :
    (read_randfiles env fuel st).st.g.gopt_unlink_after =
      flag_after st.g.gopt_unlink_after
        ((read_randfiles env fuel st).large ++ (read_randfiles env fuel st).small) := by
  have h1 := read_large_flag env fuel 0 0 st
  have h2 := read_small_flag env fuel (read_large env fuel 0 0 st).filenum 0
    { (read_large env fuel 0 0 st).st with
      g := { (read_large env fuel 0 0 st).st.g with
        gbytereadn := (read_large env fuel 0 0 st).st.g.gbyteread } }
  show (read_small env fuel _ 0 _).st.g.gopt_unlink_after =
    flag_after st.g.gopt_unlink_after
      ((read_large env fuel 0 0 st).evs ++ (read_small env fuel _ 0 _).evs)
  rw [h2, ← flag_after_append, ← h1]

theorem any_fault_of_count (es : List Ev) (h : (es.filter is_fault).length ≠ 0) :
    es.any is_fault = true := by
  obtain ⟨e, he⟩ := List.exists_mem_of_length_pos (Nat.pos_of_ne_zero h)
  exact List.any_eq_true.2 ⟨e, (List.mem_filter.1 he).1, (List.mem_filter.1 he).2⟩

theorem parse_opts_errors (opts : List Opt) (g g1 : Globals)
    (h : parse_opts opts g = some g1) : g1.errors_found = g.errors_found := by
  induction opts generalizing g with
  | nil =>
    simp only [parse_opts, Option.some.injEq] at h
    rw [← h]
  | cons o os ih =>
    cases o <;> simp only [parse_opts] at h <;> first
      | (have h2 := ih _ h; exact h2)
      | cases h

theorem parse_commandline_errors (opts : List Opt) (extra : Bool) (g : Globals)
    (h : parse_commandline opts extra = some g) : g.errors_found = 0 := by
  rw [parse_commandline] at h
  split at h
  · cases h
  · rename_i g0 h0
    dsimp only at h
    split at h
    · cases h
    · simp only [Option.some.injEq] at h
      subst h
      have h1 := parse_opts_errors opts _ g0 h0
      split
      · exact h1
      · exact h1

theorem read_randfiles_clears_flag (env : Env) (fuel : Nat) (s : State)
    (hs : s.g.errors_found = 0)
    (hf : ((read_randfiles env fuel s).large ++ (read_randfiles env fuel s).small).any is_fault
        = true ∨ (read_randfiles env fuel s).st.g.errors_found ≠ 0) :
    (read_randfiles env fuel s).st.g.gopt_unlink_after = 0 := by
  have hany : ((read_randfiles env fuel s).large ++ (read_randfiles env fuel s).small).any
      is_fault = true := by
    rcases hf with hf | hf
    · exact hf
    · apply any_fault_of_count
      intro h0
      apply hf
      rw [read_randfiles_errors env fuel s (by rw [hs]; norm_num), hs, h0]
      rfl
  rw [read_randfiles_flag, flag_after, hany]
  rfl

theorem fill_state_errors (env : Env) (fuel : Nat) (g : Globals) (u : UnlinkRes)
    (he : g.errors_found = 0) :
    (if g.gopt_readonly = 0 then
        fill_randfiles env fuel { g := g, w := u.w, nw := 0, nr := 0 }
      else (⟨{ g := g, w := u.w, nw := 0, nr := 0 }, [], [], true⟩ : RunRes)).st.g.errors_found
      = 0 := by
  split
  · have hl := fill_large_wkeep env g.gopt_file_limit 0 0 { g := g, w := u.w, nw := 0, nr := 0 }
    have hsm := fill_small_totals env fuel
      (fill_large env g.gopt_file_limit 0 0 { g := g, w := u.w, nw := 0, nr := 0 }).filenum 0
      (fill_large env g.gopt_file_limit 0 0 { g := g, w := u.w, nw := 0, nr := 0 }).st
    have h1 : (fill_randfiles env fuel { g := g, w := u.w, nw := 0, nr := 0 }).st.g.errors_found
        = (fill_large env g.gopt_file_limit 0 0
            { g := g, w := u.w, nw := 0, nr := 0 }).st.g.errors_found :=
      congrArg (fun t => t.2.1) hsm.2.2
    rw [h1]
    exact (congrArg (fun t => t.2.1) hl).trans he
  · exact he

theorem main_run_flag (env : Env) (fuel : Nat) (g : Globals) (w : World)
    (he : g.errors_found = 0)
    (hf : ((main_run env fuel g w).rlarge ++ (main_run env fuel g w).rsmall).any is_fault
        = true ∨ (main_run env fuel g w).st.g.errors_found ≠ 0) :
    (main_run env fuel g w).st.g.gopt_unlink_after = 0 ∧
    (main_run env fuel g w).cleanup = none := by
  rw [main_run] at hf ⊢
  dsimp only at hf ⊢
  generalize (if g.gopt_readonly = 0 then unlink_randfiles fuel w
    else (⟨0, w, [], true⟩ : UnlinkRes)) = u at hf ⊢
  have hs := fill_state_errors env fuel g u he
  generalize (if g.gopt_readonly = 0 then
      fill_randfiles env fuel { g := g, w := u.w, nw := 0, nr := 0 }
    else (⟨{ g := g, w := u.w, nw := 0, nr := 0 }, [], [], true⟩ : RunRes)) = f at hf hs ⊢
  have key := read_randfiles_clears_flag env fuel f.st hs
  split_ifs at hf ⊢ with hc
  · exact absurd (key hf) hc.2
  · exact ⟨key hf, rfl⟩

/-- C11. For every command line the program accepts, every file system and every
behaviour of the system calls: if `read_randfiles` reports at least one mismatch in its
large-block or its small-block loop, or `errors_found` is not 0 at the end of the run,
then `gopt_unlink_after` is 0 at the end of the run and `main` has not called
`unlink_randfiles` after the verification. -/
theorem fault_disables_cleanup (env : Env) (fuel : Nat) (opts : List Opt) (extra : Bool)
    (w : World) (r : MainRes) (h : main env fuel opts extra w = some r)
    (hf : (r.rlarge ++ r.rsmall).any is_fault = true ∨ r.st.g.errors_found ≠ 0) :
    r.st.g.gopt_unlink_after = 0 ∧ r.cleanup = none := by
  rw [main] at h
  split at h
  · cases h
  · rename_i g hp
    simp only [Option.some.injEq] at h
    subst h
    exact main_run_flag env fuel g w (parse_commandline_errors opts extra g hp) hf

/-- Witness of C11: `-v -u` on a directory whose only file holds eight zero bytes; one
mismatch is counted, the flag is cleared and the file is not removed. -/
theorem fault_disables_cleanup_witness :
    main env_ok 2 [Opt.v, Opt.u] false World.zeros =
      some (main_run env_ok 2 { gopt_readonly := 1, gopt_unlink_after := 1 } World.zeros) ∧
    (main_run env_ok 2 { gopt_readonly := 1, gopt_unlink_after := 1 }
      World.zeros).st.g.errors_found = 1 ∧
    (main_run env_ok 2 { gopt_readonly := 1, gopt_unlink_after := 1 }
      World.zeros).st.g.gopt_unlink_after = 0 ∧
    (main_run env_ok 2 { gopt_readonly := 1, gopt_unlink_after := 1 }
      World.zeros).cleanup = none :=
  ⟨rfl, by decide!,
    (fault_disables_cleanup env_ok 2 [Opt.v, Opt.u] false World.zeros
      (main_run env_ok 2 { gopt_readonly := 1, gopt_unlink_after := 1 } World.zeros) rfl
      (Or.inr (by decide!))).1,
    (fault_disables_cleanup env_ok 2 [Opt.v, Opt.u] false World.zeros
      (main_run env_ok 2 { gopt_readonly := 1, gopt_unlink_after := 1 } World.zeros) rfl
      (Or.inr (by decide!))).2⟩

/-! ## The seed sum is computed in 32 bits -/

theorem starts_ok_of_eq (start : Nat → Nat → Ev) (G : Nat) (es : List Ev)
    (h : ∀ n v, start n v ∈ es → v = (G + n + 1) % 2 ^ 32) : starts_ok start G es := by
  intro n v hm
  have h1 := h n v hm
  have h2 := Nat.mod_lt (G + n + 1) (show 0 < 2 ^ 32 by norm_num)
  refine ⟨by rw [h1, Nat.add_assoc], by omega, fun hlt => ?_⟩
  rw [h1, Nat.add_assoc]
  exact Nat.mod_eq_of_lt hlt

theorem fill_randfiles_seeds (env : Env) (fuel : Nat) (st : State) :
    wseeds_ok st.g.g_seed ((fill_randfiles env fuel st).large ++ (fill_randfiles env fuel st).small)
    := by
  refine wseeds_ok_append _ _ _ (fill_large_seeds env _ 0 0 st) ?_
  have h := fill_small_seeds env fuel (fill_large env st.g.gopt_file_limit 0 0 st).filenum 0
    (fill_large env st.g.gopt_file_limit 0 0 st).st
  rw [← wkeep_seed _ _ (fill_large_wkeep env st.g.gopt_file_limit 0 0 st)]
  exact h

theorem read_randfiles_seeds (env : Env) (fuel : Nat) (st : State) :
    rseeds_ok st.g.g_seed ((read_randfiles env fuel st).large ++ (read_randfiles env fuel st).small)
    := by
  refine rseeds_ok_append _ _ _ (read_large_seeds env fuel 0 0 st) ?_
  have h := read_small_seeds env fuel (read_large env fuel 0 0 st).filenum 0
    { (read_large env fuel 0 0 st).st with
      g := { (read_large env fuel 0 0 st).st.g with
        gbytereadn := (read_large env fuel 0 0 st).st.g.gbyteread } }
  rw [← rkeep_seed _ _ (read_large_totals env fuel 0 0 st).2.2]
  exact h

/-- C12 as stated fails: with `-s -1` the global seed is 4294967295, and for the first
file (file index 1) the writer and the verifier start the generator at 0, not at the
integer 4294967296, because `g_seed + (++filenum)` is computed in `unsigned int`. -/
theorem seed_sum_wraps :
    parse_commandline [Opt.s (-1)] false = some { g_seed := 4294967295 } ∧
    (fill_randfiles env_full 0 (State.init { g_seed := 4294967295 } World.empty)).large =
      [Ev.creat 0 0, Ev.wstart 0 0, Ev.write 0 1048576 0, Ev.close 0, Ev.nospace 0,
        Ev.unlink 0 true] ∧
    (read_randfiles env_ok 1 (State.init { g_seed := 4294967295 } World.zeros)).large.take 2 =
      [Ev.openr 0 0, Ev.rstart 0 0] ∧
    (0 : Nat) ≠ 4294967295 + 1 :=
  ⟨rfl, rfl, rfl, by decide⟩

/-- C12, amended. For every global seed `G` and every file, named with `n` and so with
file index `i = n + 1`: the generator state with which `fill_randfiles` starts to write
the file, in either loop, and with which `read_randfiles` starts to check it, in either
loop, is `(G + i) mod 2^32`; it is below `2^32`, and it is the integer `G + i` whenever
`G + i < 2^32`. -/
theorem seed_is_sum_mod_2_32 (envw envr : Env) (fuelw fuelr G : Nat) (sw sr : State)
    (hw : sw.g.g_seed = G) (hr : sr.g.g_seed = G) :
    starts_ok Ev.wstart G
      ((fill_randfiles envw fuelw sw).large ++ (fill_randfiles envw fuelw sw).small) ∧
    starts_ok Ev.rstart G
      ((read_randfiles envr fuelr sr).large ++ (read_randfiles envr fuelr sr).small) := by
  constructor
  · apply starts_ok_of_eq
    intro n v hm
    have h := (fill_randfiles_seeds envw fuelw sw _ hm).1 n v rfl
    rw [hw] at h
    exact h
  · apply starts_ok_of_eq
    intro n v hm
    have h := (read_randfiles_seeds envr fuelr sr _ hm).1 n v rfl
    rw [hr] at h
    exact h

/-- Witness of the amended C12: seed 4294967295 on a full volume and on a directory
with one short file; the first file is started at 0. -/
theorem seed_is_sum_mod_2_32_witness :
    starts_ok Ev.wstart 4294967295
      ((fill_randfiles env_full 0 (State.init { g_seed := 4294967295 } World.empty)).large ++
        (fill_randfiles env_full 0
          (State.init { g_seed := 4294967295 } World.empty)).small) ∧
    starts_ok Ev.rstart 4294967295
      ((read_randfiles env_ok 1 (State.init { g_seed := 4294967295 } World.zeros)).large ++
        (read_randfiles env_ok 1 (State.init { g_seed := 4294967295 } World.zeros)).small) :=
  seed_is_sum_mod_2_32 env_full env_ok 0 1 4294967295
    (State.init { g_seed := 4294967295 } World.empty)
    (State.init { g_seed := 4294967295 } World.zeros) rfl rfl

/-! ## Speed reports -/

theorem speed_report_rate (B ts1 ts2 : ℚ) (h : ts2 - ts1 ≠ 0) :
    speed_report B ts1 ts2 = Speed.rate (B / 1000000 / (ts2 - ts1)) := by
  rw [speed_report, if_pos h, div_div B 1000 1000]
  norm_num

theorem speed_report_short (B ts1 ts2 : ℚ) (h : ts2 - ts1 = 0) :
    speed_report B ts1 ts2 = Speed.too_short := by
  rw [speed_report, if_neg (not_not.2 h)]

theorem speed_report_inv (B ts1 ts2 r : ℚ) (h : speed_report B ts1 ts2 = Speed.rate r) :
    ts2 - ts1 ≠ 0 ∧ r = B / 1000000 / (ts2 - ts1) := by
  by_cases hE : ts2 - ts1 = 0
  · rw [speed_report_short B ts1 ts2 hE] at h
    cases h
  · rw [speed_report_rate B ts1 ts2 hE] at h
    cases h
    exact ⟨hE, rfl⟩

/-- C13 as stated fails: the file loops test `ts2-ts1 != 0`, so for a time difference
below zero (the clock was set back between the two time stamps) a rate is printed, a
negative one: 1000000 bytes with `ts1 = 1` and `ts2 = 0` are reported as -1 MB/s, by
the verification loops and by the write loops. -/
theorem negative_time_prints_rate :
    (0 : ℚ) - 1 ≤ 0 ∧
    read_report 1000000 1 0 = Speed.rate (-1) ∧
    write_report 1000000 1 0 = some (Speed.rate (-1)) := by
  refine ⟨by norm_num, ?_, ?_⟩
  · rw [read_report, speed_report_rate 1000000 1 0 (by norm_num)]
    norm_num
  · rw [write_report, if_neg (by norm_num), speed_report_rate 1000000 1 0 (by norm_num)]
    norm_num

/-- C13, amended. For every byte count `B` of a file and every pair of time stamps
`ts1`, `ts2` taken before and after the file, all as exact numbers, with
`E = ts2 - ts1`: whenever `E` is not 0, above or below, the verification loops report
the rate `B / 1000000 / E`, and so do the write loops for a file that received bytes
(`B ≠ 0`; for `B = 0` they print no speed line at all); exactly when `E = 0` the text
"(measured time too short)" is printed in place of a rate; and whenever a rate is
reported the divisor `E` is not 0 and the rate `r` is `B / 1000000 / E`, that is
`r * E` MB are `B` bytes at 1 MB = 1000000 bytes. -/
theorem throughput_report (B ts1 ts2 : ℚ) :
    (ts2 - ts1 ≠ 0 →
      read_report B ts1 ts2 = Speed.rate (B / 1000000 / (ts2 - ts1)) ∧
      (B ≠ 0 → write_report B ts1 ts2 = some (Speed.rate (B / 1000000 / (ts2 - ts1))))) ∧
    (ts2 - ts1 = 0 →
      read_report B ts1 ts2 = Speed.too_short ∧
      (B ≠ 0 → write_report B ts1 ts2 = some Speed.too_short)) ∧
    (read_report B ts1 ts2 = Speed.too_short ↔ ts2 - ts1 = 0) ∧
    (B = 0 → write_report B ts1 ts2 = none) ∧
    (∀ r, (read_report B ts1 ts2 = Speed.rate r ∨
        write_report B ts1 ts2 = some (Speed.rate r)) →
      ts2 - ts1 ≠ 0 ∧ r = B / 1000000 / (ts2 - ts1) ∧ r * (ts2 - ts1) * 1000000 = B) := by
  refine ⟨fun hE => ⟨speed_report_rate B ts1 ts2 hE, fun hB => ?_⟩,
    fun hE => ⟨speed_report_short B ts1 ts2 hE, fun hB => ?_⟩, ⟨fun h => ?_, fun hE => ?_⟩,
    fun hB => ?_, fun r hr => ?_⟩
  · rw [write_report, if_neg hB, speed_report_rate B ts1 ts2 hE]
  · rw [write_report, if_neg hB, speed_report_short B ts1 ts2 hE]
  · by_contra hE
    rw [read_report, speed_report_rate B ts1 ts2 hE] at h
    cases h
  · exact speed_report_short B ts1 ts2 hE
  · rw [write_report, if_pos hB]
  · have h : speed_report B ts1 ts2 = Speed.rate r := by
      rcases hr with hr | hr
      · exact hr
      · rw [write_report] at hr
        split at hr
        · cases hr
        · exact Option.some.inj hr
    obtain ⟨h1, h2⟩ := speed_report_inv B ts1 ts2 r h
    refine ⟨h1, h2, ?_⟩
    rw [h2]
    field_simp
    ring

/-- An instance of the amended C13: 1 MiB in half a second is reported as 2.097152
MB/s, by the write loops and by the verification loops. -/
theorem throughput_report_witness :
    read_report 1048576 0 (1 / 2) = Speed.rate (2097152 / 1000000) ∧
    write_report 1048576 0 (1 / 2) = some (Speed.rate (2097152 / 1000000)) :=
  ⟨(((throughput_report 1048576 0 (1 / 2)).1 (by norm_num)).1).trans
      (congrArg Speed.rate (by norm_num)),
    ((((throughput_report 1048576 0 (1 / 2)).1 (by norm_num)).2 (by norm_num))).trans
      (congrArg (fun x => some (Speed.rate x)) (by norm_num))⟩

/-! ## Content of the descriptor registry -/

theorem created_append (a b : List Ev) : created (a ++ b) = created a ++ created b := by
  induction a with
  | nil => rfl
  | cons e es ih => cases e <;> simp [created, ih]

theorem created_of_writes (es : List Ev) (h : ∀ e ∈ es, is_write e = true) :
    created es = [] := by
  induction es with
  | nil => rfl
  | cons e es ih =>
    have h1 := h e (List.mem_cons_self _ _)
    have h2 := ih fun x hx => h x (List.mem_cons_of_mem _ hx)
    cases e <;> first | exact h2 | cases h1

theorem fill_file_registry (env : Env) (nitems nblocks filenum : Nat) (st : State)
    (himm : st.g.gopt_unlink_immediate ≠ 0) :
    (fill_file env nitems nblocks filenum st).st.g.g_filehandle =
      st.g.g_filehandle ++ created (fill_file env nitems nblocks filenum st).evs := by
  rw [fill_file]
  split
  · exact (List.append_nil _).symm
  · rename_i fd w1 _
    dsimp only
    have hw := created_of_writes _ (write_blocks_writes env filenum nitems nblocks 0
      ((st.g.g_seed + (filenum + 1) % 2 ^ 32) % 2 ^ 32) 0 st.nw [])
    generalize write_blocks env filenum nitems nblocks 0
      ((st.g.g_seed + (filenum + 1) % 2 ^ 32) % 2 ^ 32) 0 st.nw [] = r at hw ⊢
    simp only [if_pos himm, created, created_append, hw, filehandle_append]
    split_ifs <;> simp [created]

theorem fill_large_registry (env : Env) (fuel filenum done : Nat) (st : State)
    (himm : st.g.gopt_unlink_immediate ≠ 0) :
    (fill_large env fuel filenum done st).st.g.g_filehandle =
      st.g.g_filehandle ++ created (fill_large env fuel filenum done st).evs := by
  induction fuel generalizing filenum done st with
  | zero => exact (List.append_nil _).symm
  | succ fuel ih =>
    rw [fill_large]
    split
    · dsimp only
      have hf := fill_file_registry env BLOCK_ITEMS st.g.gopt_file_size filenum st himm
      have hk := wkeep_config _ _
        (fill_file_wkeep env BLOCK_ITEMS st.g.gopt_file_size filenum st).1
      generalize fill_file env BLOCK_ITEMS st.g.gopt_file_size filenum st = r at hf hk ⊢
      split
      · exact hf
      · have hi := ih r.filenum r.done
          { r.st with g := { r.st.g with gbytewrite := r.st.g.gbytewrite + r.wtotal,
                                         gbytewriten := r.st.g.gbytewrite + r.wtotal } }
          (by rw [← config_immediate _ _ hk] at himm; exact himm)
        dsimp only at hi ⊢
        rw [hi, hf, created_append, List.append_assoc]
    · exact (List.append_nil _).symm

theorem fill_small_registry (env : Env) (fuel filenum done : Nat) (st : State)
    (himm : st.g.gopt_unlink_immediate ≠ 0) :
    (fill_small env fuel filenum done st).st.g.g_filehandle =
      st.g.g_filehandle ++ created (fill_small env fuel filenum done st).evs := by
  induction fuel generalizing filenum done st with
  | zero => exact (List.append_nil _).symm
  | succ fuel ih =>
    rw [fill_small]
    split
    · dsimp only
      have hf := fill_file_registry env (small_items st.g) SMALL_BLOCKS filenum st himm
      have hk := wkeep_config _ _
        (fill_file_wkeep env (small_items st.g) SMALL_BLOCKS filenum st).1
      generalize fill_file env (small_items st.g) SMALL_BLOCKS filenum st = r at hf hk ⊢
      split
      · exact hf
      · have hi := ih r.filenum r.done
          { r.st with g := { r.st.g with gbytewrite := r.st.g.gbytewrite + r.wtotal } }
          (by rw [← config_immediate _ _ hk] at himm; exact himm)
        dsimp only at hi ⊢
        rw [hi, hf, created_append, List.append_assoc]
    · exact (List.append_nil _).symm

theorem filehandle_append_keeps (g : Globals) (fd k : Nat) (hk : k < g.g_filehandle.length) :
    (filehandle_append g fd).g_filehandle[k]? = g.g_filehandle[k]? :=
  List.getElem?_append_left hk

/-- C14 as stated fails: with `-U` on a full volume the first `write` call returns 0, no
byte is written to `random-00000000`, and yet its descriptor 0 is appended to the
registry (the second `unlink` of the name fails, the name being gone already). -/
theorem registry_holds_empty_file :
    (fill_randfiles env_full 0
      (State.init { gopt_unlink_immediate := 1 } World.empty)).large =
      [Ev.creat 0 0, Ev.unlink 0 true, Ev.wstart 0 1434038593, Ev.write 0 1048576 0,
        Ev.append 0, Ev.nospace 0, Ev.unlink 0 false] ∧
    (fill_randfiles env_full 0
      (State.init { gopt_unlink_immediate := 1 } World.empty)).small = [] ∧
    (fill_randfiles env_full 0
      (State.init { gopt_unlink_immediate := 1 } World.empty)).st.g.g_filehandle = [0] ∧
    (fill_randfiles env_full 0
      (State.init { gopt_unlink_immediate := 1 } World.empty)).st.g.gbytewrite = 0 :=
  ⟨rfl, rfl, rfl, rfl⟩

/-- C14, amended. In immediate-unlink mode, for every behaviour of the system calls:
after `fill_randfiles` the registry is the registry before it followed by the
descriptors of all files the two write loops created, in the order of creation, whether
or not a byte was written to them; so from an empty registry entry `k` is the descriptor
of the `k`-th file created. An append leaves every earlier entry as it was and makes the
registry one entry longer. -/
theorem registry_holds_created (env : Env) (fuel : Nat) (st : State)
    (himm : st.g.gopt_unlink_immediate ≠ 0) :
    (fill_randfiles env fuel st).st.g.g_filehandle =
      st.g.g_filehandle ++
        created ((fill_randfiles env fuel st).large ++ (fill_randfiles env fuel st).small) ∧
    (st.g.g_filehandle = [] → ∀ k : Nat,
      (fill_randfiles env fuel st).st.g.g_filehandle[k]? =
        (created ((fill_randfiles env fuel st).large ++
          (fill_randfiles env fuel st).small))[k]?) ∧
    (∀ (g : Globals) (fd : Nat),
      (filehandle_append g fd).g_filehandle.length = g.g_filehandle.length + 1 ∧
      (filehandle_append g fd).g_filehandle[g.g_filehandle.length]? = some fd ∧
      ∀ k : Nat, k < g.g_filehandle.length →
        (filehandle_append g fd).g_filehandle[k]? = g.g_filehandle[k]?) := by
  have h1 := fill_large_registry env st.g.gopt_file_limit 0 0 st himm
  have hk := wkeep_config _ _ (fill_large_wkeep env st.g.gopt_file_limit 0 0 st)
  have h2 := fill_small_registry env fuel (fill_large env st.g.gopt_file_limit 0 0 st).filenum 0
    (fill_large env st.g.gopt_file_limit 0 0 st).st
    (by rw [← config_immediate _ _ hk] at himm; exact himm)
  have h : (fill_randfiles env fuel st).st.g.g_filehandle =
      st.g.g_filehandle ++
        created ((fill_randfiles env fuel st).large ++ (fill_randfiles env fuel st).small) := by
    show (fill_small env fuel _ 0 _).st.g.g_filehandle =
      st.g.g_filehandle ++ created ((fill_large env st.g.gopt_file_limit 0 0 st).evs ++
        (fill_small env fuel _ 0 _).evs)
    rw [h2, h1, created_append, List.append_assoc]
  refine ⟨h, fun h0 k => ?_, fun g fd => ⟨?_, ?_, fun k hk => filehandle_append_keeps g fd k hk⟩⟩
  · rw [h, h0, List.nil_append]
  · simp [filehandle_append]
  · simp [filehandle_append]

/-- Witness of the amended C14: `-U` on a full volume; the registry holds the descriptor
of the one file created. -/
theorem registry_holds_created_witness :
    (fill_randfiles env_full 0
      (State.init { gopt_unlink_immediate := 1 } World.empty)).st.g.g_filehandle =
      [] ++ created
        ((fill_randfiles env_full 0
            (State.init { gopt_unlink_immediate := 1 } World.empty)).large ++
          (fill_randfiles env_full 0
            (State.init { gopt_unlink_immediate := 1 } World.empty)).small) :=
  (registry_holds_created env_full 0 (State.init { gopt_unlink_immediate := 1 } World.empty)
    (by decide)).1

/-! ## A failed read ends the pass -/

theorem no_read_fail_nil : no_read_fail [] := fun x hx => by cases hx

theorem no_read_fail_append (a b : List Ev) (ha : no_read_fail a) (hb : no_read_fail b) :
    no_read_fail (a ++ b) :=
  fun x hx => (List.mem_append.1 hx).elim (ha x) (hb x)

theorem no_read_fail_cons (e : Ev) (es : List Ev) (he : is_failed_read e = false)
    (h : no_read_fail es) : no_read_fail (e :: es) := by
  intro x hx
  rcases List.mem_cons.1 hx with rfl | hx
  · exact he
  · exact h x hx

theorem no_read_fail_of_calm (b : List Ev) (hb : ∀ x ∈ b, is_open_or_read x = false) :
    no_read_fail b := by
  intro x hx
  have h := hb x hx
  cases x <;> first | rfl | cases h

theorem read_cut_off_of_no_fail (a : List Ev) (h : no_read_fail a) : read_cut_off a := by
  induction a with
  | nil => trivial
  | cons e es ih =>
    refine ⟨fun he => ?_, ih fun x hx => h x (List.mem_cons_of_mem _ hx)⟩
    rw [h e (List.mem_cons_self _ _)] at he
    cases he

theorem read_cut_off_append_of_no_fail (a b : List Ev) (ha : no_read_fail a)
    (hb : read_cut_off b) : read_cut_off (a ++ b) := by
  induction a with
  | nil => exact hb
  | cons e es ih =>
    refine ⟨fun he => ?_, ih fun x hx => ha x (List.mem_cons_of_mem _ hx)⟩
    rw [ha e (List.mem_cons_self _ _)] at he
    cases he

theorem read_cut_off_append_calm (a b : List Ev) (ha : read_cut_off a)
    (hb : ∀ x ∈ b, is_open_or_read x = false) : read_cut_off (a ++ b) := by
  induction a with
  | nil => exact read_cut_off_of_no_fail b (no_read_fail_of_calm b hb)
  | cons e es ih =>
    refine ⟨fun he x hx => ?_, ih ha.2⟩
    rcases List.mem_append.1 hx with h | h
    · exact ha.1 he x h
    · exact hb x h

theorem read_cut_off_cons (e : Ev) (es : List Ev) (he : is_failed_read e = false)
    (h : read_cut_off es) : read_cut_off (e :: es) :=
  And.intro (fun hf => by rw [he] at hf; cases hf) h

theorem no_read_fail_of_faults (es : List Ev) (h : ∀ e ∈ es, is_fault e = true) :
    no_read_fail es := by
  intro x hx
  have h1 := h x hx
  cases x <;> first | rfl | cases h1

theorem read_blocks_cut (env : Env) (name size : Nat) (n blocknum : Nat) (rest : List Nat)
    (rnd rtotal nr : Nat) (g : Globals) :
    read_cut_off (read_blocks env name size n blocknum rest rnd rtotal nr g).evs ∧
    ((read_blocks env name size n blocknum rest rnd rtotal nr g).done = 0 →
      no_read_fail (read_blocks env name size n blocknum rest rnd rtotal nr g).evs) := by
  induction n generalizing blocknum rest rnd rtotal nr g with
  | zero => exact ⟨trivial, fun _ => no_read_fail_nil⟩
  | succ n ih =>
    rw [read_blocks]
    dsimp only
    split
    · exact ⟨And.intro (fun _ x hx => by cases hx) trivial, fun h => by cases h⟩
    · rename_i hrb
      have hc := no_read_fail_of_faults _ (check_block_faults name blocknum
        (decode_items (rest.take (sys_read env nr size rest.length).toNat)) 0 rnd g)
      have hnf : is_failed_read (Ev.read name blocknum size (sys_read env nr size rest.length))
          = false := by simp [is_failed_read, hrb]
      have hi := ih (blocknum + 1) (rest.drop (sys_read env nr size rest.length).toNat)
        (check_block name blocknum
          (decode_items (rest.take (sys_read env nr size rest.length).toNat)) 0 rnd g).rnd
        (rtotal + (sys_read env nr size rest.length).toNat) (nr + 1)
        (check_block name blocknum
          (decode_items (rest.take (sys_read env nr size rest.length).toNat)) 0 rnd g).g
      exact ⟨read_cut_off_cons _ _ hnf (read_cut_off_append_of_no_fail _ _ hc hi.1),
        fun h => no_read_fail_cons _ _ hnf (no_read_fail_append _ _ hc (hi.2 h))⟩

theorem verify_file_cut (env : Env) (name size nblocks filenum1 rnd fd : Nat) (w1 : World)
    (e0 : List Ev) (st : State) (h0 : no_read_fail e0) :
    read_cut_off (verify_file env name size nblocks filenum1 rnd fd w1 e0 st).evs ∧
    ((verify_file env name size nblocks filenum1 rnd fd w1 e0 st).done = 0 →
      no_read_fail (verify_file env name size nblocks filenum1 rnd fd w1 e0 st).evs) := by
  rw [verify_file]
  dsimp only
  have hb := read_blocks_cut env name size nblocks 0 (w1.store fd) rnd 0 st.nr st.g
  generalize read_blocks env name size nblocks 0 (w1.store fd) rnd 0 st.nr st.g = r at hb ⊢
  have hcalm : ∀ x ∈ [Ev.close fd, Ev.readrep name r.rtotal], is_open_or_read x = false := by
    intro x hx
    rcases List.mem_cons.1 hx with rfl | hx
    · rfl
    · rw [List.mem_singleton.1 hx]
      rfl
  exact ⟨read_cut_off_append_of_no_fail _ _ h0
      (read_cut_off_cons _ _ rfl (read_cut_off_append_calm _ _ hb.1 hcalm)),
    fun h => no_read_fail_append _ _ h0
      (no_read_fail_cons _ _ rfl (no_read_fail_append _ _ (hb.2 h)
        (no_read_fail_of_calm _ hcalm)))⟩

theorem read_file_large_cut (env : Env) (filenum : Nat) (st : State) :
    read_cut_off (read_file_large env filenum st).evs ∧
    ((read_file_large env filenum st).done = 0 →
      no_read_fail (read_file_large env filenum st).evs) := by
  rw [read_file_large]
  dsimp only
  split
  · split
    · exact ⟨read_cut_off_cons _ _ rfl trivial, fun _ => no_read_fail_cons _ _ rfl no_read_fail_nil⟩
    · split
      · exact verify_file_cut _ _ _ _ _ _ _ _ _ _ (no_read_fail_cons _ _ rfl no_read_fail_nil)
      · exact ⟨read_cut_off_cons _ _ rfl (read_cut_off_cons _ _ rfl trivial),
          fun _ => no_read_fail_cons _ _ rfl (no_read_fail_cons _ _ rfl no_read_fail_nil)⟩
  · split
    · exact ⟨read_cut_off_cons _ _ rfl trivial, fun _ => no_read_fail_cons _ _ rfl no_read_fail_nil⟩
    · exact verify_file_cut _ _ _ _ _ _ _ _ _ _ (no_read_fail_cons _ _ rfl no_read_fail_nil)

theorem read_file_small_cut (env : Env) (filenum : Nat) (st : State) :
    read_cut_off (read_file_small env filenum st).evs ∧
    ((read_file_small env filenum st).done = 0 →
      no_read_fail (read_file_small env filenum st).evs) := by
  rw [read_file_small]
  dsimp only
  split
  · split
    · exact ⟨read_cut_off_cons _ _ rfl trivial, fun _ => no_read_fail_cons _ _ rfl no_read_fail_nil⟩
    · split
      · exact verify_file_cut _ _ _ _ _ _ _ _ _ _ (no_read_fail_cons _ _ rfl no_read_fail_nil)
      · exact ⟨read_cut_off_cons _ _ rfl (read_cut_off_cons _ _ rfl trivial),
          fun _ => no_read_fail_cons _ _ rfl (no_read_fail_cons _ _ rfl no_read_fail_nil)⟩
  · split
    · exact ⟨read_cut_off_cons _ _ rfl trivial, fun _ => no_read_fail_cons _ _ rfl no_read_fail_nil⟩
    · exact verify_file_cut _ _ _ _ _ _ _ _ _ _ (no_read_fail_cons _ _ rfl no_read_fail_nil)

theorem read_large_done (env : Env) (fuel filenum done : Nat) (st : State) (h : done ≠ 0) :
    (read_large env fuel filenum done st).evs = [] := by
  cases fuel with
  | zero => rfl
  | succ fuel => rw [read_large, if_neg h]

theorem read_small_done (env : Env) (fuel filenum done : Nat) (st : State) (h : done ≠ 0) :
    (read_small env fuel filenum done st).evs = [] := by
  cases fuel with
  | zero => rfl
  | succ fuel => rw [read_small, if_neg (fun hc => h hc.1)]

theorem read_large_cut (env : Env) (fuel filenum done : Nat) (st : State) :
    read_cut_off (read_large env fuel filenum done st).evs := by
  induction fuel generalizing filenum done st with
  | zero => trivial
  | succ fuel ih =>
    rw [read_large]
    split
    · dsimp only
      have hf := read_file_large_cut env filenum st
      split
      · exact hf.1
      · by_cases hd : (read_file_large env filenum st).done = 0
        · exact read_cut_off_append_of_no_fail _ _ (hf.2 hd) (ih _ _ _)
        · show read_cut_off (_ ++ (read_large env fuel _ _ _).evs)
          rw [read_large_done env fuel _ _ _ hd]
          exact read_cut_off_append_calm _ _ hf.1 (fun x hx => by cases hx)
    · trivial

theorem read_small_cut (env : Env) (fuel filenum done : Nat) (st : State) :
    read_cut_off (read_small env fuel filenum done st).evs := by
  induction fuel generalizing filenum done st with
  | zero => trivial
  | succ fuel ih =>
    rw [read_small]
    split
    · dsimp only
      have hf := read_file_small_cut env filenum st
      split
      · exact hf.1
      · by_cases hd : (read_file_small env filenum st).done = 0
        · exact read_cut_off_append_of_no_fail _ _ (hf.2 hd) (ih _ _ _)
        · show read_cut_off (_ ++ (read_small env fuel _ _ _).evs)
          rw [read_small_done env fuel _ _ _ hd]
          exact read_cut_off_append_calm _ _ hf.1 (fun x hx => by cases hx)
    · trivial

/-- C15 as stated fails: in a directory where `random-00000000` is empty and
`random-00000001` holds eight zero bytes, the first `read` of file 0 returns 0; the
large-block loop closes file 0 and ends, the small-block loop does not run, file 1 is
never opened and `errors_found` stays 0, although the check of file 1 counts a
mismatch when it is run. -/
theorem zero_read_hides_later_files :
    (read_randfiles env_ok 3 (State.init {} World.gap)).large =
      [Ev.openr 0 0, Ev.rstart 0 1434038593, Ev.read 0 0 1048576 0, Ev.close 0,
        Ev.readrep 0 0] ∧
    (read_randfiles env_ok 3 (State.init {} World.gap)).small = [] ∧
    (read_randfiles env_ok 3 (State.init {} World.gap)).finished = true ∧
    (read_randfiles env_ok 3 (State.init {} World.gap)).st.g.errors_found = 0 ∧
    World.gap.dir 1 = some 1 ∧
    (read_file_large env_ok 1 (State.init {} World.gap)).st.g.errors_found = 1 :=
  ⟨rfl, rfl, rfl, rfl, rfl, by decide!⟩

/-- C15, amended. In each loop of `read_randfiles`, the large-block and the small-block
one, for every file system and every behaviour of the system calls: once a `read` call
has returned zero or a negative value, the loop only closes that file and reports its
bytes; it makes no further `read` call, fetches or opens no further file and reports no
further mismatch. A file after it is looked at only by the small-block loop, when that
loop runs. -/
theorem zero_read_ends_pass (env : Env) (fuel : Nat) (st : State) :
    read_cut_off (read_randfiles env fuel st).large ∧
    read_cut_off (read_randfiles env fuel st).small :=
  ⟨read_large_cut env _ _ _ _, read_small_cut env _ _ _ _⟩

/-! ## What a file receives under arbitrary write results -/

theorem stream_bytes_add (a b rnd : Nat) :
    stream_bytes rnd (a + b) = stream_bytes rnd a ++ stream_bytes (fill_block a rnd).2 b := by
  rw [stream_bytes, stream_bytes, stream_bytes, fill_block_add, block_bytes_append]

theorem stream_bytes_length (rnd k : Nat) : (stream_bytes rnd k).length = k * 8 := by
  rw [stream_bytes, block_bytes_length, fill_block_length]

theorem write_retry_fail_wp (env : Env) (name : Nat) (block : List Nat) (size : Nat)
    (fuel wp nw : Nat) (data : List Nat) (hwp : wp ≤ size)
    (hd : (write_retry env name block size fuel wp 0 nw data).done ≠ 0) :
    (write_retry env name block size fuel wp 0 nw data).done = 1 ∧
    (write_retry env name block size fuel wp 0 nw data).wp < size := by
  induction fuel generalizing wp nw data with
  | zero =>
    rw [write_retry_zero] at hd
    exact absurd rfl hd
  | succ fuel ih =>
    by_cases h : wp ≠ size ∧ 0 = 0
    · by_cases hwb : sys_write env nw (size - wp) ≤ 0
      · rw [write_retry_fail env name block size fuel wp 0 nw data h hwb]
        refine ⟨rfl, ?_⟩
        dsimp only
        have := h.1
        omega
      · rw [write_retry_step env name block size fuel wp 0 nw data h hwb] at hd ⊢
        have hp := sys_write_pos env nw (size - wp) hwb
        exact ih (wp + (sys_write env nw (size - wp)).toNat) (nw + 1)
          (data ++ (block.drop wp).take (sys_write env nw (size - wp)).toNat) (by omega) hd
    · rw [write_retry_stop env name block size fuel wp 0 nw data h] at hd
      exact absurd rfl hd

theorem write_blocks_stream (env : Env) (name nitems : Nat) (n blocknum rnd wtotal nw : Nat)
    (data : List Nat) :
    wtotal ≤ (write_blocks env name nitems n blocknum rnd wtotal nw data).wtotal ∧
    (write_blocks env name nitems n blocknum rnd wtotal nw data).data =
      data ++ (stream_bytes rnd (n * nitems)).take
        ((write_blocks env name nitems n blocknum rnd wtotal nw data).wtotal - wtotal) ∧
    ((write_blocks env name nitems n blocknum rnd wtotal nw data).done ≠ 0 →
      (write_blocks env name nitems n blocknum rnd wtotal nw data).done = 1 ∧
      blocknum ≤ (write_blocks env name nitems n blocknum rnd wtotal nw data).blocknum ∧
      (write_blocks env name nitems n blocknum rnd wtotal nw data).blocknum < blocknum + n ∧
      (write_blocks env name nitems n blocknum rnd wtotal nw data).wp < nitems * 8 ∧
      (write_blocks env name nitems n blocknum rnd wtotal nw data).wtotal =
        wtotal +
          ((write_blocks env name nitems n blocknum rnd wtotal nw data).blocknum - blocknum)
            * (nitems * 8) +
          (write_blocks env name nitems n blocknum rnd wtotal nw data).wp) := by
  induction n generalizing blocknum rnd wtotal nw data with
  | zero =>
    rw [write_blocks]
    refine ⟨le_refl _, ?_, fun h => absurd rfl h⟩
    simp
  | succ n ih =>
    rw [write_blocks]
    dsimp only
    have hr := write_retry_data env name (block_bytes (fill_block nitems rnd).1) (nitems * 8)
      (nitems * 8) 0 nw data (Nat.zero_le _)
    have hl := write_retry_fail_wp env name (block_bytes (fill_block nitems rnd).1) (nitems * 8)
      (nitems * 8) 0 nw data (Nat.zero_le _)
    have hsplit : stream_bytes rnd ((n + 1) * nitems) =
        block_bytes (fill_block nitems rnd).1 ++
          stream_bytes (fill_block nitems rnd).2 (n * nitems) := by
      rw [show (n + 1) * nitems = nitems + n * nitems by rw [Nat.add_mul, Nat.one_mul,
        Nat.add_comm], stream_bytes_add]
      rfl
    have hblen : (block_bytes (fill_block nitems rnd).1).length = nitems * 8 := by
      rw [block_bytes_length, fill_block_length]
    generalize write_retry env name (block_bytes (fill_block nitems rnd).1) (nitems * 8)
      (nitems * 8) 0 0 nw data = r at hr hl ⊢
    by_cases hrd : r.done ≠ 0
    · rw [if_pos hrd]
      dsimp only
      refine ⟨by omega, ?_, fun _ => ⟨(hl hrd).1, le_refl _, by omega, (hl hrd).2,
        by rw [Nat.sub_self, Nat.zero_mul, Nat.add_zero]⟩⟩
      rw [hr.2.2.1, Nat.sub_zero, List.drop_zero, Nat.add_sub_cancel_left, hsplit,
        List.take_append_of_le_length (by rw [hblen]; exact hr.2.1)]
    · rw [if_neg hrd]
      dsimp only
      have hfull := hr.2.2.2 (by omega) (not_not.1 hrd)
      have hi := ih (blocknum + 1) (fill_block nitems rnd).2 (wtotal + r.wp) r.nw r.data
      generalize write_blocks env name nitems n (blocknum + 1) (fill_block nitems rnd).2
        (wtotal + r.wp) r.nw r.data = s at hi ⊢
      refine ⟨by omega, ?_, fun hd => ?_⟩
      · rw [hi.2.1, hr.2.2.1, hfull, Nat.sub_zero, List.drop_zero,
          List.take_of_length_le (by rw [hblen]), List.append_assoc, hsplit,
          show s.wtotal - wtotal =
            (block_bytes (fill_block nitems rnd).1).length + (s.wtotal - (wtotal + nitems * 8))
            by rw [hblen]; omega,
          List.take_append]
      · have h3 := hi.2.2 hd
        refine ⟨h3.1, by omega, by omega, h3.2.2.2.1, ?_⟩
        rw [h3.2.2.2.2, hfull,
          show s.blocknum - blocknum = (s.blocknum - (blocknum + 1)) + 1 by omega,
          Nat.add_mul, Nat.one_mul]
        omega

theorem fill_file_stream (env : Env) (nitems nblocks filenum : Nat) (st : State)
    (hb : (fill_file env nitems nblocks filenum st).brk = false) :
    (fill_file env nitems nblocks filenum st).fd = st.w.next ∧
    (fill_file env nitems nblocks filenum st).st.w.next = st.w.next + 1 ∧
    (fill_file env nitems nblocks filenum st).st.w.store st.w.next =
      (stream_bytes (file_seed st.g filenum) (nblocks * nitems)).take
        (fill_file env nitems nblocks filenum st).wtotal ∧
    (∀ k, k ≠ st.w.next →
      (fill_file env nitems nblocks filenum st).st.w.store k = st.w.store k) := by
  have hc : env.creat filenum = true := by
    by_contra hc
    rw [fill_file] at hb
    simp only [sys_creat, hc] at hb
    cases hb
  rw [fill_file]
  simp only [sys_creat, hc, if_true]
  have hw := write_blocks_stream env filenum nitems nblocks 0
    ((st.g.g_seed + (filenum + 1) % 2 ^ 32) % 2 ^ 32) 0 st.nw []
  rw [file_seed]
  generalize write_blocks env filenum nitems nblocks 0
    ((st.g.g_seed + (filenum + 1) % 2 ^ 32) % 2 ^ 32) 0 st.nw [] = r at hw ⊢
  rw [List.nil_append, Nat.sub_zero] at hw
  refine ⟨trivial, ?_, ?_, fun k hk => ?_⟩
  · split_ifs <;> simp [sys_unlink_next, sys_close]
  · split_ifs <;> simp [sys_unlink_store, sys_close, hw.2.1]
  · split_ifs <;> simp [sys_unlink_store, sys_close, hk]

theorem fill_file_partial (env : Env) (nitems nblocks filenum : Nat) (st : State)
    (hd : (fill_file env nitems nblocks filenum st).done ≠ 0) :
    (fill_file env nitems nblocks filenum st).done = 1 ∧
    (fill_file env nitems nblocks filenum st).blocknum < nblocks ∧
    (fill_file env nitems nblocks filenum st).wp < nitems * 8 ∧
    (fill_file env nitems nblocks filenum st).wtotal =
      (fill_file env nitems nblocks filenum st).blocknum * (nitems * 8) +
        (fill_file env nitems nblocks filenum st).wp := by
  rw [fill_file] at hd ⊢
  split
  · rename_i heq
    rw [heq] at hd
    exact absurd rfl hd
  · rename_i fd w1 heq
    rw [heq] at hd
    dsimp only at hd ⊢
    have hw := write_blocks_stream env filenum nitems nblocks 0
      ((st.g.g_seed + (filenum + 1) % 2 ^ 32) % 2 ^ 32) 0 st.nw []
    generalize write_blocks env filenum nitems nblocks 0
      ((st.g.g_seed + (filenum + 1) % 2 ^ 32) % 2 ^ 32) 0 st.nw [] = r at hw hd ⊢
    have h3 := hw.2.2 hd
    rw [Nat.sub_zero, Nat.zero_add, Nat.zero_add] at h3
    exact ⟨h3.1, h3.2.2.1, h3.2.2.2.1, h3.2.2.2.2⟩

/-- C5. In the large-block phase, for the file named with `filenum` and every
behaviour of the system calls: when a `write` call to the file returned zero or a
negative value and the `write` calls to the file wrote `K` MiB in all, however many
short writes the retry loop needed for them, then `K` is below the file size, the block
loop was left at block `K` with nothing of that block written, the file holds exactly
the first `K` MiB of its generator stream, and if `K = 0` its name is gone afterwards; if
`K > 0` and the file is not unlinked at once the name still refers to it. -/
theorem short_write_keeps_whole_blocks (env : Env) (filenum K : Nat) (st : State)
    (hfail : ∃ e ∈ (fill_file env BLOCK_ITEMS st.g.gopt_file_size filenum st).evs,
      is_failed_write e = true)
    (hbytes : bytes_written (fill_file env BLOCK_ITEMS st.g.gopt_file_size filenum st).evs =
      K * 1048576) :
    K < st.g.gopt_file_size ∧
    (fill_file env BLOCK_ITEMS st.g.gopt_file_size filenum st).blocknum = K ∧
    (fill_file env BLOCK_ITEMS st.g.gopt_file_size filenum st).wp = 0 ∧
    (fill_file env BLOCK_ITEMS st.g.gopt_file_size filenum st).st.w.store
        (fill_file env BLOCK_ITEMS st.g.gopt_file_size filenum st).fd =
      stream_bytes (file_seed st.g filenum) (K * BLOCK_ITEMS) ∧
    ((fill_file env BLOCK_ITEMS st.g.gopt_file_size filenum st).st.w.store
        (fill_file env BLOCK_ITEMS st.g.gopt_file_size filenum st).fd).length = K * 1048576 ∧
    (K = 0 → (fill_file env BLOCK_ITEMS st.g.gopt_file_size filenum st).st.w.dir filenum = none) ∧
    (K ≠ 0 → st.g.gopt_unlink_immediate = 0 →
      (fill_file env BLOCK_ITEMS st.g.gopt_file_size filenum st).st.w.dir filenum =
        some (fill_file env BLOCK_ITEMS st.g.gopt_file_size filenum st).fd) := by
  have hcut := fill_file_cut env BLOCK_ITEMS st.g.gopt_file_size filenum st
  have hd : (fill_file env BLOCK_ITEMS st.g.gopt_file_size filenum st).done ≠ 0 := by
    intro h0
    obtain ⟨e, he, hf⟩ := hfail
    rw [hcut.2 h0 e he] at hf
    cases hf
  have hbrk : (fill_file env BLOCK_ITEMS st.g.gopt_file_size filenum st).brk = false := by
    cases hb : (fill_file env BLOCK_ITEMS st.g.gopt_file_size filenum st).brk
    · rfl
    · exact absurd (fill_file_brk env BLOCK_ITEMS st.g.gopt_file_size filenum st hb).2.1 hd
  have hp := fill_file_partial env BLOCK_ITEMS st.g.gopt_file_size filenum st hd
  have hwt := fill_file_bytes env BLOCK_ITEMS st.g.gopt_file_size filenum st
  have h8 : BLOCK_ITEMS * 8 = 1048576 := by decide
  rw [h8, hwt, hbytes] at hp
  have hK : (fill_file env BLOCK_ITEMS st.g.gopt_file_size filenum st).blocknum = K := by omega
  have hwp : (fill_file env BLOCK_ITEMS st.g.gopt_file_size filenum st).wp = 0 := by omega
  have h := fill_file_whole_blocks env filenum K st hbrk hp.1 hK hwp
  exact ⟨h.1, hK, hwp, h.2.1, h.2.2.1, h.2.2.2.1, h.2.2.2.2⟩

/-- Witness of C5 with `K = 1`: the first block is written by two `write` calls of half
a MiB each and the next `write` call returns 0; the file holds the first MiB of its
stream and keeps its name. -/
theorem short_write_keeps_whole_blocks_witness :
    (fill_file env_halves BLOCK_ITEMS 1024 0 (State.init {} World.empty)).evs =
      [Ev.creat 0 0, Ev.wstart 0 1434038593, Ev.write 0 1048576 524288,
        Ev.write 0 524288 524288, Ev.write 0 1048576 0, Ev.close 0, Ev.wrote 0 1048576] ∧
    (fill_file env_halves BLOCK_ITEMS 1024 0 (State.init {} World.empty)).st.w.store
        (fill_file env_halves BLOCK_ITEMS 1024 0 (State.init {} World.empty)).fd =
      stream_bytes 1434038593 (1 * BLOCK_ITEMS) ∧
    (fill_file env_halves BLOCK_ITEMS 1024 0 (State.init {} World.empty)).st.w.dir 0 =
      some (fill_file env_halves BLOCK_ITEMS 1024 0 (State.init {} World.empty)).fd :=
  ⟨rfl,
    (short_write_keeps_whole_blocks env_halves 0 1 (State.init {} World.empty)
      ⟨Ev.write 0 1048576 0, by decide, rfl⟩ rfl).2.2.2.1,
    (short_write_keeps_whole_blocks env_halves 0 1 (State.init {} World.empty)
      ⟨Ev.write 0 1048576 0, by decide, rfl⟩ rfl).2.2.2.2.2.2 (by decide) rfl⟩

/-! ## The sequence written and the sequence expected -/

theorem mismatches_eq_nil_iff (name nitems : Nat) (xs : List Nat) (idx rnd : Nat) :
    mismatches name nitems xs idx rnd = [] ↔ xs = (fill_block xs.length rnd).1 := by
  induction xs generalizing idx rnd with
  | nil => exact ⟨fun _ => rfl, fun _ => rfl⟩
  | cons x xs ih =>
    rw [mismatches_cons, List.length_cons, fill_block_succ]
    dsimp only
    by_cases hx : x = lcg_step rnd
    · rw [if_neg (not_not.2 hx), List.nil_append, ih, hx]
      exact ⟨fun h => congrArg _ h, fun h => List.tail_eq_of_cons_eq h⟩
    · rw [if_pos hx]
      constructor
      · intro h
        cases h
      · intro h
        exact absurd (List.head_eq_of_cons_eq h) hx

theorem check_block_accepts (name blocknum : Nat) (xs : List Nat) (i rnd : Nat) (g : Globals) :
    ((check_block name blocknum xs i rnd g).evs = [] ↔ xs = (fill_block xs.length rnd).1) ∧
    (check_block name blocknum xs i rnd g).rnd = (fill_block xs.length rnd).2 := by
  have h := check_block_evs name blocknum (i + xs.length) xs i rnd g (le_refl _)
  rw [h.1, mismatches_eq_nil_iff]
  exact ⟨Iff.rfl, h.2⟩

theorem fill_file_creat (env : Env) (nitems nblocks filenum : Nat) (st : State) (n fd : Nat)
    (h : Ev.creat n fd ∈ (fill_file env nitems nblocks filenum st).evs) :
    n = filenum ∧ fd = st.w.next ∧ (fill_file env nitems nblocks filenum st).brk = false := by
  rw [fill_file] at h ⊢
  split
  · rename_i heq
    rw [heq] at h
    simp at h
  · rename_i fd1 w1 heq
    rw [heq] at h
    dsimp only at h ⊢
    rcases List.mem_cons.1 h with h | h
    · cases h
      exact ⟨rfl, (sys_creat_some env st.w filenum fd w1 heq).2.1, rfl⟩
    · exfalso
      rcases List.mem_append.1 h with h | h
      · split at h <;> simp at h
      · rcases List.mem_cons.1 h with h | h
        · cases h
        · rcases List.mem_append.1 h with h | h
          · have := write_blocks_writes env filenum nitems nblocks 0 _ 0 st.nw [] _ h
            cases this
          · rcases List.mem_append.1 h with h | h
            · split at h <;> simp at h
            · split at h <;> simp at h

theorem fill_large_content (env : Env) (fuel filenum done : Nat) (st : State) :
    st.w.next ≤ (fill_large env fuel filenum done st).st.w.next ∧
    (∀ k, k < st.w.next → (fill_large env fuel filenum done st).st.w.store k = st.w.store k) ∧
    (∀ n fd, Ev.creat n fd ∈ (fill_large env fuel filenum done st).evs →
      st.w.next ≤ fd ∧ fd < (fill_large env fuel filenum done st).st.w.next ∧
      ∃ k, (fill_large env fuel filenum done st).st.w.store fd =
        (stream_bytes ((st.g.g_seed + n + 1) % 2 ^ 32)
          (st.g.gopt_file_size * BLOCK_ITEMS)).take k) := by
  induction fuel generalizing filenum done st with
  | zero => exact ⟨le_refl _, fun k _ => rfl, fun n fd h => by cases h⟩
  | succ fuel ih =>
    rw [fill_large]
    split
    · dsimp only
      have hs := fill_file_stream env BLOCK_ITEMS st.g.gopt_file_size filenum st
      have hc := fill_file_creat env BLOCK_ITEMS st.g.gopt_file_size filenum st
      have hbk := fill_file_brk env BLOCK_ITEMS st.g.gopt_file_size filenum st
      have hk := wkeep_config _ _
        (fill_file_wkeep env BLOCK_ITEMS st.g.gopt_file_size filenum st).1
      generalize fill_file env BLOCK_ITEMS st.g.gopt_file_size filenum st = r at hs hc hbk hk ⊢
      cases hb : r.brk
      · rw [if_neg (by simp)]
        have hs1 := hs hb
        have hi := ih r.filenum r.done
          { r.st with g := { r.st.g with gbytewrite := r.st.g.gbytewrite + r.wtotal,
                                         gbytewriten := r.st.g.gbytewrite + r.wtotal } }
        dsimp only at hi ⊢
        rw [hs1.2.1] at hi
        refine ⟨by omega, fun k hk1 => ?_, fun n fd hm => ?_⟩
        · rw [hi.2.1 k (by omega)]
          exact hs1.2.2.2 k (by omega)
        · rcases List.mem_append.1 hm with hm | hm
          · obtain ⟨hn, hfd, _⟩ := hc n fd hm
            subst hn
            subst hfd
            refine ⟨le_refl _, by omega, r.wtotal, ?_⟩
            rw [hi.2.1 st.w.next (by omega), hs1.2.2.1, file_seed, seed_mod]
          · obtain ⟨h1, h2, k, h3⟩ := hi.2.2 n fd hm
            refine ⟨by omega, h2, k, ?_⟩
            rw [h3, config_seed _ _ hk, config_size _ _ hk]
      · rw [if_pos rfl]
        have hb1 := hbk hb
        dsimp only
        rw [hb1.2.2.1]
        refine ⟨le_refl _, fun k _ => rfl, fun n fd hm => ?_⟩
        rw [hb1.2.2.2.2] at hm
        simp at hm
    · exact ⟨le_refl _, fun k _ => rfl, fun n fd h => by cases h⟩

theorem fill_small_content (env : Env) (fuel filenum done : Nat) (st : State) :
    st.w.next ≤ (fill_small env fuel filenum done st).st.w.next ∧
    (∀ k, k < st.w.next → (fill_small env fuel filenum done st).st.w.store k = st.w.store k) ∧
    (∀ n fd, Ev.creat n fd ∈ (fill_small env fuel filenum done st).evs →
      st.w.next ≤ fd ∧ fd < (fill_small env fuel filenum done st).st.w.next ∧
      ∃ k, (fill_small env fuel filenum done st).st.w.store fd =
        (stream_bytes ((st.g.g_seed + n + 1) % 2 ^ 32)
          (SMALL_BLOCKS * small_items st.g)).take k) := by
  induction fuel generalizing filenum done st with
  | zero => exact ⟨le_refl _, fun k _ => rfl, fun n fd h => by cases h⟩
  | succ fuel ih =>
    rw [fill_small]
    split
    · dsimp only
      have hs := fill_file_stream env (small_items st.g) SMALL_BLOCKS filenum st
      have hc := fill_file_creat env (small_items st.g) SMALL_BLOCKS filenum st
      have hbk := fill_file_brk env (small_items st.g) SMALL_BLOCKS filenum st
      have hk := wkeep_config _ _
        (fill_file_wkeep env (small_items st.g) SMALL_BLOCKS filenum st).1
      generalize fill_file env (small_items st.g) SMALL_BLOCKS filenum st = r at hs hc hbk hk ⊢
      cases hb : r.brk
      · rw [if_neg (by simp)]
        have hs1 := hs hb
        have hi := ih r.filenum r.done
          { r.st with g := { r.st.g with gbytewrite := r.st.g.gbytewrite + r.wtotal } }
        have hsi : small_items
            ({ r.st.g with gbytewrite := r.st.g.gbytewrite + r.wtotal } : Globals) =
            small_items st.g := config_small_items _ _ hk
        dsimp only at hi ⊢
        rw [hs1.2.1] at hi
        refine ⟨by omega, fun k hk1 => ?_, fun n fd hm => ?_⟩
        · rw [hi.2.1 k (by omega)]
          exact hs1.2.2.2 k (by omega)
        · rcases List.mem_append.1 hm with hm | hm
          · obtain ⟨hn, hfd, _⟩ := hc n fd hm
            subst hn
            subst hfd
            refine ⟨le_refl _, by omega, r.wtotal, ?_⟩
            rw [hi.2.1 st.w.next (by omega), hs1.2.2.1, file_seed, seed_mod]
          · obtain ⟨h1, h2, k, h3⟩ := hi.2.2 n fd hm
            refine ⟨by omega, h2, k, ?_⟩
            rw [h3, hsi, config_seed _ _ hk]
      · rw [if_pos rfl]
        have hb1 := hbk hb
        dsimp only
        rw [hb1.2.2.1]
        refine ⟨le_refl _, fun k _ => rfl, fun n fd hm => ?_⟩
        rw [hb1.2.2.2.2] at hm
        simp at hm
    · exact ⟨le_refl _, fun k _ => rfl, fun n fd h => by cases h⟩

theorem fill_randfiles_content (env : Env) (fuel : Nat) (st : State) (n fd : Nat)
    (h : Ev.creat n fd ∈ (fill_randfiles env fuel st).large ++ (fill_randfiles env fuel st).small) :
    ∃ M k, (fill_randfiles env fuel st).st.w.store fd =
      (stream_bytes ((st.g.g_seed + n + 1) % 2 ^ 32) M).take k := by
  have h1 := fill_large_content env st.g.gopt_file_limit 0 0 st
  have hk := wkeep_config _ _ (fill_large_wkeep env st.g.gopt_file_limit 0 0 st)
  have h2 := fill_small_content env fuel (fill_large env st.g.gopt_file_limit 0 0 st).filenum 0
    (fill_large env st.g.gopt_file_limit 0 0 st).st
  have hst : (fill_randfiles env fuel st).st =
      (fill_small env fuel (fill_large env st.g.gopt_file_limit 0 0 st).filenum 0
        (fill_large env st.g.gopt_file_limit 0 0 st).st).st := rfl
  rw [hst]
  rcases List.mem_append.1 h with h | h
  · obtain ⟨_, hlt, k, h3⟩ := h1.2.2 n fd h
    exact ⟨_, k, by rw [h2.2.1 fd hlt, h3]⟩
  · obtain ⟨_, _, k, h3⟩ := h2.2.2 n fd h
    exact ⟨_, k, by rw [h3, config_seed _ _ hk]⟩

/-- C6. Every file the writer creates, in the large-block or in the small-block loop,
under the name with number `n`, is started with the generator at `g_seed + n + 1` (in
`unsigned int` arithmetic, the counter having been incremented first), and whenever the
verifier run with the same `g_seed` opens the file named with `n`, in either loop, it
starts with that same value. So the two sequences agree: whatever the `write` calls
return, what a file created under the name `n` has received is an initial part of the
bytes of the sequence `fill_block` generates from that value; and the verifier, started
at a value `rnd`, accepts a block of items without a mismatch report exactly when the
items are the sequence `fill_block` generates from `rnd`, continues that sequence in the
next block, and so checks a complete file that it reads in full blocks without a report
exactly when the file holds the sequence generated from `rnd`. -/
theorem write_verify_same_seed (envw envr : Env) (fuelw fuelr : Nat) (sw sr : State)
    (hseed : sr.g.g_seed = sw.g.g_seed) :
    wseeds_ok sw.g.g_seed
      ((fill_randfiles envw fuelw sw).large ++ (fill_randfiles envw fuelw sw).small) ∧
    rseeds_ok sw.g.g_seed
      ((read_randfiles envr fuelr sr).large ++ (read_randfiles envr fuelr sr).small) ∧
    (∀ n vw vr,
      Ev.wstart n vw ∈
        (fill_randfiles envw fuelw sw).large ++ (fill_randfiles envw fuelw sw).small →
      Ev.rstart n vr ∈
        (read_randfiles envr fuelr sr).large ++ (read_randfiles envr fuelr sr).small →
      vr = vw) ∧
    (∀ n fd,
      Ev.creat n fd ∈
        (fill_randfiles envw fuelw sw).large ++ (fill_randfiles envw fuelw sw).small →
      ∃ M k, (fill_randfiles envw fuelw sw).st.w.store fd =
        (stream_bytes ((sw.g.g_seed + n + 1) % 2 ^ 32) M).take k) ∧
    (∀ (name blocknum : Nat) (xs : List Nat) (i rnd : Nat) (g : Globals),
      ((check_block name blocknum xs i rnd g).evs = [] ↔
        xs = (fill_block xs.length rnd).1) ∧
      (check_block name blocknum xs i rnd g).rnd = (fill_block xs.length rnd).2) ∧
    (∀ (name nitems nblocks filenum1 rnd fd : Nat) (w1 : World) (st : State)
        (items : List Nat), 1 ≤ nitems →
      (∀ k, ((nitems * 8 : Nat) : Int) ≤ envr.rd k) → w1.store fd = block_bytes items →
      items.length = nblocks * nitems → (∀ x ∈ items, x < 2 ^ 64) →
      ((verify_file envr name (nitems * 8) nblocks filenum1 rnd fd w1 [Ev.openr name fd]
          st).evs.filter is_fault = [] ↔
        items = (fill_block (nblocks * nitems) rnd).1)) := by
  have hw := fill_randfiles_seeds envw fuelw sw
  have hr := read_randfiles_seeds envr fuelr sr
  rw [hseed] at hr
  refine ⟨hw, hr, fun n vw vr h1 h2 => ?_, fun n fd h => fill_randfiles_content envw fuelw sw n fd h,
    fun name blocknum xs i rnd g => check_block_accepts name blocknum xs i rnd g,
    fun name nitems nblocks filenum1 rnd fd w1 st items hn hrd hstore hlen hlt => ?_⟩
  · rw [(hw _ h1).1 n vw rfl, (hr _ h2).1 n vr rfl]
  · have hv := verify_file_full envr name nitems hn hrd nblocks filenum1 rnd fd w1
      [Ev.openr name fd] st items hstore hlen hlt rfl rfl
    rw [hv.2.2.2.1, mismatches_eq_nil_iff, hlen]

/-- Witness of C6: on a volume that takes eight bytes and then fails, in turns, the
writer with top-off leaves one file of eight bytes from each of its loops; the verifier
run on them starts each file at the value the writer used, in its two loops, and reports
no mismatch. -/
theorem write_verify_same_seed_witness :
    (fill_randfiles env_drip 1 (State.init { fulfill := 1 } World.empty)).large =
      [Ev.creat 0 0, Ev.wstart 0 1434038593, Ev.write 0 1048576 8, Ev.write 0 1048568 0,
        Ev.close 0, Ev.wrote 0 8] ∧
    (fill_randfiles env_drip 1 (State.init { fulfill := 1 } World.empty)).small =
      [Ev.creat 1 1, Ev.wstart 1 1434038594, Ev.write 1 4096 8, Ev.write 1 4088 0,
        Ev.close 1, Ev.wrote 1 8] ∧
    (read_randfiles env_ok 2
      (fill_randfiles env_drip 1 (State.init { fulfill := 1 } World.empty)).st).large =
      [Ev.openr 0 0, Ev.rstart 0 1434038593, Ev.read 0 0 1048576 8, Ev.read 0 1 1048576 0,
        Ev.close 0, Ev.readrep 0 8] ∧
    (read_randfiles env_ok 2
      (fill_randfiles env_drip 1 (State.init { fulfill := 1 } World.empty)).st).small =
      [Ev.openr 1 1, Ev.rstart 1 1434038594, Ev.read 1 0 4096 8, Ev.read 1 1 4096 0,
        Ev.close 1, Ev.readrep 1 8] ∧
    (read_randfiles env_ok 2
      (fill_randfiles env_drip 1
        (State.init { fulfill := 1 } World.empty)).st).st.g.errors_found = 0 ∧
    wseeds_ok 1434038592
      ((fill_randfiles env_drip 1 (State.init { fulfill := 1 } World.empty)).large ++
        (fill_randfiles env_drip 1 (State.init { fulfill := 1 } World.empty)).small) ∧
    rseeds_ok 1434038592
      ((read_randfiles env_ok 2
          (fill_randfiles env_drip 1 (State.init { fulfill := 1 } World.empty)).st).large ++
        (read_randfiles env_ok 2
          (fill_randfiles env_drip 1 (State.init { fulfill := 1 } World.empty)).st).small) :=
  ⟨rfl, rfl, by decide!, by decide!, by decide!,
    (write_verify_same_seed env_drip env_ok 1 2 (State.init { fulfill := 1 } World.empty)
      (fill_randfiles env_drip 1 (State.init { fulfill := 1 } World.empty)).st rfl).1,
    (write_verify_same_seed env_drip env_ok 1 2 (State.init { fulfill := 1 } World.empty)
      (fill_randfiles env_drip 1 (State.init { fulfill := 1 } World.empty)).st rfl).2.1⟩

end DiskFilltest
